import Mathlib

/-!
# Cabana chart: sample buffer, range index and axis scaling

A shallow embedding of `tools/cabana/chart/chart.cc` (`ChartView::updateSeries`,
`ChartView::updateAxisY`, `ChartView::getNiceAxisNumbers`, `ChartView::niceNumber`,
`ChartView::showTip`) and of the library routines they call (`std::lower_bound`,
`std::upper_bound`, `qFloor`, `qCeil`), followed by the stride computation of the constructor
`SNPEModel::SNPEModel` in `selfdrive/modeld/runners/snpemodel.cc`, where a `size_t` is a natural
number and its products are taken modulo `2^64`.

Number model.  A finite `double` is an exact rational; `Double` adds the two infinities.
Comparisons, `std::min` and `std::max` are exact on doubles, so they are modelled exactly.
The axis scaler is modelled twice.  In `niceNumber` and `getNiceAxisNumbers` the arithmetic is
carried out on exact rationals and the rounding of `+ - * /`, `log10` and `pow` is left out;
the results on the padded axis and on the tick count are stated on this model.  In
`Ieee.niceNumber` and `Ieee.getNiceAxisNumbers` every quotient and product is rounded to
`double` and the library routines `std::log10` and `qPow` are parameters; the inputs at which
the rounding shows are stated on that model.  NaN is not modelled.  The conversion `double -> float` that happens when a
`double` is passed to the `float` parameter of `xLessThan` is modelled (round to nearest, ties to
even, 24 bit significand), and so is the `int` range of `qFloor` / `qCeil`.
-/

namespace Cabana

/-! ## Numbers -/

/-- A `double` without NaN: `⊥` is `-inf`, `⊤` (coerced) is `+inf`, the rest are finite. -/
abbrev Double := WithBot (WithTop ℚ)

/-- The finite double with value `q`. -/
def Double.ofRat (q : ℚ) : Double := ((q : WithTop ℚ) : WithBot (WithTop ℚ))

/-- The double `+inf`. -/
def Double.posInf : Double := ((⊤ : WithTop ℚ) : WithBot (WithTop ℚ))

/-- The double `-inf`. -/
def Double.negInf : Double := ⊥

/-- Value of `std::numeric_limits<double>::max()`, `(2 - 2^-52) * 2^1023`. -/
def DBL_MAX : ℚ := 2 ^ 1024 - 2 ^ 971

/-- Value of `std::numeric_limits<double>::lowest()`. -/
def DBL_LOWEST : ℚ := -DBL_MAX

/-- `std::min(a, b)`: `b` when `b < a`, else `a`. -/
def stdMin (a b : Double) : Double := if b < a then b else a

/-- `std::max(a, b)`: `b` when `a < b`, else `a`. -/
def stdMax (a b : Double) : Double := if a < b then b else a

/-- Rounding of a rational to the nearest integer, ties to the even one. -/
def roundHalfEven (q : ℚ) : ℤ :=
  let f := ⌊q⌋
  if q - f < 1 / 2 then f
  else if 1 / 2 < q - f then f + 1
  else if f % 2 = 0 then f else f + 1

/-- Conversion `double -> float -> double` (IEEE binary32, round to nearest even): the value is
rounded to a multiple of the unit in the last place `2 ^ (e - 23)`, where `2 ^ e <= |x| < 2 ^ (e+1)`
and `e` is at least `-126` (subnormals); a rounded magnitude of `2 ^ 128` or more is infinite. -/
def toFloat (x : ℚ) : Double :=
  if x = 0 then Double.ofRat 0
  else
    let e : ℤ := max (Int.log 2 |x|) (-126)
    let ulp : ℚ := 2 ^ (e - 23)
    let r : ℚ := roundHalfEven (x / ulp) * ulp
    if 2 ^ 128 ≤ |r| then (if 0 < x then Double.posInf else Double.negInf)
    else Double.ofRat r

/-! ## Samples and the window search -/

/-- `QPointF`: one decoded sample, `x` the timestamp in seconds and `y` the value. -/
structure QPointF where
  x : ℚ
  y : ℚ
  deriving DecidableEq

/-- `xLessThan(const QPointF &p, float x)`, chart.cc:16: the bound arrives as a `float`. -/
def xLessThan (p : QPointF) (x : ℚ) : Bool := decide (Double.ofRat p.x < toFloat x)

/-- Loop of `std::lower_bound` over the positions `first .. first + len` of `v`; `fuel` bounds
the number of iterations, `len` iterations always suffice. -/
def lower_bound_loop {α β : Type} (comp : α → β → Bool) (v : List α) (value : β) :
    Nat → Nat → Nat → Nat
  | 0, first, _ => first
  | fuel + 1, first, len =>
    if len = 0 then first
    else
      let half := len / 2
      let middle := first + half
      match v[middle]? with
      | some p =>
        if comp p value then lower_bound_loop comp v value fuel (middle + 1) (len - half - 1)
        else lower_bound_loop comp v value fuel first half
      | none => first

/-- `std::lower_bound(v.begin() + first, v.begin() + last, value, comp)` as a position in `v`. -/
def lower_bound {α β : Type} (comp : α → β → Bool) (v : List α) (first last : Nat) (value : β) :
    Nat :=
  lower_bound_loop comp v value (last - first) first (last - first)

/-- The two searches of `updateAxisY`, chart.cc:301-302: `first` over the whole buffer, `last`
from `first` on. -/
def windowRange (vals : List QPointF) (axis_min axis_max : ℚ) : Nat × Nat :=
  let first := lower_bound xLessThan vals 0 vals.length axis_min
  let last := lower_bound xLessThan vals first vals.length axis_max
  (first, last)

/-! ## The range index -/

/-- Modelled from the spec: the node type of `SegmentTree` (the class is declared in a header
that is not among the sources).  Spec 3: "a complete binary tree over array positions `[0, n)`,
where each node stores the `(min_value, max_value)` of its covered sub-range". -/
inductive RangeNode where
  | nil : RangeNode
  | leaf (mn mx : Double) : RangeNode
  | node (mn mx : Double) (l r : RangeNode) : RangeNode
  deriving DecidableEq

/-- Modelled from the spec: the result of `SegmentTree::minmax` on an empty range, spec 4.2:
"Returns `(+inf, -inf)` conventionally when `lo == hi` (empty range)". -/
def emptyExtent : Double × Double := (Double.posInf, Double.negInf)

/-- Modelled from the spec: the `(min, max)` stored in a node of `SegmentTree`. -/
def RangeNode.extent : RangeNode → Double × Double
  | .nil => emptyExtent
  | .leaf mn mx => (mn, mx)
  | .node mn mx _ _ => (mn, mx)

/-- Modelled from the spec: the recursive construction behind `SegmentTree::build`, spec 4.2:
"constructs the tree bottom-up in O(n) from the current sample values; stores `(min,max)` per
node".  A node over two or more values is split in the middle and stores the combination of its
children; `fuel` bounds the depth, the number of values always suffices. -/
def buildNode : Nat → List ℚ → RangeNode
  | 0, _ => .nil
  | _ + 1, [] => .nil
  | _ + 1, [y] => .leaf (Double.ofRat y) (Double.ofRat y)
  | fuel + 1, ys =>
    let l := buildNode fuel (ys.take (ys.length / 2))
    let r := buildNode fuel (ys.drop (ys.length / 2))
    .node (stdMin l.extent.1 r.extent.1) (stdMax l.extent.2 r.extent.2) l r

/-- Modelled from the spec: the recursive descent behind `SegmentTree::minmax`, spec 4.2:
"recursive descent combining at most O(log n) node ranges that the `[lo,hi)` interval decomposes
into; each combination step takes `min(a.min,b.min)`, `max(a.max,b.max)`".  The node covers the
positions `[left, right)`. -/
def queryNode : RangeNode → Nat → Nat → Nat → Nat → Double × Double
  | .nil, _, _, _, _ => emptyExtent
  | .leaf mn mx, left, right, lo, hi =>
    if hi ≤ lo ∨ hi ≤ left ∨ right ≤ lo then emptyExtent else (mn, mx)
  | .node mn mx l r, left, right, lo, hi =>
    if hi ≤ lo ∨ hi ≤ left ∨ right ≤ lo then emptyExtent
    else if lo ≤ left ∧ right ≤ hi then (mn, mx)
    else
      let mid := left + (right - left) / 2
      let a := queryNode l left mid lo hi
      let b := queryNode r mid right lo hi
      (stdMin a.1 b.1, stdMax a.2 b.2)

/-- Modelled from the spec: `SegmentTree`, the range index of spec 3 and 4.2; it records the
sample count it was built over. -/
structure SegmentTree where
  size : Nat
  root : RangeNode
  deriving DecidableEq

/-- Modelled from the spec: a default constructed `SegmentTree`. -/
def SegmentTree.empty : SegmentTree := ⟨0, .nil⟩

/-- Modelled from the spec: `SegmentTree::build(vals)`, spec 4.2 `build(buffer_snapshot)`, over
the `y` values of the samples. -/
def SegmentTree.build (vals : List QPointF) : SegmentTree :=
  ⟨vals.length, buildNode vals.length (vals.map (fun p => p.y))⟩

/-- Modelled from the spec: `SegmentTree::minmax(lo, hi)`, spec 4.2 `query(lo, hi)`, over the
half-open position range `[lo, hi)`. -/
def SegmentTree.minmax (t : SegmentTree) (lo hi : Nat) : Double × Double :=
  queryNode t.root 0 t.size lo hi

/-- The least of the values `ys` as a double, `+inf` for no value. -/
def listMin (ys : List ℚ) : Double :=
  ys.foldr (fun y acc => min (Double.ofRat y) acc) Double.posInf

/-- The greatest of the values `ys` as a double, `-inf` for no value. -/
def listMax (ys : List ℚ) : Double :=
  ys.foldr (fun y acc => max (Double.ofRat y) acc) Double.negInf

/-- The linear scan the spec compares the index with, spec 8: "the linear-scan min/max over
`samples[lo:hi]` ... including `lo == hi` (empty -> sentinel)". -/
def linearScanMinMax (ys : List ℚ) (lo hi : Nat) : Double × Double :=
  (listMin ((ys.take hi).drop lo), listMax ((ys.take hi).drop lo))

/-! ## Series items -/

/-- `CanEvent`: one raw event; `size` is the length of `dat`. -/
structure CanEvent where
  mono_time : Nat
  dat : List Nat
  deriving DecidableEq

/-- `ChartView::SigItem`, chart.h:37-48.  `sig` is the address held by the pointer, `visible`
is `series->isVisible()`; the other Qt state of `series` is not modelled. -/
structure SigItem where
  msg_id : Nat
  sig : Nat
  visible : Bool
  vals : List QPointF
  step_vals : List QPointF
  last_value_mono_time : Nat
  segment_tree : SegmentTree
  min : Double
  max : Double
  deriving DecidableEq

/-- The event list is sorted by `mono_time`. -/
def sortedEvents (msgs : List CanEvent) : Prop :=
  msgs.Pairwise (fun a b => a.mono_time ≤ b.mono_time)

instance (msgs : List CanEvent) : Decidable (sortedEvents msgs) := by
  unfold sortedEvents; infer_instance

/-- The timestamps of the buffer are non-decreasing. -/
def sortedX (vals : List QPointF) : Prop :=
  vals.Pairwise (fun p q => p.x ≤ q.x)

instance (vals : List QPointF) : Decidable (sortedX vals) := by
  unfold sortedX; infer_instance

/-- Modelled from the spec: the comparison `CanEvent{.mono_time = t} < e` behind
`std::upper_bound`; the operator is declared with `CanEvent`, outside the sources.  Spec 6: the
event source is "an ordered-by-timestamp sequence of raw message events", "queryable by
`lower_bound(mono_time)` / `upper_bound(mono_time)`". -/
def eventLess (t : Nat) (e : CanEvent) : Bool := decide (t < e.mono_time)

/-- Loop of `std::upper_bound` over the positions `first .. first + len` of `v`. -/
def upper_bound_loop {α β : Type} (comp : β → α → Bool) (v : List α) (value : β) :
    Nat → Nat → Nat → Nat
  | 0, first, _ => first
  | fuel + 1, first, len =>
    if len = 0 then first
    else
      let half := len / 2
      let middle := first + half
      match v[middle]? with
      | some p =>
        if comp value p then upper_bound_loop comp v value fuel first half
        else upper_bound_loop comp v value fuel (middle + 1) (len - half - 1)
      | none => first

/-- `std::upper_bound(v.begin() + first, v.begin() + last, value, comp)` as a position in `v`. -/
def upper_bound {α β : Type} (comp : β → α → Bool) (v : List α) (first last : Nat) (value : β) :
    Nat :=
  upper_bound_loop comp v value (last - first) first (last - first)

/-- Timestamp of an event in seconds, chart.cc:267: `mono_time / 1e9 - route_start_time`. -/
def eventSeconds (route_start_time : ℚ) (mono_time : Nat) : ℚ :=
  (mono_time : ℚ) / 1000000000 - route_start_time

/-- The sample decoded from one event, chart.cc:266-268: `{ts, value}`. -/
def sampleOf (route_start_time : ℚ) (get_raw_value : List Nat → Nat → ℚ) (sig : Nat)
    (e : CanEvent) : QPointF :=
  ⟨eventSeconds route_start_time e.mono_time, get_raw_value e.dat sig⟩

/-- Body of the decoding loop of `updateSeries`, chart.cc:266-273, for one event.
`get_raw_value dat sig` stands for `get_raw_value(first->dat, first->size, *s.sig)`. -/
def appendEvent (route_start_time : ℚ) (get_raw_value : List Nat → Nat → ℚ) (s : SigItem)
    (e : CanEvent) : SigItem :=
  let value := get_raw_value e.dat s.sig
  let ts := eventSeconds route_start_time e.mono_time
  let step1 :=
    match s.step_vals.getLast? with
    | some back => s.step_vals ++ [⟨ts, back.y⟩]
    | none => s.step_vals
  { s with
    vals := s.vals ++ [⟨ts, value⟩]
    step_vals := step1 ++ [⟨ts, value⟩]
    last_value_mono_time := e.mono_time }

/-- Body of the loop of `updateSeries` for one series, chart.cc:249-278: clear in replay mode,
find the first event after the marker, decode from there to the end, rebuild the index in replay
mode.  `msgs` is `can->events().at(s.msg_id)` and `live` is `can->liveStreaming()`.  The calls
that reserve capacity and the calls into the Qt series are not modelled. -/
def updateSeriesItem (live : Bool) (route_start_time : ℚ) (get_raw_value : List Nat → Nat → ℚ)
    (msgs : List CanEvent) (s : SigItem) : SigItem :=
  let s1 := if live then s else { s with vals := [], step_vals := [], last_value_mono_time := 0 }
  let first := upper_bound eventLess msgs 0 msgs.length s1.last_value_mono_time
  let s2 := (msgs.drop first).foldl (appendEvent route_start_time get_raw_value) s1
  if live then s2 else { s2 with segment_tree := SegmentTree.build s2.vals }

/-- Successive live-mode calls of `updateSeries` for one series while the event list of its
message grows at the tail: `seen` is the list at the previous call, each element of `tails` is
what has been added before the next call. -/
def liveUpdates (route_start_time : ℚ) (get_raw_value : List Nat → Nat → ℚ) :
    List CanEvent → List (List CanEvent) → SigItem → SigItem
  | _, [], s => s
  | seen, t :: ts, s =>
    liveUpdates route_start_time get_raw_value (seen ++ t) ts
      (updateSeriesItem true route_start_time get_raw_value (seen ++ t) s)

/-- The linear scan of `updateAxisY` in live mode, chart.cc:306-309, from the extent `acc`. -/
def scanExtent (pts : List QPointF) (acc : Double × Double) : Double × Double :=
  pts.foldl (fun a p =>
    (if Double.ofRat p.y < a.1 then Double.ofRat p.y else a.1,
     if a.2 < Double.ofRat p.y then Double.ofRat p.y else a.2)) acc

/-- Body of the loop of `updateAxisY` for one series, chart.cc:294-314, as far as the series
item is concerned: a hidden series is skipped, a visible one gets the extent of the window
`[axis_min, axis_max)` of the x axis, by linear scan in live mode and from the index otherwise. -/
def updateAxisYItem (live : Bool) (axis_min axis_max : ℚ) (s : SigItem) : SigItem :=
  if s.visible then
    let w := windowRange s.vals axis_min axis_max
    if live then
      let e := scanExtent ((s.vals.take w.2).drop w.1) (Double.ofRat DBL_MAX, Double.ofRat DBL_LOWEST)
      { s with min := e.1, max := e.2 }
    else
      let e := s.segment_tree.minmax w.1 w.2
      { s with min := e.1, max := e.2 }
  else s

/-! ## Concrete inputs used to instantiate the theorems -/

/-- A decoder for the examples: the first payload byte. -/
def firstByte : List Nat → Nat → ℚ := fun dat _ => ((dat.headD 0 : Nat) : ℚ)

/-- A freshly added series: `addSeries` pushes `{.msg_id, .sig, .series}`, the other members keep
their initialisers of chart.h:41-47. -/
def newItem (msg_id sig : Nat) : SigItem :=
  ⟨msg_id, sig, true, [], [], 0, SegmentTree.empty, Double.ofRat 0, Double.ofRat 0⟩

/-- A live series holding the sample of the first of `threeEvents`. -/
def oneSampleItem : SigItem :=
  ⟨0, 0, true, [⟨1, 4⟩], [⟨1, 4⟩], 1000000000, SegmentTree.empty, Double.ofRat 0, Double.ofRat 0⟩

/-- A series whose only sample is later than its marker says: timestamp 5 s, marker 0. -/
def staleItem : SigItem :=
  ⟨0, 0, true, [⟨5, 0⟩], [⟨5, 0⟩], 0, SegmentTree.empty, Double.ofRat 0, Double.ofRat 0⟩

/-- The double nearest to 0.1, `0x1.999999999999ap-4`. -/
def tenth : ℚ := 3602879701896397 / 36028797018963968

/-- A visible live series whose only sample has the timestamp `tenth` and the value 7. -/
def tenthItem : SigItem :=
  ⟨0, 0, true, [⟨tenth, 7⟩], [⟨tenth, 7⟩], 0, SegmentTree.empty, Double.ofRat 0, Double.ofRat 0⟩

/-- A visible replay series over the samples of spec 8, with its index built. -/
def fourSampleItem : SigItem :=
  ⟨0, 0, true, [⟨0, 1⟩, ⟨1, 3⟩, ⟨2, 2⟩, ⟨3, 5⟩], [], 0,
    SegmentTree.build [⟨0, 1⟩, ⟨1, 3⟩, ⟨2, 2⟩, ⟨3, 5⟩], Double.ofRat 0, Double.ofRat 0⟩

/-- Three events, one, two and two seconds after the start. -/
def threeEvents : List CanEvent :=
  [⟨1000000000, [4]⟩, ⟨2000000000, [6]⟩, ⟨2000000000, [5]⟩]

/-! ## Axis scaling -/

/-- Least value of `int`. -/
def INT_MIN : ℤ := -2147483648

/-- Greatest value of `int`. -/
def INT_MAX : ℤ := 2147483647

/-- Conversion `int(v)` of a double with an integral value; a value outside the range of `int`
has no defined result. -/
def toInt (v : ℤ) : Option ℤ := if INT_MIN ≤ v ∧ v ≤ INT_MAX then some v else none

/-- `qFloor(v)`, that is `int(std::floor(v))`. -/
def qFloor (v : ℚ) : Option ℤ := toInt ⌊v⌋

/-- `qCeil(v)`, that is `int(std::ceil(v))`. -/
def qCeil (v : ℚ) : Option ℤ := toInt ⌈v⌉

/-- The value `niceNumber` computes for `x > 0`, chart.cc:352-365, with exact arithmetic: `z` is
the power of ten `10 ^ floor(log10 x)` and the quotient `x / z` is replaced by one of 1, 2, 5,
10.  The rounding of the logarithm, the power, the quotient and the product is left out here;
`Ieee.niceNumber` has it. -/
def niceNumberValue (x : ℚ) (ceiling : Bool) : ℚ :=
  let z : ℚ := 10 ^ (Int.log 10 x)
  let q := x / z
  let q :=
    if ceiling then
      if q ≤ 1 then 1 else if q ≤ 2 then 2 else if q ≤ 5 then 5 else 10
    else
      if q < 3 / 2 then 1 else if q < 3 then 2 else if q < 7 then 5 else 10
  q * z

/-- `ChartView::niceNumber`, chart.cc:351-366, with exact arithmetic.  For `x <= 0` the value
`std::log10(x)` is `-inf` or NaN and its conversion to `int` inside `qFloor` has no defined
result. -/
def niceNumber (x : ℚ) (ceiling : Bool) : Option ℚ :=
  if 0 < x then some (niceNumberValue x ceiling) else none

/-- The tick step of `getNiceAxisNumbers`, chart.cc:342-343, for `min < max` and a tick count
of 2 or more: the span rounded up to a nice number, divided by `tick_count - 1` and rounded to
the nearest nice number. -/
def axisStep (min max : ℚ) (tick_count : ℤ) : ℚ :=
  niceNumberValue (niceNumberValue (max - min) true / (tick_count - 1)) false

/-- `ChartView::getNiceAxisNumbers`, chart.cc:341-348, with exact arithmetic: the quotients and
the products are not rounded (`Ieee.getNiceAxisNumbers` rounds them).  A tick count of 1 divides
by zero, which leaves `niceNumber` with a non-finite argument. -/
def getNiceAxisNumbers (min max : ℚ) (tick_count : ℤ) : Option (ℚ × ℚ × ℤ) :=
  (niceNumber (max - min) true).bind fun range =>
  if tick_count - 1 = 0 then none
  else
    (niceNumber (range / (tick_count - 1)) false).bind fun step =>
    (qFloor (min / step)).bind fun mn =>
    (qCeil (max / step)).bind fun mx =>
    (toInt (mx - mn)).bind fun d =>
    (toInt (d + 1)).bind fun tc =>
    some (mn * step, mx * step, tc)

/-! ## The y axis of a chart -/

/-- The part of `ChartView` that `updateAxisY` reads and writes, chart.h:88-97: the series, the
range of `axis_x`, and of `axis_y` the range, the tick count and the title. -/
structure ChartView where
  sigs : List SigItem
  axis_x_min : ℚ
  axis_x_max : ℚ
  axis_y_min : ℚ
  axis_y_max : ℚ
  axis_y_tick_count : ℤ
  axis_y_title : String
  y_label_width : ℤ

/-- The finite value of a double, none for an infinity. -/
def Double.finite? (d : Double) : Option ℚ :=
  match (d : Option (Option ℚ)) with
  | some (some q) => some q
  | _ => none

/-- Loop of `updateAxisY` over the series, chart.cc:293-317, from the running `(min, max, unit)`:
a hidden series is skipped; a visible one clears the unit when its own differs, gets its extent
(`updateAxisYItem`) and is merged into the running extent with `std::min` and `std::max`.
`sigUnit sig` stands for `s.sig->unit`. -/
def updateAxisYLoop (live : Bool) (sigUnit : Nat → String) (axis_min axis_max : ℚ) :
    List SigItem → Double × Double × String → List SigItem × (Double × Double × String)
  | [], acc => ([], acc)
  | s :: rest, acc =>
    if s.visible then
      let unit := if acc.2.2 ≠ sigUnit s.sig then "" else acc.2.2
      let s1 := updateAxisYItem live axis_min axis_max s
      let r := updateAxisYLoop live sigUnit axis_min axis_max rest
        (stdMin acc.1 s1.min, stdMax acc.2.1 s1.max, unit)
      (s1 :: r.1, r.2)
    else
      let r := updateAxisYLoop live sigUnit axis_min axis_max rest acc
      (s :: r.1, r.2)

/-- The two tests after the loop of `updateAxisY`, chart.cc:318-319: an extent still at its
initial sentinel becomes 0. -/
def replaceSentinels (e : Double × Double) : Double × Double :=
  (if e.1 = Double.ofRat DBL_MAX then Double.ofRat 0 else e.1,
   if e.2 = Double.ofRat DBL_LOWEST then Double.ofRat 0 else e.2)

/-- The values `min`, `max` and `unit` of `updateAxisY` before its loop, chart.cc:289-291, for a
chart whose first series is of the signal `sig`. -/
def loopStart (sigUnit : Nat → String) (sig : Nat) : Double × Double × String :=
  (Double.ofRat DBL_MAX, Double.ofRat DBL_LOWEST, sigUnit sig)

/-- The raw extent `(min, max)` of `updateAxisY` at chart.cc:320, for a chart whose series are
`s0 :: rest`: the loop started from the sentinels, then the two tests. -/
def rawExtent (live : Bool) (sigUnit : Nat → String) (axis_min axis_max : ℚ)
    (s0 : SigItem) (rest : List SigItem) : Double × Double :=
  let r := updateAxisYLoop live sigUnit axis_min axis_max (s0 :: rest) (loopStart sigUnit s0.sig)
  replaceSentinels (r.2.1, r.2.2.1)

/-- The pad `delta` of `updateAxisY`, chart.cc:326: 1 for a span below `1e-3`, else 5% of the
span. -/
def axisPadding (min max : ℚ) : ℚ :=
  if |max - min| < 1 / 1000 then 1 else (max - min) * (1 / 20)

/-- The call of the scaler in `updateAxisY`, chart.cc:326-327, for the raw extent `(min, max)`:
`getNiceAxisNumbers(min - delta, max + delta, axis_y->tickCount())`. -/
def scaleAxis (min max : ℚ) (tick_count : ℤ) : Option (ℚ × ℚ × ℤ) :=
  getNiceAxisNumbers (min - axisPadding min max) (max + axisPadding min max) tick_count

/-- The end of `updateAxisY`, chart.cc:321-338, for the series `sigs` as the loop left them, the
unit `unit` and the scaled axis `a = (min_y, max_y, tick_count)`: the title is replaced when it
differs, which also resets the label width, and the range and the tick count are stored when the
range differs or the label width is 0.  `labelWidth unit min_y max_y tick_count` stands for the
width computed from the font metrics at chart.cc:332-335; `setRange` and `setTickCount` are taken
to store their arguments. -/
def applyAxis (labelWidth : String → ℚ → ℚ → ℤ → ℤ) (c : ChartView) (sigs : List SigItem)
    (unit : String) (a : ℚ × ℚ × ℤ) : ChartView :=
  let width := if c.axis_y_title ≠ unit then 0 else c.y_label_width
  if a.1 ≠ c.axis_y_min ∨ a.2.1 ≠ c.axis_y_max ∨ width = 0 then
    { c with
      sigs := sigs
      axis_y_title := unit
      axis_y_min := a.1
      axis_y_max := a.2.1
      axis_y_tick_count := a.2.2
      y_label_width := labelWidth unit a.1 a.2.1 a.2.2 }
  else
    { c with sigs := sigs, axis_y_title := unit, y_label_width := width }

/-- `ChartView::updateAxisY`, chart.cc:286-339.  No result is defined when the raw extent is not
finite or the scaler has none. -/
def updateAxisY (live : Bool) (sigUnit : Nat → String) (labelWidth : String → ℚ → ℚ → ℤ → ℤ)
    (c : ChartView) : Option ChartView :=
  match c.sigs with
  | [] => some c
  | s0 :: rest =>
    let r := updateAxisYLoop live sigUnit c.axis_x_min c.axis_x_max (s0 :: rest)
      (loopStart sigUnit s0.sig)
    let e := rawExtent live sigUnit c.axis_x_min c.axis_x_max s0 rest
    (Double.finite? e.1).bind fun min =>
    (Double.finite? e.2).bind fun max =>
    (scaleAxis min max c.axis_y_tick_count).map (applyAxis labelWidth c r.1 r.2.2.2)

/-- The last four lines of `getNiceAxisNumbers`, chart.cc:344-347, for the step `step`: the
bounds are snapped to multiples of the step and the ticks counted. -/
def snapToStep (min max step : ℚ) : Option (ℚ × ℚ × ℤ) :=
  (qFloor (min / step)).bind fun mn =>
  (qCeil (max / step)).bind fun mx =>
  (toInt (mx - mn)).bind fun d =>
  (toInt (d + 1)).bind fun tc =>
  some (mn * step, mx * step, tc)

/-! ## Further concrete inputs -/

/-- A chart over the series `sigs` with the x axis `[axis_x_min, axis_x_max)` and a y axis
as `QValueAxis` constructs it: range `(0, 0)`, 5 ticks, no title. -/
def newChart (sigs : List SigItem) (axis_x_min axis_x_max : ℚ) : ChartView :=
  ⟨sigs, axis_x_min, axis_x_max, 0, 0, 5, "", 0⟩

/-- A signal table for the examples: no signal has a unit. -/
def noUnit : Nat → String := fun _ => ""

/-- A label width for the examples. -/
def someWidth : String → ℚ → ℚ → ℤ → ℤ := fun _ _ _ _ => 40

/-- A live series holding the samples of `threeEvents`. -/
def threeSampleItem : SigItem :=
  ⟨0, 0, true, [⟨1, 4⟩, ⟨2, 6⟩, ⟨2, 5⟩], [⟨1, 4⟩, ⟨2, 4⟩, ⟨2, 6⟩, ⟨2, 6⟩, ⟨2, 5⟩], 2000000000,
    SegmentTree.empty, Double.ofRat 0, Double.ofRat 0⟩

/-- The events of `threeEvents` followed by one more, three seconds after the start. -/
def fourEvents : List CanEvent :=
  [⟨1000000000, [4]⟩, ⟨2000000000, [6]⟩, ⟨2000000000, [5]⟩, ⟨3000000000, [7]⟩]

/-- Three events of which the last is earlier than the one before it. -/
def unorderedEvents : List CanEvent :=
  [⟨1000000000, [4]⟩, ⟨3000000000, [6]⟩, ⟨2000000000, [5]⟩]

/-- Four events whose samples are those of spec 8 when the route starts at 1 s: timestamps
0, 1, 2, 3 and values 1, 3, 2, 5. -/
def scenarioEvents : List CanEvent :=
  [⟨1000000000, [1]⟩, ⟨2000000000, [3]⟩, ⟨3000000000, [2]⟩, ⟨4000000000, [5]⟩]

/-- A decoder for the examples that stands for changed signal parameters: every value is 0. -/
def zeroDecoder : List Nat → Nat → ℚ := fun _ _ => 0

/-! ## The power of ten of `niceNumber` -/

/-- The value `z` of `niceNumber`, chart.cc:352, with exact arithmetic: 10 to the floor of the
logarithm of `x`. -/
def niceNumberZ (x : ℚ) : ℚ := 10 ^ (Int.log 10 x)

/-- The value `q` of `niceNumber` before the thresholds, chart.cc:353, with exact arithmetic:
`x / z`. -/
def niceNumberQ (x : ℚ) : ℚ := x / niceNumberZ x

/-! ## The tooltip search -/

/-- The comparison of the search in `showTip`, chart.cc:512: `p.x() > x`, with the bound a
`double`. -/
def xGreaterThan (p : QPointF) (x : ℚ) : Bool := decide (x < p.x)

/-- The search of `showTip`, chart.cc:512, as a position in the reversed buffer:
`std::lower_bound(vals.rbegin(), vals.rend(), sec, ...)`. -/
def showTipSearch (vals : List QPointF) (sec : ℚ) : Nat :=
  lower_bound xGreaterThan vals.reverse 0 vals.reverse.length sec

/-- The sample `showTip` reports for one visible series, chart.cc:512-513: the one the search
finds, when there is one (`it != vals.rend()`) and its timestamp is at least `axis_x->min()`. -/
def showTipSample (vals : List QPointF) (sec axis_min : ℚ) : Option QPointF :=
  match vals.reverse[showTipSearch vals sec]? with
  | some p => if axis_min ≤ p.x then some p else none
  | none => none

/-- Body of the loop of `showTip` for one visible series, chart.cc:510-517, as the value shown
and the tracked point: the value of the reported sample, which becomes the tracked point, or
none, which stands for the text `"--"`, with the tracked point as it was.  The position of the
tooltip is not modelled. -/
def showTipItem (vals : List QPointF) (track_pt : QPointF) (sec axis_min : ℚ) :
    Option ℚ × QPointF :=
  match showTipSample vals sec axis_min with
  | some p => (some p.y, p)
  | none => (none, track_pt)

/-- Reference for the tooltip: the last sample, in the order of the buffer, whose timestamp is
at most `sec`. -/
def lastAtMost (vals : List QPointF) (sec : ℚ) : Option QPointF :=
  (vals.filter (fun p => decide (p.x ≤ sec))).getLast?

/-! ## `updateSeries` on a chart -/

/-- Loop of `updateSeries` over the series, chart.cc:247-280: a series is updated when `sig` is
null (none) or is its signal.  `events msg_id` stands for `can->events().at(msg_id)`, which throws
for a message without events; then no result is defined. -/
def updateSeriesLoop (live : Bool) (route_start_time : ℚ) (get_raw_value : List Nat → Nat → ℚ)
    (events : Nat → Option (List CanEvent)) (sig : Option Nat) :
    List SigItem → Option (List SigItem)
  | [] => some []
  | s :: rest =>
    if sig = none ∨ sig = some s.sig then
      (events s.msg_id).bind fun msgs =>
        (updateSeriesLoop live route_start_time get_raw_value events sig rest).map fun r =>
          updateSeriesItem live route_start_time get_raw_value msgs s :: r
    else
      (updateSeriesLoop live route_start_time get_raw_value events sig rest).map fun r => s :: r

/-- `ChartView::updateSeries`, chart.cc:246-283: the loop over the series, then `updateAxisY`.
The reset of `chart_pixmap` is not modelled. -/
def updateSeries (live : Bool) (route_start_time : ℚ) (get_raw_value : List Nat → Nat → ℚ)
    (events : Nat → Option (List CanEvent)) (sigUnit : Nat → String)
    (labelWidth : String → ℚ → ℚ → ℤ → ℤ) (sig : Option Nat) (c : ChartView) :
    Option ChartView :=
  (updateSeriesLoop live route_start_time get_raw_value events sig c.sigs).bind fun sigs =>
    updateAxisY live sigUnit labelWidth { c with sigs := sigs }

/-- Two series items that differ at most in the range index. -/
def sameButTree (s s1 : SigItem) : Prop := s1 = { s with segment_tree := s1.segment_tree }

/-- Whether `updateSeries(sig)` updates the series `s`, chart.cc:248: `!sig || s.sig == sig`. -/
def updatesItem (sig : Option Nat) (s : SigItem) : Prop := sig = none ∨ sig = some s.sig

instance (sig : Option Nat) (s : SigItem) : Decidable (updatesItem sig s) := by
  unfold updatesItem; infer_instance

/-- One call of `updateSeries` as a series sees it: the mode, the route start time, the decoder
and the event list of its message at that call. -/
structure UpdateCall where
  live : Bool
  route_start_time : ℚ
  get_raw_value : List Nat → Nat → ℚ
  msgs : List CanEvent

/-- Any number of updates of one series, one after the other. -/
def seriesUpdates : List UpdateCall → SigItem → SigItem
  | [], s => s
  | c :: cs, s =>
    seriesUpdates cs (updateSeriesItem c.live c.route_start_time c.get_raw_value c.msgs s)

/-- The step line that starts after the sample `prev`: before each sample comes a point at
its time with the value of the sample before it. -/
def stepLineFrom (prev : QPointF) : List QPointF → List QPointF
  | [] => []
  | p :: t => ⟨p.x, prev.y⟩ :: p :: stepLineFrom p t

/-- The step line of a list of samples. -/
def stepLine : List QPointF → List QPointF
  | [] => []
  | p :: t => p :: stepLineFrom p t

/-- Every event of a later batch is later than every event of an earlier batch. -/
def strictlyLater (tails : List (List CanEvent)) : Prop :=
  tails.Pairwise (fun a b => ∀ x ∈ a, ∀ y ∈ b, x.mono_time < y.mono_time)

instance (tails : List (List CanEvent)) : Decidable (strictlyLater tails) := by
  unfold strictlyLater; infer_instance

/-! ## Further concrete inputs -/

/-- Two batches of one event each, with the same time. -/
def tiedEvents : List (List CanEvent) :=
  [[⟨1000000000, [4]⟩], [⟨1000000000, [6]⟩]]

/-- The events of `threeEvents` in two batches, the second with two events of the same time. -/
def twoBatches : List (List CanEvent) :=
  [[⟨1000000000, [4]⟩], [⟨2000000000, [6]⟩, ⟨2000000000, [5]⟩]]

/-- An event at time 0 followed by one a second later. -/
def zeroTimeEvents : List CanEvent :=
  [⟨0, [9]⟩, ⟨1000000000, [4]⟩]

/-- A signal table for the examples: signal 0 has the unit `m`, every other the unit `s`. -/
def twoUnits : Nat → String := fun sig => if sig = 0 then "m" else "s"

/-- A hidden series of the signal `sig` with no sample. -/
def hiddenItem (msg_id sig : Nat) : SigItem :=
  ⟨msg_id, sig, false, [], [], 0, SegmentTree.empty, Double.ofRat 0, Double.ofRat 0⟩

/-- An event source for the examples: every message has the events `threeEvents`. -/
def sameEvents : Nat → Option (List CanEvent) := fun _ => some threeEvents

end Cabana

/-! ## The input buffers of the model runner -/

namespace SNPEModel

/-- The number of values of `size_t`. -/
def SIZE_MAX1 : Nat := 2 ^ 64

/-- The first loop of the buffer set-up in the constructor `SNPEModel::SNPEModel`,
snpemodel.cc:115-116: the product of the dimensions, in `size_t`. -/
def shapeProduct (shape : List Nat) : Nat :=
  shape.foldl (fun product d => product * d % SIZE_MAX1) 1

/-- The second loop, snpemodel.cc:118-121, from the index `i` down to 1: `stride *= shape[i]`
and `strides[i-1] = stride`, in `size_t`. -/
def strideLoop (shape : List Nat) : Nat → Nat → List Nat → List Nat
  | 0, _, strides => strides
  | i + 1, stride, strides =>
    strideLoop shape i (stride * shape.getD (i + 1) 0 % SIZE_MAX1)
      (strides.set i (stride * shape.getD (i + 1) 0 % SIZE_MAX1))

/-- The strides the constructor passes for a tensor of shape `shape` and element size
`size_of_input`, snpemodel.cc:113-121.  For rank 0 the store `strides[strides.size() - 1]` is
outside the vector and no result is defined. -/
def bufferStrides (shape : List Nat) (size_of_input : Nat) : Option (List Nat) :=
  if shape.length = 0 then none
  else
    some (strideLoop shape (shape.length - 1) size_of_input
      ((List.replicate shape.length 0).set (shape.length - 1) size_of_input))

/-- The buffer size the constructor passes, snpemodel.cc:124: `product * size_of_input`. -/
def bufferSize (shape : List Nat) (size_of_input : Nat) : Nat :=
  shapeProduct shape * size_of_input % SIZE_MAX1

end SNPEModel

namespace Cabana

/-! ## A sample just before the window -/

/-- The double nearest to 0.7, `0x1.6666666666666p-1`. -/
def d07 : ℚ := 3152519739159347 / 4503599627370496

/-- The `float` nearest to 0.7, `0x1.666666p-1`, about `0.699999988`; it is below `d07`. -/
def float07 : ℚ := 11744051 / 16777216

/-- A visible live series whose only sample has the timestamp `float07` and the value 7. -/
def float07Item : SigItem :=
  ⟨0, 0, true, [⟨float07, 7⟩], [⟨float07, 7⟩], 0, SegmentTree.empty, Double.ofRat 0,
    Double.ofRat 0⟩

/-! ## The axis scaler with the rounding of `double`

The definitions above carry the scaler out on exact rationals.  The ones of this section round
every quotient and product of `niceNumber` and `getNiceAxisNumbers` to `double`, as the code
does.  The two library routines the code calls, `std::log10` and `qPow`, are parameters:
`log10 x` stands for `std::log10(x)` and `pow10 n` for `qPow(10, n)`. -/

namespace Ieee

/-- Rounding of a real value to `double` (IEEE binary64, round to nearest, ties to even): the
value is rounded to a multiple of the unit in the last place `2 ^ (e - 52)`, where
`2 ^ e <= |x| < 2 ^ (e+1)` and `e` is at least `-1022` (subnormals); a rounded magnitude of
`2 ^ 1024` or more is infinite.  It is the result of `+ - * /` on doubles applied to the exact
result. -/
def toDouble (x : ℚ) : Double :=
  if x = 0 then Double.ofRat 0
  else
    let e : ℤ := max (Int.log 2 |x|) (-1022)
    let ulp : ℚ := 2 ^ (e - 52)
    let r : ℚ := roundHalfEven (x / ulp) * ulp
    if 2 ^ 1024 ≤ |r| then (if 0 < x then Double.posInf else Double.negInf)
    else Double.ofRat r

/-- The value `z` of `niceNumber`, chart.cc:352: `qPow(10, qFloor(std::log10(x)))`. -/
def niceNumberZ (log10 : ℚ → ℚ) (pow10 : ℤ → ℚ) (x : ℚ) : Option ℚ :=
  (qFloor (log10 x)).map pow10

/-- The value `q` of `niceNumber` before the thresholds, chart.cc:353, for `x > 0`: the double
quotient `x / z`, which is `+inf` when `z` is 0. -/
def niceNumberQ (x z : ℚ) : Double :=
  if z = 0 then Double.posInf else toDouble (x / z)

/-- The thresholds of `niceNumber`, chart.cc:354-364: the value that replaces the quotient
`q`. -/
def niceFactor (q : Double) (ceiling : Bool) : ℚ :=
  if ceiling then
    if q ≤ Double.ofRat 1 then 1 else if q ≤ Double.ofRat 2 then 2
    else if q ≤ Double.ofRat 5 then 5 else 10
  else
    if q < Double.ofRat (3 / 2) then 1 else if q < Double.ofRat 3 then 2
    else if q < Double.ofRat 7 then 5 else 10

/-- `ChartView::niceNumber`, chart.cc:351-366, on doubles: the product `q * z` rounded to
`double`.  There is no result for `x <= 0` (the logarithm is not finite) and none is modelled
for a product that is not finite. -/
def niceNumber (log10 : ℚ → ℚ) (pow10 : ℤ → ℚ) (x : ℚ) (ceiling : Bool) : Option ℚ :=
  if 0 < x then
    (niceNumberZ log10 pow10 x).bind fun z =>
      Double.finite? (toDouble (niceFactor (niceNumberQ x z) ceiling * z))
  else none

/-- `ChartView::getNiceAxisNumbers`, chart.cc:341-348, on doubles: the difference, the three
quotients and the two products are rounded to `double`; `qFloor` and `qCeil` are applied to the
rounded quotients.  No result is modelled for an intermediate value that is not finite, for a
tick count of 1 and for a step of 0. -/
def getNiceAxisNumbers (log10 : ℚ → ℚ) (pow10 : ℤ → ℚ) (min max : ℚ) (tick_count : ℤ) :
    Option (ℚ × ℚ × ℤ) :=
  (Double.finite? (toDouble (max - min))).bind fun span =>
  (niceNumber log10 pow10 span true).bind fun range =>
  if tick_count - 1 = 0 then none
  else
    (Double.finite? (toDouble (range / (tick_count - 1)))).bind fun r =>
    (niceNumber log10 pow10 r false).bind fun step =>
    if step = 0 then none
    else
      (Double.finite? (toDouble (min / step))).bind fun a =>
      (qFloor a).bind fun mn =>
      (Double.finite? (toDouble (max / step))).bind fun b =>
      (qCeil b).bind fun mx =>
      (toInt (mx - mn)).bind fun d =>
      (toInt (d + 1)).bind fun tc =>
      (Double.finite? (toDouble (mn * step))).bind fun lo =>
      (Double.finite? (toDouble (mx * step))).bind fun hi =>
      some (lo, hi, tc)

/-! ### Doubles and library values of the examples -/

/-- The double nearest to 1.7, `0x1.b333333333333p+0`. -/
def d17 : ℚ := 7656119366529843 / 4503599627370496

/-- The double nearest to 1.8, `0x1.ccccccccccccdp+0`. -/
def d18 : ℚ := 8106479329266893 / 4503599627370496

/-- The double `1.8 - 1.7`, `0x1.99999999999a0p-4`, about `0.10000000000000009`. -/
def dSpan : ℚ := 225179981368525 / 2251799813685248

/-- The double nearest to 0.1, `0x1.999999999999ap-4`. -/
def d01 : ℚ := 3602879701896397 / 36028797018963968

/-- The double nearest to 0.2, `0x1.999999999999ap-3`. -/
def d02 : ℚ := 3602879701896397 / 18014398509481984

/-- The double nearest to 0.05, `0x1.999999999999ap-5`. -/
def d005 : ℚ := 3602879701896397 / 72057594037927936

/-- The double nearest to 0.01, `0x1.47ae147ae147bp-7`. -/
def d001 : ℚ := 5764607523034235 / 576460752303423488

/-- The double nearest to 0.03, `0x1.eb851eb851eb8p-6`. -/
def d003 : ℚ := 1080863910568919 / 36028797018963968

/-- The double after `d17`, `0x1.b333333333334p+0`, printed `1.7000000000000002`. -/
def d17up : ℚ := 1914029841632461 / 1125899906842624

/-- The double before 1000, `0x1.f3fffffffffffp+9`, printed `999.9999999999999`. -/
def belowThousand : ℚ := 8796093022207999 / 8796093022208

/-- The double before 1, `0x1.fffffffffffffp-1`, printed `0.9999999999999999`. -/
def belowOne : ℚ := 9007199254740991 / 9007199254740992

/-- The double after the double nearest to `5 * 10^22`, printed `5.0000000000000004e+22`. -/
def above5e22 : ℚ := 50000000000000004194304

/-- The double nearest to `5 * 10^22`, printed `5e+22`; `5 * 10^22` lies midway between it and
`above5e22`. -/
def d5e22 : ℚ := 49999999999999995805696

/-- Values of `std::log10` in the GNU C library at the arguments of the examples:
`log10(0.10000000000000009) = -0.9999999999999996`, `log10(0.05) = -1.3010299956639813`,
`log10(0.03) = -1.5228787452803376`, `log10(999.9999999999999) = 3.0` and
`log10(5.0000000000000004e+22) = 22.69897000433602`; 0 stands for the other arguments. -/
def glibcLog10 (x : ℚ) : ℚ :=
  if x = dSpan then -2251799813685247 / 2251799813685248
  else if x = d005 then -45775923466173 / 35184372088832
  else if x = d003 then -6858436149774977 / 4503599627370496
  else if x = belowThousand then 3
  else if x = above5e22 then 798649006665795 / 35184372088832
  else 0

/-- Values of `qPow(10, n)` in the GNU C library at the exponents of the examples: the doubles
nearest to `10^-2` and `10^-1`, and `10^3` and `10^22`, which are doubles; 1 stands for the
other exponents. -/
def glibcPow10 (n : ℤ) : ℚ :=
  if n = -2 then d001 else if n = -1 then d01 else if n = 3 then 1000
  else if n = 22 then 10000000000000000000000 else 1

end Ieee

/-! ## Doubles -/

theorem ofRat_lt_ofRat (a b : ℚ) : Double.ofRat a < Double.ofRat b ↔ a < b := by
  simp [Double.ofRat]

theorem ofRat_le_ofRat (a b : ℚ) : Double.ofRat a ≤ Double.ofRat b ↔ a ≤ b := by
  simp [Double.ofRat]

theorem ofRat_inj (a b : ℚ) : Double.ofRat a = Double.ofRat b ↔ a = b := by
  simp [Double.ofRat]

theorem ofRat_lt_posInf (a : ℚ) : Double.ofRat a < Double.posInf :=
  WithBot.coe_lt_coe.mpr (WithTop.coe_lt_top a)

theorem negInf_lt_ofRat (a : ℚ) : Double.negInf < Double.ofRat a :=
  WithBot.bot_lt_coe _

theorem le_posInf (a : Double) : a ≤ Double.posInf := by
  unfold Double.posInf
  cases a using WithBot.recBotCoe with
  | bot => exact bot_le
  | coe a => exact WithBot.coe_le_coe.mpr le_top

theorem negInf_le (a : Double) : Double.negInf ≤ a := bot_le

theorem stdMin_eq_min (a b : Double) : stdMin a b = min a b := by
  unfold stdMin
  split
  · next h => exact (min_eq_right h.le).symm
  · next h => exact (min_eq_left (not_lt.mp h)).symm

theorem stdMax_eq_max (a b : Double) : stdMax a b = max a b := by
  unfold stdMax
  split
  · next h => exact (max_eq_right h.le).symm
  · next h => exact (max_eq_left (not_lt.mp h)).symm

/-! ## Binary searches -/

theorem lower_bound_loop_bounds {α β : Type} (comp : α → β → Bool) (v : List α) (value : β) :
    ∀ fuel first len, first ≤ lower_bound_loop comp v value fuel first len ∧
      lower_bound_loop comp v value fuel first len ≤ first + len := by
  intro fuel
  induction fuel with
  | zero => intro first len; simp [lower_bound_loop]
  | succ n ih =>
    intro first len
    unfold lower_bound_loop
    by_cases hl : len = 0
    · simp [hl]
    · simp only [hl, if_false]
      cases hv : v[first + len / 2]? with
      | none => simp
      | some p =>
        simp only []
        by_cases hc : comp p value = true
        · simp only [hc, if_true]
          have := ih (first + len / 2 + 1) (len - len / 2 - 1)
          have h2 : len / 2 < len := Nat.div_lt_self (Nat.pos_of_ne_zero hl) (by norm_num)
          omega
        · simp only [hc]
          have := ih first (len / 2)
          have h2 : len / 2 < len := Nat.div_lt_self (Nat.pos_of_ne_zero hl) (by norm_num)
          simp only [Bool.false_eq_true, if_false]
          omega

theorem lower_bound_loop_partition {α β : Type} (comp : α → β → Bool) (v : List α) (value : β) :
    ∀ fuel first len, len ≤ fuel → first + len ≤ v.length →
      (∀ i j p q, first ≤ i → i < j → j < first + len → v[i]? = some p → v[j]? = some q →
        comp q value = true → comp p value = true) →
      (∀ i p, first ≤ i → i < lower_bound_loop comp v value fuel first len → v[i]? = some p →
        comp p value = true) ∧
      (∀ i p, lower_bound_loop comp v value fuel first len ≤ i → i < first + len →
        v[i]? = some p → comp p value = false) := by
  intro fuel
  induction fuel with
  | zero =>
    intro first len hf _ _
    have : len = 0 := by omega
    subst this
    simp only [lower_bound_loop]
    constructor
    · intro i p h1 h2; omega
    · intro i p h1 h2; omega
  | succ n ih =>
    intro first len hf hlen hpart
    unfold lower_bound_loop
    by_cases hl : len = 0
    · subst hl
      simp only [if_true]
      constructor
      · intro i p h1 h2; omega
      · intro i p h1 h2; omega
    · simp only [hl, if_false]
      have h2 : len / 2 < len := Nat.div_lt_self (Nat.pos_of_ne_zero hl) (by norm_num)
      have hmid : first + len / 2 < v.length := by omega
      obtain ⟨pm, hpm⟩ : ∃ pm, v[first + len / 2]? = some pm :=
        ⟨v[first + len / 2], List.getElem?_eq_getElem hmid⟩
      simp only [hpm]
      by_cases hc : comp pm value = true
      · simp only [hc, if_true]
        have hrec := ih (first + len / 2 + 1) (len - len / 2 - 1) (by omega) (by omega)
          (fun i j p q h1 h2 h3 => hpart i j p q (by omega) h2 (by omega))
        constructor
        · intro i p h1 hi hp
          by_cases hlt : i < first + len / 2
          · exact hpart i (first + len / 2) p pm h1 hlt (by omega) hp hpm hc
          · by_cases heq : i = first + len / 2
            · subst heq
              rw [hpm] at hp
              cases hp
              exact hc
            · exact hrec.1 i p (by omega) hi hp
        · intro i p h1 hi hp
          exact hrec.2 i p h1 (by omega) hp
      · simp only [hc, Bool.false_eq_true, if_false]
        have hrec := ih first (len / 2) (by omega) (by omega)
          (fun i j p q h1 h2 h3 => hpart i j p q h1 h2 (by omega))
        constructor
        · intro i p h1 hi hp
          exact hrec.1 i p h1 hi hp
        · intro i p h1 hi hp
          by_cases hlt : i < first + len / 2
          · exact hrec.2 i p h1 hlt hp
          · by_cases heq : i = first + len / 2
            · subst heq
              rw [hpm] at hp
              cases hp
              simpa using hc
            · cases hq : comp p value with
              | false => rfl
              | true =>
                exact absurd (hpart (first + len / 2) i pm p (by omega) (by omega) hi hpm hp hq) hc

theorem upper_bound_loop_eq_lower {α β : Type} (comp : β → α → Bool) (v : List α) (value : β) :
    ∀ fuel first len, upper_bound_loop comp v value fuel first len =
      lower_bound_loop (fun p x => !comp x p) v value fuel first len := by
  intro fuel
  induction fuel with
  | zero => intro first len; rfl
  | succ n ih =>
    intro first len
    unfold upper_bound_loop lower_bound_loop
    by_cases hl : len = 0
    · simp [hl]
    · simp only [hl, if_false]
      cases hv : v[first + len / 2]? with
      | none => rfl
      | some p =>
        simp only []
        cases hc : comp value p with
        | true => simp [ih]
        | false => simp [ih]

theorem upper_bound_le {α β : Type} (comp : β → α → Bool) (v : List α) (value : β) :
    upper_bound comp v 0 v.length value ≤ v.length := by
  unfold upper_bound
  rw [upper_bound_loop_eq_lower]
  have := (lower_bound_loop_bounds (fun p x => !comp x p) v value (v.length - 0) 0 (v.length - 0)).2
  omega

theorem drop_eq_filter_of_boundary {α : Type} (P : α → Bool) :
    ∀ (v : List α) (k : Nat), k ≤ v.length →
      (∀ i p, i < k → v[i]? = some p → P p = false) →
      (∀ i p, k ≤ i → v[i]? = some p → P p = true) →
      v.drop k = v.filter P := by
  intro v
  induction v with
  | nil => intro k _ _ _; simp
  | cons a t ih =>
    intro k hk hlow hhigh
    cases k with
    | zero =>
      rw [List.drop_zero]
      symm
      rw [List.filter_eq_self]
      intro p hp
      obtain ⟨i, hi⟩ := List.mem_iff_getElem?.mp hp
      exact hhigh i p (Nat.zero_le _) hi
    | succ k =>
      have ha : P a = false := hlow 0 a (Nat.succ_pos _) (by simp)
      rw [List.drop_succ_cons, List.filter_cons_of_neg (by simp [ha])]
      apply ih k (by simpa using hk)
      · intro i p hi hp
        exact hlow (i + 1) p (by omega) (by simpa using hp)
      · intro i p hi hp
        exact hhigh (i + 1) p (by omega) (by simpa using hp)

theorem upper_bound_events (msgs : List CanEvent) (t : Nat) (hs : sortedEvents msgs) :
    msgs.drop (upper_bound eventLess msgs 0 msgs.length t) =
      msgs.filter (fun e => decide (t < e.mono_time)) := by
  have hpart := lower_bound_loop_partition (fun (p : CanEvent) (x : Nat) => !eventLess x p)
    msgs t (msgs.length - 0) 0 (msgs.length - 0) (le_refl _) (by omega)
    (by
      intro i j p q _ hij hj hp hq hc
      have hjl : j < msgs.length := by omega
      have hil : i < msgs.length := by omega
      have hle := (List.pairwise_iff_getElem.mp hs) i j hil hjl hij
      rw [List.getElem?_eq_getElem hil] at hp
      rw [List.getElem?_eq_getElem hjl] at hq
      cases hp
      cases hq
      simp only [eventLess, Bool.not_eq_true', decide_eq_false_iff_not, not_lt] at hc ⊢
      exact le_trans hle hc)
  apply drop_eq_filter_of_boundary
  · exact upper_bound_le _ _ _
  · intro i p hi hp
    unfold upper_bound at hi
    rw [upper_bound_loop_eq_lower] at hi
    have := hpart.1 i p (Nat.zero_le _) hi hp
    simpa [eventLess] using this
  · intro i p hi hp
    unfold upper_bound at hi
    rw [upper_bound_loop_eq_lower] at hi
    have hil : i < msgs.length := by
      by_contra hcon
      rw [List.getElem?_eq_none (by omega)] at hp
      cases hp
    have := hpart.2 i p hi (by omega) hp
    simpa [eventLess] using this

/-! ## The decoding loop of `updateSeries` -/

theorem SigItem.eq_of_fields (a b : SigItem) (h1 : a.msg_id = b.msg_id) (h2 : a.sig = b.sig)
    (h3 : a.visible = b.visible) (h4 : a.vals = b.vals) (h5 : a.step_vals = b.step_vals)
    (h6 : a.last_value_mono_time = b.last_value_mono_time)
    (h7 : a.segment_tree = b.segment_tree) (h8 : a.min = b.min) (h9 : a.max = b.max) : a = b := by
  cases a
  cases b
  simp_all

theorem foldl_appendEvent_frame (rst : ℚ) (dec : List Nat → Nat → ℚ) :
    ∀ (evs : List CanEvent) (s : SigItem),
      (evs.foldl (appendEvent rst dec) s).msg_id = s.msg_id ∧
      (evs.foldl (appendEvent rst dec) s).sig = s.sig ∧
      (evs.foldl (appendEvent rst dec) s).visible = s.visible ∧
      (evs.foldl (appendEvent rst dec) s).segment_tree = s.segment_tree ∧
      (evs.foldl (appendEvent rst dec) s).min = s.min ∧
      (evs.foldl (appendEvent rst dec) s).max = s.max := by
  intro evs
  induction evs with
  | nil => intro s; simp
  | cons e t ih =>
    intro s
    rw [List.foldl_cons]
    have := ih (appendEvent rst dec s e)
    simpa [appendEvent] using this

theorem foldl_appendEvent_vals (rst : ℚ) (dec : List Nat → Nat → ℚ) :
    ∀ (evs : List CanEvent) (s : SigItem),
      (evs.foldl (appendEvent rst dec) s).vals = s.vals ++ evs.map (sampleOf rst dec s.sig) := by
  intro evs
  induction evs with
  | nil => intro s; simp
  | cons e t ih =>
    intro s
    rw [List.foldl_cons, ih]
    simp [appendEvent, sampleOf]

theorem foldl_appendEvent_marker (rst : ℚ) (dec : List Nat → Nat → ℚ) :
    ∀ (evs : List CanEvent) (s : SigItem),
      (evs.foldl (appendEvent rst dec) s).last_value_mono_time =
        ((evs.getLast?).map (fun e => e.mono_time)).getD s.last_value_mono_time := by
  intro evs
  induction evs with
  | nil => intro s; simp
  | cons e t ih =>
    intro s
    rw [List.foldl_cons, ih]
    cases t with
    | nil => simp [appendEvent]
    | cons e2 t2 =>
      rw [List.getLast?_cons_cons]
      cases hl : (e2 :: t2).getLast? with
      | none => simp at hl
      | some x => simp

theorem foldl_appendEvent_congr (rst : ℚ) (dec : List Nat → Nat → ℚ) :
    ∀ (evs : List CanEvent) (s s' : SigItem), s.sig = s'.sig → s.vals = s'.vals →
      s.step_vals = s'.step_vals → s.last_value_mono_time = s'.last_value_mono_time →
      (evs.foldl (appendEvent rst dec) s).vals = (evs.foldl (appendEvent rst dec) s').vals ∧
      (evs.foldl (appendEvent rst dec) s).step_vals =
        (evs.foldl (appendEvent rst dec) s').step_vals ∧
      (evs.foldl (appendEvent rst dec) s).last_value_mono_time =
        (evs.foldl (appendEvent rst dec) s').last_value_mono_time := by
  intro evs
  induction evs with
  | nil => intro s s' _ h2 h3 h4; exact ⟨h2, h3, h4⟩
  | cons e t ih =>
    intro s s' h1 h2 h3 h4
    rw [List.foldl_cons, List.foldl_cons]
    apply ih
    · simp [appendEvent, h1]
    · simp [appendEvent, h1, h2]
    · simp [appendEvent, h1, h3]
    · simp [appendEvent]

theorem updateSeriesItem_frame (live : Bool) (rst : ℚ) (dec : List Nat → Nat → ℚ)
    (msgs : List CanEvent) (s : SigItem) :
    (updateSeriesItem live rst dec msgs s).msg_id = s.msg_id ∧
    (updateSeriesItem live rst dec msgs s).sig = s.sig ∧
    (updateSeriesItem live rst dec msgs s).visible = s.visible ∧
    (updateSeriesItem live rst dec msgs s).min = s.min ∧
    (updateSeriesItem live rst dec msgs s).max = s.max := by
  unfold updateSeriesItem
  cases live
  · simp only [Bool.false_eq_true, if_false]
    have h := foldl_appendEvent_frame rst dec
      (msgs.drop (upper_bound eventLess msgs 0 msgs.length 0))
      { s with vals := [], step_vals := [], last_value_mono_time := 0 }
    exact ⟨h.1, h.2.1, h.2.2.1, h.2.2.2.2.1, h.2.2.2.2.2⟩
  · simp only [if_true]
    have h := foldl_appendEvent_frame rst dec
      (msgs.drop (upper_bound eventLess msgs 0 msgs.length s.last_value_mono_time)) s
    exact ⟨h.1, h.2.1, h.2.2.1, h.2.2.2.2.1, h.2.2.2.2.2⟩

theorem updateSeriesItem_live_vals (rst : ℚ) (dec : List Nat → Nat → ℚ)
    (msgs : List CanEvent) (s : SigItem) :
    (updateSeriesItem true rst dec msgs s).vals = s.vals ++
      (msgs.drop (upper_bound eventLess msgs 0 msgs.length s.last_value_mono_time)).map
        (sampleOf rst dec s.sig) := by
  simp [updateSeriesItem, foldl_appendEvent_vals]

theorem updateSeriesItem_live_marker (rst : ℚ) (dec : List Nat → Nat → ℚ)
    (msgs : List CanEvent) (s : SigItem) :
    (updateSeriesItem true rst dec msgs s).last_value_mono_time =
      (((msgs.drop (upper_bound eventLess msgs 0 msgs.length s.last_value_mono_time)).getLast?).map
        (fun e => e.mono_time)).getD s.last_value_mono_time := by
  simp [updateSeriesItem, foldl_appendEvent_marker]

theorem updateSeriesItem_replay_vals (rst : ℚ) (dec : List Nat → Nat → ℚ)
    (msgs : List CanEvent) (s : SigItem) :
    (updateSeriesItem false rst dec msgs s).vals =
      (msgs.drop (upper_bound eventLess msgs 0 msgs.length 0)).map (sampleOf rst dec s.sig) := by
  simp [updateSeriesItem, foldl_appendEvent_vals]

theorem updateSeriesItem_replay_marker (rst : ℚ) (dec : List Nat → Nat → ℚ)
    (msgs : List CanEvent) (s : SigItem) :
    (updateSeriesItem false rst dec msgs s).last_value_mono_time =
      (((msgs.drop (upper_bound eventLess msgs 0 msgs.length 0)).getLast?).map
        (fun e => e.mono_time)).getD 0 := by
  simp [updateSeriesItem, foldl_appendEvent_marker]

theorem updateSeriesItem_replay_tree (rst : ℚ) (dec : List Nat → Nat → ℚ)
    (msgs : List CanEvent) (s : SigItem) :
    (updateSeriesItem false rst dec msgs s).segment_tree =
      SegmentTree.build (updateSeriesItem false rst dec msgs s).vals := by
  simp [updateSeriesItem]

theorem updateSeriesItem_replay_congr (rst : ℚ) (dec : List Nat → Nat → ℚ)
    (msgs : List CanEvent) (s s' : SigItem) (h : s.sig = s'.sig) :
    (updateSeriesItem false rst dec msgs s).vals = (updateSeriesItem false rst dec msgs s').vals ∧
    (updateSeriesItem false rst dec msgs s).step_vals =
      (updateSeriesItem false rst dec msgs s').step_vals ∧
    (updateSeriesItem false rst dec msgs s).last_value_mono_time =
      (updateSeriesItem false rst dec msgs s').last_value_mono_time := by
  have := foldl_appendEvent_congr rst dec (msgs.drop (upper_bound eventLess msgs 0 msgs.length 0))
    { s with vals := [], step_vals := [], last_value_mono_time := 0 }
    { s' with vals := [], step_vals := [], last_value_mono_time := 0 } h rfl rfl rfl
  simpa [updateSeriesItem] using this

theorem sortedEvents_le_getLast (l : List CanEvent) (hs : sortedEvents l) (e x : CanEvent)
    (he : e ∈ l) (hx : l.getLast? = some x) : e.mono_time ≤ x.mono_time := by
  induction l with
  | nil => simp at he
  | cons a t ih =>
    cases t with
    | nil =>
      simp only [List.getLast?_singleton, Option.some.injEq] at hx
      simp only [List.mem_singleton] at he
      subst hx
      subst he
      exact le_refl _
    | cons b t2 =>
      rw [List.getLast?_cons_cons] at hx
      have hs2 : sortedEvents (b :: t2) := (List.pairwise_cons.mp hs).2
      rcases List.mem_cons.mp he with h | h
      · subst h
        have hxmem : x ∈ b :: t2 := List.mem_of_getLast?_eq_some hx
        exact (List.pairwise_cons.mp hs).1 x hxmem
      · exact ih hs2 h hx

theorem sortedEvents_append_left (a b : List CanEvent) (h : sortedEvents (a ++ b)) :
    sortedEvents a := (List.pairwise_append.mp h).1

theorem sortedEvents_filter (P : CanEvent → Bool) (a : List CanEvent) (h : sortedEvents a) :
    sortedEvents (a.filter P) := List.Pairwise.filter P h

theorem liveUpdates_sublist (rst : ℚ) (dec : List Nat → Nat → ℚ) :
    ∀ (tails : List (List CanEvent)) (seen : List CanEvent) (s : SigItem),
      sortedEvents (seen ++ tails.flatten) →
      (∀ e ∈ seen, e.mono_time ≤ s.last_value_mono_time) →
      ∃ D : List CanEvent, D.Sublist tails.flatten ∧
        (∀ e ∈ D, s.last_value_mono_time < e.mono_time) ∧
        (liveUpdates rst dec seen tails s).vals = s.vals ++ D.map (sampleOf rst dec s.sig) ∧
        (liveUpdates rst dec seen tails s).last_value_mono_time =
          ((D.getLast?).map (fun e => e.mono_time)).getD s.last_value_mono_time := by
  intro tails
  induction tails with
  | nil =>
    intro seen s _ _
    exact ⟨[], by simp, by simp, by simp [liveUpdates], by simp [liveUpdates]⟩
  | cons t ts ih =>
    intro seen s hs hseen
    rw [List.flatten_cons, ← List.append_assoc] at hs
    have hst : sortedEvents (seen ++ t) := sortedEvents_append_left _ _ hs
    have hdrop := upper_bound_events (seen ++ t) s.last_value_mono_time hst
    have hseen0 : seen.filter (fun e => decide (s.last_value_mono_time < e.mono_time)) = [] := by
      rw [List.filter_eq_nil_iff]
      intro e he
      have := hseen e he
      simp only [decide_eq_true_eq, not_lt]
      exact this
    rw [List.filter_append, hseen0, List.nil_append] at hdrop
    have hD1sorted : sortedEvents
        (t.filter (fun e => decide (s.last_value_mono_time < e.mono_time))) :=
      sortedEvents_filter _ _ (List.pairwise_append.mp hst).2.1
    have hvals := updateSeriesItem_live_vals rst dec (seen ++ t) s
    have hmark := updateSeriesItem_live_marker rst dec (seen ++ t) s
    rw [hdrop] at hvals hmark
    have hsig := (updateSeriesItem_frame true rst dec (seen ++ t) s).2.1
    have hmono : s.last_value_mono_time ≤
        (updateSeriesItem true rst dec (seen ++ t) s).last_value_mono_time := by
      rw [hmark]
      cases hl : (t.filter (fun e => decide (s.last_value_mono_time < e.mono_time))).getLast? with
      | none => simp
      | some x =>
        have hx := List.mem_of_getLast?_eq_some hl
        have := (List.mem_filter.mp hx).2
        simp only [decide_eq_true_eq] at this
        simpa using this.le
    have hseen' : ∀ e ∈ seen ++ t,
        e.mono_time ≤ (updateSeriesItem true rst dec (seen ++ t) s).last_value_mono_time := by
      intro e he
      rcases List.mem_append.mp he with h | h
      · exact le_trans (hseen e h) hmono
      · by_cases hlt : s.last_value_mono_time < e.mono_time
        · have hmem : e ∈ t.filter (fun e => decide (s.last_value_mono_time < e.mono_time)) :=
            List.mem_filter.mpr ⟨h, by simpa using hlt⟩
          rw [hmark]
          cases hl : (t.filter
              (fun e => decide (s.last_value_mono_time < e.mono_time))).getLast? with
          | none =>
            rw [List.getLast?_eq_none_iff] at hl
            rw [hl] at hmem
            simp at hmem
          | some x =>
            simpa using sortedEvents_le_getLast _ hD1sorted e x hmem hl
        · exact le_trans (not_lt.mp hlt) hmono
    obtain ⟨D2, hsub2, hgt2, hv2, hm2⟩ :=
      ih (seen ++ t) (updateSeriesItem true rst dec (seen ++ t) s) hs hseen'
    refine ⟨t.filter (fun e => decide (s.last_value_mono_time < e.mono_time)) ++ D2, ?_, ?_, ?_, ?_⟩
    · rw [List.flatten_cons]
      exact List.Sublist.append (List.filter_sublist _) hsub2
    · intro e he
      rcases List.mem_append.mp he with h | h
      · simpa using (List.mem_filter.mp h).2
      · exact lt_of_le_of_lt hmono (hgt2 e h)
    · simp only [liveUpdates]
      rw [hv2, hvals, hsig, List.map_append, List.append_assoc]
    · simp only [liveUpdates]
      rw [hm2, hmark]
      cases D2 with
      | nil => simp
      | cons d ds =>
        rw [List.getLast?_append_of_ne_nil _ (List.cons_ne_nil d ds)]
        cases hl : (d :: ds).getLast? with
        | none => simp at hl
        | some x => simp

/-- C8 (`ChartView::updateSeries`, live mode): the buffer is append-only.  For every prior state
of the series and every event list, `vals` before the call is a prefix of `vals` after it, so the
sample count never decreases. -/
theorem updateSeries_live_append_only (rst : ℚ) (dec : List Nat → Nat → ℚ)
    (msgs : List CanEvent) (s : SigItem) :
    s.vals <+: (updateSeriesItem true rst dec msgs s).vals ∧
    s.vals.length ≤ (updateSeriesItem true rst dec msgs s).vals.length := by
  have h : s.vals <+: (updateSeriesItem true rst dec msgs s).vals := by
    rw [updateSeriesItem_live_vals]
    exact List.prefix_append _ _
  exact ⟨h, h.length_le⟩

/-- C9 (`ChartView::updateSeries`, replay mode): the buffer is cleared and the marker reset
before decoding.  `vals`, `step_vals` and `last_value_mono_time` after the call are the same for
any two prior states of a series of the same signal, and a second call over the same event list
leaves the series as the first call left it. -/
theorem updateSeries_replay_idempotent (rst : ℚ) (dec : List Nat → Nat → ℚ)
    (msgs : List CanEvent) (s s' : SigItem) (h : s.sig = s'.sig) :
    ((updateSeriesItem false rst dec msgs s).vals = (updateSeriesItem false rst dec msgs s').vals ∧
     (updateSeriesItem false rst dec msgs s).step_vals =
       (updateSeriesItem false rst dec msgs s').step_vals ∧
     (updateSeriesItem false rst dec msgs s).last_value_mono_time =
       (updateSeriesItem false rst dec msgs s').last_value_mono_time) ∧
    updateSeriesItem false rst dec msgs (updateSeriesItem false rst dec msgs s) =
      updateSeriesItem false rst dec msgs s := by
  refine ⟨updateSeriesItem_replay_congr rst dec msgs s s' h, ?_⟩
  have hf1 := updateSeriesItem_frame false rst dec msgs s
  have hf2 := updateSeriesItem_frame false rst dec msgs (updateSeriesItem false rst dec msgs s)
  have hc := updateSeriesItem_replay_congr rst dec msgs (updateSeriesItem false rst dec msgs s) s
    hf1.2.1
  apply SigItem.eq_of_fields
  · exact hf2.1
  · exact hf2.2.1
  · exact hf2.2.2.1
  · exact hc.1
  · exact hc.2.1
  · exact hc.2.2
  · rw [updateSeriesItem_replay_tree, updateSeriesItem_replay_tree rst dec msgs s, hc.1]
  · exact hf2.2.2.2.1
  · exact hf2.2.2.2.2

theorem sortedX_map_sampleOf (rst : ℚ) (dec : List Nat → Nat → ℚ) (sig : Nat)
    (l : List CanEvent) (h : sortedEvents l) : sortedX (l.map (sampleOf rst dec sig)) := by
  unfold sortedX
  rw [List.pairwise_map]
  refine List.Pairwise.imp ?_ h
  intro a b hab
  simp only [sampleOf, eventSeconds]
  have : (a.mono_time : ℚ) ≤ (b.mono_time : ℚ) := by exact_mod_cast hab
  linarith [div_le_div_of_nonneg_right this (by norm_num : (0 : ℚ) ≤ 1000000000)]

theorem eventSeconds_mono (rst : ℚ) (a b : Nat) (h : a ≤ b) :
    eventSeconds rst a ≤ eventSeconds rst b := by
  simp only [eventSeconds]
  have : (a : ℚ) ≤ (b : ℚ) := by exact_mod_cast h
  linarith [div_le_div_of_nonneg_right this (by norm_num : (0 : ℚ) ≤ 1000000000)]

/-- C6, amended (`ChartView::updateSeries`): if the event list is sorted by `mono_time`, `vals`
has non-decreasing timestamps and, in live mode, no timestamp of `vals` is later than the one of
`last_value_mono_time`, then after the call `vals` has non-decreasing timestamps, again no
timestamp of `vals` is later than the one of `last_value_mono_time`, and the samples appended are
those of a tail of the event list, in the order of their events. -/
theorem updateSeries_keeps_timestamps_sorted (live : Bool) (rst : ℚ)
    (dec : List Nat → Nat → ℚ) (msgs : List CanEvent) (s : SigItem)
    (hm : sortedEvents msgs) (hv : sortedX s.vals)
    (hlink : live = true → ∀ p ∈ s.vals, p.x ≤ eventSeconds rst s.last_value_mono_time) :
    sortedX (updateSeriesItem live rst dec msgs s).vals ∧
    (∀ p ∈ (updateSeriesItem live rst dec msgs s).vals,
      p.x ≤ eventSeconds rst (updateSeriesItem live rst dec msgs s).last_value_mono_time) ∧
    ∃ k, (updateSeriesItem live rst dec msgs s).vals =
      (if live then s.vals else []) ++ (msgs.drop k).map (sampleOf rst dec s.sig) := by
  -- the events decoded are those after the marker the loop starts from
  have key : ∀ (base : List QPointF) (m : Nat),
      sortedX base → (∀ p ∈ base, p.x ≤ eventSeconds rst m) →
      sortedX (base ++ (msgs.filter (fun e => decide (m < e.mono_time))).map
        (sampleOf rst dec s.sig)) ∧
      ∀ p ∈ base ++ (msgs.filter (fun e => decide (m < e.mono_time))).map
          (sampleOf rst dec s.sig),
        p.x ≤ eventSeconds rst ((((msgs.filter (fun e => decide (m < e.mono_time))).getLast?).map
          (fun e => e.mono_time)).getD m) := by
    intro base m hb hbm
    have hfs : sortedEvents (msgs.filter (fun e => decide (m < e.mono_time))) :=
      sortedEvents_filter _ _ hm
    constructor
    · unfold sortedX
      rw [List.pairwise_append]
      refine ⟨hb, sortedX_map_sampleOf rst dec s.sig _ hfs, ?_⟩
      intro p hp q hq
      obtain ⟨e, he, rfl⟩ := List.mem_map.mp hq
      have hlt := (List.mem_filter.mp he).2
      simp only [decide_eq_true_eq] at hlt
      exact le_trans (hbm p hp) (eventSeconds_mono rst _ _ hlt.le)
    · intro p hp
      cases hl : (msgs.filter (fun e => decide (m < e.mono_time))).getLast? with
      | none =>
        rw [List.getLast?_eq_none_iff] at hl
        rw [hl] at hp
        simp only [List.map_nil, List.append_nil] at hp
        simpa using hbm p hp
      | some x =>
        have hxm := List.mem_of_getLast?_eq_some hl
        have hxlt := (List.mem_filter.mp hxm).2
        simp only [decide_eq_true_eq] at hxlt
        simp only [Option.map_some', Option.getD_some]
        rcases List.mem_append.mp hp with h | h
        · exact le_trans (hbm p h) (eventSeconds_mono rst _ _ hxlt.le)
        · obtain ⟨e, he, rfl⟩ := List.mem_map.mp h
          exact eventSeconds_mono rst _ _ (sortedEvents_le_getLast _ hfs e x he hl)
  cases live with
  | true =>
    have hvals := updateSeriesItem_live_vals rst dec msgs s
    have hmark := updateSeriesItem_live_marker rst dec msgs s
    have hdrop := upper_bound_events msgs s.last_value_mono_time hm
    have hk := key s.vals s.last_value_mono_time hv (hlink rfl)
    rw [← hdrop, ← hvals, ← hmark] at hk
    exact ⟨hk.1, hk.2, ⟨_, by simpa using hvals⟩⟩
  | false =>
    have hvals := updateSeriesItem_replay_vals rst dec msgs s
    have hmark := updateSeriesItem_replay_marker rst dec msgs s
    have hdrop := upper_bound_events msgs 0 hm
    have hk := key [] 0 List.Pairwise.nil (by simp)
    rw [List.nil_append, ← hdrop, ← hvals, ← hmark] at hk
    exact ⟨hk.1, hk.2, ⟨_, by simpa using hvals⟩⟩

/-- C7 (`ChartView::updateSeries`, live mode): over an event list sorted by `mono_time` a call
appends the samples of exactly the events whose `mono_time` is beyond `last_value_mono_time`, and
afterwards `last_value_mono_time` is the `mono_time` of the last event appended (unchanged when
nothing was appended); over any sequence of calls while the list grows at its tail, the samples
appended are those of a sublist of the final event list, so no event is decoded twice. -/
theorem updateSeries_live_decodes_once (rst : ℚ) (dec : List Nat → Nat → ℚ)
    (msgs : List CanEvent) (tails : List (List CanEvent)) (s : SigItem)
    (hs : sortedEvents msgs) (ht : sortedEvents tails.flatten) :
    ((updateSeriesItem true rst dec msgs s).vals = s.vals ++
        (msgs.filter (fun e => decide (s.last_value_mono_time < e.mono_time))).map
          (sampleOf rst dec s.sig) ∧
      (updateSeriesItem true rst dec msgs s).last_value_mono_time =
        (((msgs.filter (fun e => decide (s.last_value_mono_time < e.mono_time))).getLast?).map
          (fun e => e.mono_time)).getD s.last_value_mono_time) ∧
    ∃ D : List CanEvent, D.Sublist tails.flatten ∧
      (∀ e ∈ D, s.last_value_mono_time < e.mono_time) ∧
      (liveUpdates rst dec [] tails s).vals = s.vals ++ D.map (sampleOf rst dec s.sig) ∧
      (liveUpdates rst dec [] tails s).last_value_mono_time =
        ((D.getLast?).map (fun e => e.mono_time)).getD s.last_value_mono_time := by
  constructor
  · have hvals := updateSeriesItem_live_vals rst dec msgs s
    have hmark := updateSeriesItem_live_marker rst dec msgs s
    rw [upper_bound_events msgs s.last_value_mono_time hs] at hvals hmark
    exact ⟨hvals, hmark⟩
  · exact liveUpdates_sublist rst dec tails [] s (by simpa using ht) (by simp)

/-- C10 (`ChartView::updateSeries`, replay mode): after the call the segment tree of the series
is the one built over the final contents of `vals`, the sample count it was built for is the
length of `vals`, and `updateAxisY` changes neither, so the index it queries is not stale. -/
theorem updateSeries_replay_index_fresh (rst : ℚ) (dec : List Nat → Nat → ℚ)
    (msgs : List CanEvent) (s : SigItem) (axis_min axis_max : ℚ) :
    (updateSeriesItem false rst dec msgs s).segment_tree =
      SegmentTree.build (updateSeriesItem false rst dec msgs s).vals ∧
    (updateSeriesItem false rst dec msgs s).segment_tree.size =
      (updateSeriesItem false rst dec msgs s).vals.length ∧
    (updateAxisYItem false axis_min axis_max (updateSeriesItem false rst dec msgs s)).segment_tree =
      SegmentTree.build
        (updateAxisYItem false axis_min axis_max (updateSeriesItem false rst dec msgs s)).vals := by
  have h := updateSeriesItem_replay_tree rst dec msgs s
  refine ⟨h, ?_, ?_⟩
  · rw [h]; rfl
  · unfold updateAxisYItem
    split
    · simpa using h
    · exact h

/-- A live update of `oneSampleItem` over `threeEvents` appends the two events after the
marker, the two of equal time in the order of the list. -/
theorem updateSeriesItem_live_threeEvents :
    (updateSeriesItem true 0 firstByte threeEvents oneSampleItem).vals =
      [⟨1, 4⟩, ⟨2, 6⟩, ⟨2, 5⟩] := by
  norm_num [updateSeriesItem, upper_bound, upper_bound_loop, eventLess, threeEvents,
    oneSampleItem, appendEvent, eventSeconds, firstByte]

/-- C6, as stated, fails in live mode: the event list `[1 s]` is sorted and the buffer `[5 s]`
of `staleItem` is sorted, but its marker is 0, so the event is decoded and the buffer becomes
`[5 s, 1 s]`. -/
theorem updateSeries_sorted_counterexample :
    sortedEvents [⟨1000000000, [4]⟩] ∧ sortedX staleItem.vals ∧
    ¬ sortedX (updateSeriesItem true 0 firstByte [⟨1000000000, [4]⟩] staleItem).vals := by
  refine ⟨by decide, ?_, ?_⟩
  · simp [sortedX, staleItem]
  · norm_num [sortedX, updateSeriesItem, upper_bound, upper_bound_loop, eventLess,
      staleItem, appendEvent, eventSeconds, firstByte]

/-- The amended C6 at a concrete input: the live series `oneSampleItem` (one sample at 1 s, marker
at 1 s) and the events `threeEvents`. -/
theorem updateSeries_keeps_timestamps_sorted_witness :
    sortedEvents threeEvents ∧ sortedX oneSampleItem.vals ∧
    (∀ p ∈ oneSampleItem.vals, p.x ≤ eventSeconds 0 oneSampleItem.last_value_mono_time) ∧
    sortedX (updateSeriesItem true 0 firstByte threeEvents oneSampleItem).vals :=
  have h1 : sortedEvents threeEvents := by decide
  have h2 : sortedX oneSampleItem.vals := by simp [sortedX, oneSampleItem]
  have h3 : ∀ p ∈ oneSampleItem.vals,
      p.x ≤ eventSeconds 0 oneSampleItem.last_value_mono_time := by
    norm_num [oneSampleItem, eventSeconds]
  ⟨h1, h2, h3,
    (updateSeries_keeps_timestamps_sorted true 0 firstByte threeEvents oneSampleItem h1 h2
      (fun _ => h3)).1⟩

/-- C7 at a concrete input: the live series `oneSampleItem` and the events `threeEvents`. -/
theorem updateSeries_live_decodes_once_witness :
    sortedEvents threeEvents ∧ sortedEvents [[⟨1000000000, [4]⟩], [⟨2000000000, [6]⟩]].flatten ∧
    (updateSeriesItem true 0 firstByte threeEvents oneSampleItem).vals = oneSampleItem.vals ++
      (threeEvents.filter
        (fun e => decide (oneSampleItem.last_value_mono_time < e.mono_time))).map
        (sampleOf 0 firstByte oneSampleItem.sig) :=
  have h1 : sortedEvents threeEvents := by decide
  have h2 : sortedEvents [[⟨1000000000, [4]⟩], [⟨2000000000, [6]⟩]].flatten := by decide
  ⟨h1, h2, (updateSeries_live_decodes_once 0 firstByte threeEvents
    [[⟨1000000000, [4]⟩], [⟨2000000000, [6]⟩]] oneSampleItem h1 h2).1.1⟩

/-- C9 at a concrete input: two series of the same signal with different contents. -/
theorem updateSeries_replay_idempotent_witness :
    oneSampleItem.sig = staleItem.sig ∧
    (updateSeriesItem false 0 firstByte threeEvents oneSampleItem).vals =
      (updateSeriesItem false 0 firstByte threeEvents staleItem).vals ∧
    updateSeriesItem false 0 firstByte threeEvents
        (updateSeriesItem false 0 firstByte threeEvents oneSampleItem) =
      updateSeriesItem false 0 firstByte threeEvents oneSampleItem :=
  ⟨rfl, (updateSeries_replay_idempotent 0 firstByte threeEvents oneSampleItem staleItem rfl).1.1,
    (updateSeries_replay_idempotent 0 firstByte threeEvents oneSampleItem staleItem rfl).2⟩

/-! ## The range index -/

theorem listMin_append (a b : List ℚ) : listMin (a ++ b) = min (listMin a) (listMin b) := by
  induction a with
  | nil =>
    simp only [List.nil_append, listMin, List.foldr_nil]
    exact (min_eq_right (le_posInf _)).symm
  | cons y t ih =>
    simp only [listMin, List.cons_append, List.foldr_cons] at ih ⊢
    rw [ih, min_assoc]

theorem listMax_append (a b : List ℚ) : listMax (a ++ b) = max (listMax a) (listMax b) := by
  induction a with
  | nil =>
    simp only [List.nil_append, listMax, List.foldr_nil]
    exact (max_eq_right (negInf_le _)).symm
  | cons y t ih =>
    simp only [listMax, List.cons_append, List.foldr_cons] at ih ⊢
    rw [ih, max_assoc]

theorem listMin_singleton (y : ℚ) : listMin [y] = Double.ofRat y := by
  simp only [listMin, List.foldr_cons, List.foldr_nil]
  exact min_eq_left (le_posInf _)

theorem listMax_singleton (y : ℚ) : listMax [y] = Double.ofRat y := by
  simp only [listMax, List.foldr_cons, List.foldr_nil]
  exact max_eq_left (negInf_le _)

theorem buildNode_node (n : Nat) (y1 y2 : ℚ) (rest : List ℚ) :
    buildNode (n + 1) (y1 :: y2 :: rest) =
      .node
        (stdMin (buildNode n ((y1 :: y2 :: rest).take ((y1 :: y2 :: rest).length / 2))).extent.1
          (buildNode n ((y1 :: y2 :: rest).drop ((y1 :: y2 :: rest).length / 2))).extent.1)
        (stdMax (buildNode n ((y1 :: y2 :: rest).take ((y1 :: y2 :: rest).length / 2))).extent.2
          (buildNode n ((y1 :: y2 :: rest).drop ((y1 :: y2 :: rest).length / 2))).extent.2)
        (buildNode n ((y1 :: y2 :: rest).take ((y1 :: y2 :: rest).length / 2)))
        (buildNode n ((y1 :: y2 :: rest).drop ((y1 :: y2 :: rest).length / 2))) := by
  simp only [buildNode]

theorem extent_node (mn mx : Double) (l r : RangeNode) :
    (RangeNode.node mn mx l r).extent = (mn, mx) := rfl

theorem buildNode_extent : ∀ (fuel : Nat) (ys : List ℚ), ys.length ≤ fuel →
    (buildNode fuel ys).extent = (listMin ys, listMax ys) := by
  intro fuel
  induction fuel with
  | zero =>
    intro ys h
    have : ys = [] := List.length_eq_zero.mp (by omega)
    subst this
    rfl
  | succ n ih =>
    intro ys h
    match ys, h with
    | [], _ => rfl
    | [y], _ =>
      simp only [buildNode, RangeNode.extent, listMin_singleton, listMax_singleton]
    | y1 :: y2 :: rest, h =>
      rw [buildNode_node, extent_node]
      have hlen : (y1 :: y2 :: rest).length = rest.length + 2 := by simp
      have h1 := ih ((y1 :: y2 :: rest).take ((y1 :: y2 :: rest).length / 2))
        (by rw [List.length_take]; omega)
      have h2 := ih ((y1 :: y2 :: rest).drop ((y1 :: y2 :: rest).length / 2))
        (by rw [List.length_drop]; omega)
      rw [h1, h2, stdMin_eq_min, stdMax_eq_max, ← listMin_append, ← listMax_append,
        List.take_append_drop]

theorem slice_split (ys : List ℚ) : ∀ (h a b : Nat),
    (ys.take b).drop a =
      ((ys.take h).take b).drop a ++ (((ys.drop h).take (b - h)).drop (a - h)) := by
  induction ys with
  | nil => intro h a b; simp
  | cons y t ih =>
    intro h a b
    cases h with
    | zero => simp
    | succ h =>
      cases b with
      | zero => simp
      | succ b =>
        cases a with
        | zero =>
          have := ih h 0 b
          simp only [List.drop_zero, Nat.zero_sub] at this
          simp only [List.take_succ_cons, List.drop_zero, List.drop_succ_cons,
            Nat.add_sub_add_right, Nat.zero_sub, List.cons_append]
          rw [← this]
        | succ a =>
          have := ih h a b
          simp only [List.take_succ_cons, List.drop_succ_cons, Nat.add_sub_add_right]
          exact this

theorem slice_nil_of_disjoint (ys : List ℚ) (left lo hi : Nat)
    (h : hi ≤ lo ∨ hi ≤ left ∨ left + ys.length ≤ lo) :
    (ys.take (hi - left)).drop (lo - left) = [] := by
  apply List.length_eq_zero.mp
  rw [List.length_drop, List.length_take]
  omega

theorem slice_all_of_covered (ys : List ℚ) (left lo hi : Nat)
    (h1 : lo ≤ left) (h2 : left + ys.length ≤ hi) :
    (ys.take (hi - left)).drop (lo - left) = ys := by
  rw [Nat.sub_eq_zero_of_le h1, List.drop_zero, List.take_of_length_le (by omega)]

theorem queryNode_buildNode : ∀ (fuel : Nat) (ys : List ℚ) (left lo hi : Nat),
    ys.length ≤ fuel →
    queryNode (buildNode fuel ys) left (left + ys.length) lo hi =
      (listMin ((ys.take (hi - left)).drop (lo - left)),
       listMax ((ys.take (hi - left)).drop (lo - left))) := by
  intro fuel
  induction fuel with
  | zero =>
    intro ys left lo hi h
    have : ys = [] := List.length_eq_zero.mp (by omega)
    subst this
    simp [buildNode, queryNode, emptyExtent, listMin, listMax]
  | succ n ih =>
    intro ys left lo hi h
    match ys, h with
    | [], _ => simp [buildNode, queryNode, emptyExtent, listMin, listMax]
    | [y], _ =>
      simp only [buildNode, queryNode, List.length_singleton]
      by_cases hd : hi ≤ lo ∨ hi ≤ left ∨ left + 1 ≤ lo
      · rw [if_pos hd, slice_nil_of_disjoint [y] left lo hi (by simpa using hd)]
        rfl
      · rw [if_neg hd, slice_all_of_covered [y] left lo hi (by omega) (by simp; omega),
          listMin_singleton, listMax_singleton]
    | y1 :: y2 :: rest, h =>
      have hlen : (y1 :: y2 :: rest).length = rest.length + 2 := by simp
      generalize hys : y1 :: y2 :: rest = ys at *
      have hbuild : buildNode (n + 1) ys =
          .node (stdMin (buildNode n (ys.take (ys.length / 2))).extent.1
              (buildNode n (ys.drop (ys.length / 2))).extent.1)
            (stdMax (buildNode n (ys.take (ys.length / 2))).extent.2
              (buildNode n (ys.drop (ys.length / 2))).extent.2)
            (buildNode n (ys.take (ys.length / 2))) (buildNode n (ys.drop (ys.length / 2))) := by
        subst hys
        exact buildNode_node n y1 y2 rest
      have hext := buildNode_extent (n + 1) ys h
      rw [hbuild] at hext ⊢
      simp only [queryNode]
      by_cases hd : hi ≤ lo ∨ hi ≤ left ∨ left + ys.length ≤ lo
      · rw [if_pos hd, slice_nil_of_disjoint ys left lo hi hd]
        rfl
      · rw [if_neg hd]
        by_cases hc : lo ≤ left ∧ left + ys.length ≤ hi
        · rw [if_pos hc, slice_all_of_covered ys left lo hi hc.1 hc.2]
          rw [extent_node] at hext
          exact hext
        · rw [if_neg hc]
          have htl : (ys.take (ys.length / 2)).length = ys.length / 2 := by
            rw [List.length_take]; omega
          have hdl : (ys.drop (ys.length / 2)).length = ys.length - ys.length / 2 := by
            rw [List.length_drop]
          have hL := ih (ys.take (ys.length / 2)) left lo hi (by omega)
          have hR := ih (ys.drop (ys.length / 2)) (left + ys.length / 2) lo hi (by omega)
          rw [htl] at hL
          rw [hdl] at hR
          have hright : left + ys.length / 2 + (ys.length - ys.length / 2) = left + ys.length := by
            omega
          rw [hright] at hR
          have hmid : left + (left + ys.length - left) / 2 = left + ys.length / 2 := by
            rw [Nat.add_sub_cancel_left]
          simp only [hmid, hL, hR, stdMin_eq_min, stdMax_eq_max]
          rw [← listMin_append, ← listMax_append]
          have hs := slice_split ys (ys.length / 2) (lo - left) (hi - left)
          have e1 : hi - left - ys.length / 2 = hi - (left + ys.length / 2) := by omega
          have e2 : lo - left - ys.length / 2 = lo - (left + ys.length / 2) := by omega
          rw [e1, e2] at hs
          rw [← hs]

theorem minmax_build (vals : List QPointF) (lo hi : Nat) :
    (SegmentTree.build vals).minmax lo hi = linearScanMinMax (vals.map (fun p => p.y)) lo hi := by
  have h := queryNode_buildNode vals.length (vals.map (fun p => p.y)) 0 lo hi (by simp)
  simp only [List.length_map, Nat.zero_add, Nat.sub_zero] at h
  simpa [SegmentTree.minmax, SegmentTree.build, linearScanMinMax] using h

/-- C2 (`SegmentTree::minmax` after `SegmentTree::build`, both modelled from the spec): for every
sample array and every position range, the index query equals the linear scan minimum and maximum
of the values at the positions `lo .. hi - 1`, and for an empty range `lo == hi` it is the
empty-range sentinel `(+inf, -inf)`. -/
theorem segmentTree_minmax_eq_linear_scan (vals : List QPointF) (lo hi : Nat) :
    (SegmentTree.build vals).minmax lo hi = linearScanMinMax (vals.map (fun p => p.y)) lo hi ∧
    (SegmentTree.build vals).minmax lo lo = emptyExtent := by
  refine ⟨minmax_build vals lo hi, ?_⟩
  rw [minmax_build]
  have : ((vals.map (fun p => p.y)).take lo).drop lo = [] := by
    apply List.length_eq_zero.mp
    rw [List.length_drop, List.length_take]
    omega
  simp [linearScanMinMax, this, listMin, listMax, emptyExtent]

/-! ## The window search and the extent of a series -/

theorem int_log_eq (b : ℕ) (hb : 1 < b) (r : ℚ) (e : ℤ) (hr : 0 < r)
    (h1 : (b : ℚ) ^ e ≤ r) (h2 : r < (b : ℚ) ^ (e + 1)) : Int.log b r = e := by
  have ha := (Int.zpow_le_iff_le_log hb hr).mp h1
  have hb2 := (Int.lt_zpow_iff_log_lt hb hr).mp h2
  omega

theorem toFloat_eq (x : ℚ) (e n : ℤ) (hx : x ≠ 0) (he : -126 ≤ e)
    (h1 : (2 : ℚ) ^ e ≤ |x|) (h2 : |x| < (2 : ℚ) ^ (e + 1))
    (hn : roundHalfEven (x / 2 ^ (e - 23)) = n)
    (hfin : |(n : ℚ) * 2 ^ (e - 23)| < 2 ^ 128) :
    toFloat x = Double.ofRat (n * 2 ^ (e - 23)) := by
  have hlog : Int.log 2 |x| = e :=
    int_log_eq 2 (by norm_num) |x| e (abs_pos.mpr hx) (by exact_mod_cast h1)
      (by exact_mod_cast h2)
  unfold toFloat
  rw [if_neg hx]
  simp only [hlog, max_eq_left he, hn]
  rw [if_neg (not_le.mpr hfin)]

theorem toFloat_tenth : toFloat tenth = Double.ofRat (13421773 / 134217728) := by
  have h := toFloat_eq tenth (-4) 13421773 (by norm_num [tenth]) (by norm_num)
    (by norm_num [tenth, abs_of_pos]) (by norm_num [tenth, abs_of_pos])
    (by norm_num [roundHalfEven, tenth]) (by norm_num [abs_of_pos])
  rw [h]
  norm_num

theorem toFloat_one : toFloat 1 = Double.ofRat 1 := by
  have h := toFloat_eq 1 0 8388608 (by norm_num) (by norm_num)
    (by norm_num) (by norm_num)
    (by norm_num [roundHalfEven]) (by norm_num [abs_of_pos])
  rw [h]
  norm_num

theorem toFloat_three : toFloat 3 = Double.ofRat 3 := by
  have h := toFloat_eq 3 1 12582912 (by norm_num) (by norm_num)
    (by norm_num) (by norm_num)
    (by norm_num [roundHalfEven]) (by norm_num [abs_of_pos])
  rw [h]
  norm_num

theorem windowRange_bounds (vals : List QPointF) (a b : ℚ) :
    (windowRange vals a b).1 ≤ (windowRange vals a b).2 ∧
    (windowRange vals a b).2 ≤ vals.length := by
  unfold windowRange lower_bound
  have h1 := lower_bound_loop_bounds xLessThan vals a (vals.length - 0) 0 (vals.length - 0)
  have h2 := lower_bound_loop_bounds xLessThan vals b
    (vals.length - lower_bound_loop xLessThan vals a (vals.length - 0) 0 (vals.length - 0))
    (lower_bound_loop xLessThan vals a (vals.length - 0) 0 (vals.length - 0))
    (vals.length - lower_bound_loop xLessThan vals a (vals.length - 0) 0 (vals.length - 0))
  simp only []
  omega

theorem listMin_le_of_mem (ys : List ℚ) (y : ℚ) (h : y ∈ ys) : listMin ys ≤ Double.ofRat y := by
  induction ys with
  | nil => simp at h
  | cons a t ih =>
    simp only [listMin, List.foldr_cons] at ih ⊢
    rcases List.mem_cons.mp h with h | h
    · subst h
      exact min_le_left _ _
    · exact le_trans (min_le_right _ _) (ih h)

theorem le_listMax_of_mem (ys : List ℚ) (y : ℚ) (h : y ∈ ys) : Double.ofRat y ≤ listMax ys := by
  induction ys with
  | nil => simp at h
  | cons a t ih =>
    simp only [listMax, List.foldr_cons] at ih ⊢
    rcases List.mem_cons.mp h with h | h
    · subst h
      exact le_max_left _ _
    · exact le_trans (ih h) (le_max_right _ _)

theorem scanExtent_eq : ∀ (pts : List QPointF) (acc : Double × Double),
    scanExtent pts acc =
      (min acc.1 (listMin (pts.map (fun p => p.y))),
       max acc.2 (listMax (pts.map (fun p => p.y)))) := by
  intro pts
  induction pts with
  | nil =>
    intro acc
    simp only [scanExtent, List.foldl_nil, List.map_nil, listMin, listMax, List.foldr_nil]
    rw [min_eq_left (le_posInf _), max_eq_left (negInf_le _)]
  | cons p t ih =>
    intro acc
    have hstep : scanExtent (p :: t) acc =
        scanExtent t (stdMin acc.1 (Double.ofRat p.y), stdMax acc.2 (Double.ofRat p.y)) := by
      simp only [scanExtent, List.foldl_cons, stdMin, stdMax]
    rw [hstep, ih, stdMin_eq_min, stdMax_eq_max]
    simp only [List.map_cons, listMin, listMax, List.foldr_cons]
    rw [min_assoc, max_assoc]

theorem windowRange_tenth : windowRange [⟨tenth, 7⟩] tenth 1 = (1, 1) := by
  have hc : xLessThan ⟨tenth, 7⟩ tenth = true := by
    simp only [xLessThan, toFloat_tenth, ofRat_lt_ofRat, decide_eq_true_eq]
    norm_num [tenth]
  have h1 : lower_bound xLessThan [⟨tenth, 7⟩] 0 1 tenth = 1 := by
    simp [lower_bound, lower_bound_loop, hc]
  have h2 : lower_bound xLessThan [⟨tenth, 7⟩] 1 1 1 = 1 := rfl
  simp only [windowRange, List.length_singleton, h1, h2]

theorem windowRange_fourSamples : windowRange fourSampleItem.vals 1 3 = (1, 3) := by
  norm_num [windowRange, lower_bound, lower_bound_loop, xLessThan, toFloat_one, toFloat_three,
    ofRat_lt_ofRat, fourSampleItem]

/-- What the two searches select in a buffer with non-decreasing timestamps: the positions of
the samples whose timestamp lies between the two bounds as narrowed to `float`. -/
theorem windowRange_spec (vals : List QPointF) (a b : ℚ) (hs : sortedX vals) (i : Nat)
    (p : QPointF) (hp : vals[i]? = some p) :
    ((windowRange vals a b).1 ≤ i ∧ i < (windowRange vals a b).2) ↔
      (toFloat a ≤ Double.ofRat p.x ∧ Double.ofRat p.x < toFloat b) := by
  have hil : i < vals.length := by
    by_contra hcon
    rw [List.getElem?_eq_none (by omega)] at hp
    cases hp
  have hpart : ∀ (c : ℚ) (first len : Nat), first + len ≤ vals.length →
      ∀ i j p q, first ≤ i → i < j → j < first + len → vals[i]? = some p → vals[j]? = some q →
        xLessThan q c = true → xLessThan p c = true := by
    intro c first len hfl i j p q _ hij hj hp hq hc
    have hjl : j < vals.length := by omega
    have hil : i < vals.length := by omega
    have hle := (List.pairwise_iff_getElem.mp hs) i j hil hjl hij
    rw [List.getElem?_eq_getElem hil] at hp
    rw [List.getElem?_eq_getElem hjl] at hq
    cases hp
    cases hq
    simp only [xLessThan, decide_eq_true_eq] at hc ⊢
    exact lt_of_le_of_lt ((ofRat_le_ofRat _ _).mpr hle) hc
  have hb := windowRange_bounds vals a b
  have h1 := lower_bound_loop_partition xLessThan vals a (vals.length - 0) 0 (vals.length - 0)
    (le_refl _) (by omega) (hpart a 0 (vals.length - 0) (by omega))
  have hb1 := lower_bound_loop_bounds xLessThan vals a (vals.length - 0) 0 (vals.length - 0)
  have h2 := lower_bound_loop_partition xLessThan vals b
    (vals.length - lower_bound xLessThan vals 0 vals.length a)
    (lower_bound xLessThan vals 0 vals.length a)
    (vals.length - lower_bound xLessThan vals 0 vals.length a) (le_refl _)
    (by unfold lower_bound; omega)
    (hpart b _ _ (by unfold lower_bound; omega))
  have e1 : (windowRange vals a b).1 = lower_bound xLessThan vals 0 vals.length a := rfl
  have e2 : (windowRange vals a b).2 = lower_bound_loop xLessThan vals b
      (vals.length - lower_bound xLessThan vals 0 vals.length a)
      (lower_bound xLessThan vals 0 vals.length a)
      (vals.length - lower_bound xLessThan vals 0 vals.length a) := rfl
  rw [e1, e2] at hb
  rw [e1, e2]
  have e3 : lower_bound xLessThan vals 0 vals.length a =
      lower_bound_loop xLessThan vals a (vals.length - 0) 0 (vals.length - 0) := rfl
  constructor
  · rintro ⟨hlo, hhi⟩
    constructor
    · have := h1.2 i p (by rw [← e3]; exact hlo) (by omega) hp
      simpa [xLessThan] using this
    · have := h2.1 i p hlo hhi hp
      simpa [xLessThan] using this
  · rintro ⟨hge, hlt⟩
    have hlo : lower_bound xLessThan vals 0 vals.length a ≤ i := by
      by_contra hcon
      have := h1.1 i p (Nat.zero_le _) (by rw [← e3]; omega) hp
      simp only [xLessThan, decide_eq_true_eq] at this
      exact absurd this (not_lt.mpr hge)
    refine ⟨hlo, ?_⟩
    by_contra hcon
    have := h2.2 i p (by omega) (by omega) hp
    simp only [xLessThan, decide_eq_false_iff_not] at this
    exact this hlt

/-- C1, the failing input (`xLessThan` under `std::lower_bound`, chart.cc:16 and 301-302): the
buffer holds one sample with the timestamp `tenth` and the window is `[tenth, 1)`.  The bound is
narrowed to `float`, which is larger than `tenth`, so the search for the start skips the sample:
the position range is the empty `[1, 1)` although `tenth <= tenth < 1`. -/
theorem windowRange_start_not_inclusive :
    sortedX [⟨tenth, 7⟩] ∧ tenth ≤ tenth ∧ tenth < 1 ∧
    toFloat tenth = Double.ofRat (13421773 / 134217728) ∧
    windowRange [⟨tenth, 7⟩] tenth 1 = (1, 1) := by
  refine ⟨by simp [sortedX], le_refl _, by norm_num [tenth], toFloat_tenth, windowRange_tenth⟩

/-- C4, the failing input (`ChartView::updateAxisY`, live mode, chart.cc:301-309): for the
visible series `tenthItem` and the x axis `[tenth, 1)` the sample at `tenth` lies in the window,
but the scan runs over no sample and leaves `s.min` and `s.max` at the sentinels instead of 7. -/
theorem updateAxisY_live_misses_start_sample :
    tenthItem.visible = true ∧ tenthItem.vals = [⟨tenth, 7⟩] ∧ tenth ≤ tenth ∧ tenth < 1 ∧
    (updateAxisYItem true tenth 1 tenthItem).min = Double.ofRat DBL_MAX ∧
    (updateAxisYItem true tenth 1 tenthItem).max = Double.ofRat DBL_LOWEST := by
  refine ⟨rfl, rfl, le_refl _, by norm_num [tenth], ?_, ?_⟩
  · simp [updateAxisYItem, tenthItem, windowRange_tenth, scanExtent, List.take]
  · simp [updateAxisYItem, tenthItem, windowRange_tenth, scanExtent, List.take]

/-- C3, as stated, fails on an empty window: for a freshly added series (no sample, index built
over no sample) the replay route yields the empty-range result `(+inf, -inf)` of the index and
the live route the sentinels `(DBL_MAX, DBL_LOWEST)` of the scan. -/
theorem updateAxisY_routes_counterexample :
    sortedX (newItem 0 0).vals ∧
    (newItem 0 0).segment_tree = SegmentTree.build (newItem 0 0).vals ∧
    (updateAxisYItem false 0 1 (newItem 0 0)).min = Double.posInf ∧
    (updateAxisYItem true 0 1 (newItem 0 0)).min = Double.ofRat DBL_MAX ∧
    (updateAxisYItem false 0 1 (newItem 0 0)).min ≠ (updateAxisYItem true 0 1 (newItem 0 0)).min := by
  have h1 : (updateAxisYItem false 0 1 (newItem 0 0)).min = Double.posInf := by
    simp [updateAxisYItem, newItem, windowRange, lower_bound, lower_bound_loop,
      SegmentTree.minmax, SegmentTree.empty, queryNode, emptyExtent]
  have h2 : (updateAxisYItem true 0 1 (newItem 0 0)).min = Double.ofRat DBL_MAX := by
    simp [updateAxisYItem, newItem, windowRange, lower_bound, lower_bound_loop, scanExtent]
  refine ⟨by simp [sortedX, newItem], rfl, h1, h2, ?_⟩
  rw [h1, h2]
  exact (ofRat_lt_posInf DBL_MAX).ne'

/-- C3, amended (`ChartView::updateAxisY`, chart.cc:301-314): for a series whose index is the
one built over `vals` and whose values are finite doubles, whenever the two lower-bound searches
select at least one position, the replay route (index query) and the live route (linear scan)
leave the same series item, in particular the same `s.min` and `s.max`. -/
theorem updateAxisY_routes_agree (a b : ℚ) (s : SigItem)
    (htree : s.segment_tree = SegmentTree.build s.vals)
    (hfin : ∀ p ∈ s.vals, DBL_LOWEST ≤ p.y ∧ p.y ≤ DBL_MAX)
    (hne : (windowRange s.vals a b).1 < (windowRange s.vals a b).2) :
    updateAxisYItem false a b s = updateAxisYItem true a b s := by
  unfold updateAxisYItem
  by_cases hv : s.visible = true
  · simp only [hv, if_true, Bool.false_eq_true, if_false]
    have hb := windowRange_bounds s.vals a b
    have hq := minmax_build s.vals (windowRange s.vals a b).1 (windowRange s.vals a b).2
    rw [← htree] at hq
    rw [hq, scanExtent_eq]
    simp only [linearScanMinMax, List.map_drop, List.map_take]
    -- some sample lies in the selected range
    have hlen : 0 < (((s.vals.map (fun p => p.y)).take (windowRange s.vals a b).2).drop
        (windowRange s.vals a b).1).length := by
      rw [List.length_drop, List.length_take, List.length_map]
      omega
    obtain ⟨y, hy⟩ := List.exists_mem_of_length_pos hlen
    have hymem : y ∈ s.vals.map (fun p => p.y) :=
      List.mem_of_mem_take (List.mem_of_mem_drop hy)
    obtain ⟨p, hp, rfl⟩ := List.mem_map.mp hymem
    have hmin : listMin (((s.vals.map (fun p => p.y)).take (windowRange s.vals a b).2).drop
        (windowRange s.vals a b).1) ≤ Double.ofRat DBL_MAX :=
      le_trans (listMin_le_of_mem _ _ hy) ((ofRat_le_ofRat _ _).mpr (hfin p hp).2)
    have hmax : Double.ofRat DBL_LOWEST ≤
        listMax (((s.vals.map (fun p => p.y)).take (windowRange s.vals a b).2).drop
          (windowRange s.vals a b).1) :=
      le_trans ((ofRat_le_ofRat _ _).mpr (hfin p hp).1) (le_listMax_of_mem _ _ hy)
    rw [min_eq_right hmin, max_eq_right hmax]
  · simp [hv]

/-- The amended C3 at a concrete input: the samples of spec 8 and the window `[1, 3)`. -/
theorem updateAxisY_routes_agree_witness :
    fourSampleItem.segment_tree = SegmentTree.build fourSampleItem.vals ∧
    (∀ p ∈ fourSampleItem.vals, DBL_LOWEST ≤ p.y ∧ p.y ≤ DBL_MAX) ∧
    (windowRange fourSampleItem.vals 1 3).1 < (windowRange fourSampleItem.vals 1 3).2 ∧
    updateAxisYItem false 1 3 fourSampleItem = updateAxisYItem true 1 3 fourSampleItem :=
  have h1 : fourSampleItem.segment_tree = SegmentTree.build fourSampleItem.vals := rfl
  have h2 : ∀ p ∈ fourSampleItem.vals, DBL_LOWEST ≤ p.y ∧ p.y ≤ DBL_MAX := by
    norm_num [fourSampleItem, DBL_LOWEST, DBL_MAX]
  have h3 : (windowRange fourSampleItem.vals 1 3).1 < (windowRange fourSampleItem.vals 1 3).2 := by
    rw [windowRange_fourSamples]
    decide
  ⟨h1, h2, h3, updateAxisY_routes_agree 1 3 fourSampleItem h1 h2 h3⟩

/-! ## Axis scaling -/

theorem niceNumberValue_pos (x : ℚ) (ceiling : Bool) (_hx : 0 < x) :
    0 < niceNumberValue x ceiling := by
  unfold niceNumberValue
  have hz : (0 : ℚ) < 10 ^ (Int.log 10 x) := zpow_pos (by norm_num) _
  apply mul_pos _ hz
  cases ceiling
  · simp only [Bool.false_eq_true, if_false]
    split_ifs <;> norm_num
  · simp only [if_true]
    split_ifs <;> norm_num

theorem niceNumberValue_eq (x : ℚ) (ceiling : Bool) (e : ℤ) (hx : 0 < x)
    (h1 : (10 : ℚ) ^ e ≤ x) (h2 : x < (10 : ℚ) ^ (e + 1)) :
    niceNumberValue x ceiling =
      (if ceiling then
        if x / 10 ^ e ≤ 1 then 1 else if x / 10 ^ e ≤ 2 then 2 else if x / 10 ^ e ≤ 5 then 5
        else 10
      else
        if x / 10 ^ e < 3 / 2 then 1 else if x / 10 ^ e < 3 then 2 else if x / 10 ^ e < 7 then 5
        else 10) * 10 ^ e := by
  have hlog : Int.log 10 x = e :=
    int_log_eq 10 (by norm_num) x e hx (by exact_mod_cast h1) (by exact_mod_cast h2)
  unfold niceNumberValue
  rw [hlog]

theorem toInt_some (v : ℤ) (h1 : INT_MIN ≤ v) (h2 : v ≤ INT_MAX) : toInt v = some v := by
  unfold toInt
  rw [if_pos ⟨h1, h2⟩]

theorem toInt_none (v : ℤ) (h : INT_MAX < v) : toInt v = none := by
  unfold toInt
  rw [if_neg]
  intro hc
  exact absurd hc.2 (not_le.mpr h)

theorem axisStep_pos (min max : ℚ) (tick_count : ℤ) (hlt : min < max) (htc : 2 ≤ tick_count) :
    0 < axisStep min max tick_count := by
  unfold axisStep
  apply niceNumberValue_pos
  apply div_pos (niceNumberValue_pos _ _ (by linarith))
  have : (2 : ℚ) ≤ (tick_count : ℚ) := by exact_mod_cast htc
  linarith

theorem getNiceAxisNumbers_eq (min max : ℚ) (tick_count : ℤ) (hlt : min < max)
    (htc : 2 ≤ tick_count) :
    getNiceAxisNumbers min max tick_count =
      (qFloor (min / axisStep min max tick_count)).bind fun mn =>
      (qCeil (max / axisStep min max tick_count)).bind fun mx =>
      (toInt (mx - mn)).bind fun d =>
      (toInt (d + 1)).bind fun tc =>
      some (mn * axisStep min max tick_count, mx * axisStep min max tick_count, tc) := by
  have hr : 0 < niceNumberValue (max - min) true := niceNumberValue_pos _ _ (by linarith)
  have htq : (2 : ℚ) ≤ (tick_count : ℚ) := by exact_mod_cast htc
  have hq : 0 < niceNumberValue (max - min) true / ((tick_count : ℚ) - 1) :=
    div_pos hr (by linarith)
  have hne : ¬ (tick_count - 1 = 0) := by omega
  unfold getNiceAxisNumbers niceNumber
  rw [if_pos (by linarith : 0 < max - min)]
  simp only [Option.some_bind, if_neg hne, if_pos hq]
  rfl

/-- With exact arithmetic, inputs of large magnitude have no result: for the raw extent
`(10^12, 10^12 + 1)` and 5 ticks the step is `1/5` and `min / step = 5 * 10^12` is outside the
range of the `int` that `qFloor` returns, so no axis range is defined. -/
theorem getNiceAxisNumbers_counterexample :
    (1000000000000 : ℚ) < 1000000000001 ∧ (2 : ℤ) ≤ 5 ∧
    axisStep 1000000000000 1000000000001 5 = 1 / 5 ∧
    getNiceAxisNumbers 1000000000000 1000000000001 5 = none := by
  have h1 : niceNumberValue (1000000000001 - 1000000000000) true = 1 := by
    rw [niceNumberValue_eq _ true 0 (by norm_num) (by norm_num) (by norm_num)]
    norm_num
  have h2 : niceNumberValue (1 / ((5 : ℤ) - 1)) false = 1 / 5 := by
    rw [niceNumberValue_eq _ false (-1) (by norm_num) (by norm_num) (by norm_num)]
    norm_num
  have hstep : axisStep 1000000000000 1000000000001 5 = 1 / 5 := by
    unfold axisStep
    rw [h1, h2]
  refine ⟨by norm_num, by norm_num, hstep, ?_⟩
  rw [getNiceAxisNumbers_eq _ _ _ (by norm_num) (by norm_num), hstep]
  have : qFloor (1000000000000 / (1 / 5)) = none := by
    unfold qFloor
    apply toInt_none
    norm_num [INT_MAX]
  rw [this]
  rfl

/-- With exact arithmetic (the rounding of the doubles left out): for `raw_min < raw_max` and a
desired tick count of 2 or more, whenever `floor(raw_min / step)`, `ceil(raw_max / step)` and
their difference plus one fit in an `int`, the function returns `(axis_min, axis_max,
tick_count)` with `axis_min <= raw_min <= raw_max <= axis_max` and `tick_count >= 2`. -/
theorem getNiceAxisNumbers_covers (min max : ℚ) (tick_count : ℤ) (hlt : min < max)
    (htc : 2 ≤ tick_count)
    (hlo : INT_MIN ≤ ⌊min / axisStep min max tick_count⌋)
    (hhi : ⌈max / axisStep min max tick_count⌉ ≤ INT_MAX)
    (hd : ⌈max / axisStep min max tick_count⌉ - ⌊min / axisStep min max tick_count⌋ < INT_MAX) :
    ∃ axis_min axis_max n, getNiceAxisNumbers min max tick_count = some (axis_min, axis_max, n) ∧
      axis_min ≤ min ∧ min ≤ max ∧ max ≤ axis_max ∧ 2 ≤ n := by
  have hs := axisStep_pos min max tick_count hlt htc
  have hfl : (⌊min / axisStep min max tick_count⌋ : ℚ) ≤ min / axisStep min max tick_count :=
    Int.floor_le _
  have hce : max / axisStep min max tick_count ≤ (⌈max / axisStep min max tick_count⌉ : ℚ) :=
    Int.le_ceil _
  have hdiv : min / axisStep min max tick_count < max / axisStep min max tick_count :=
    div_lt_div_of_pos_right hlt hs
  have hfc : ⌊min / axisStep min max tick_count⌋ < ⌈max / axisStep min max tick_count⌉ := by
    have : (⌊min / axisStep min max tick_count⌋ : ℚ) <
        (⌈max / axisStep min max tick_count⌉ : ℚ) := by linarith
    exact_mod_cast this
  refine ⟨⌊min / axisStep min max tick_count⌋ * axisStep min max tick_count,
    ⌈max / axisStep min max tick_count⌉ * axisStep min max tick_count,
    ⌈max / axisStep min max tick_count⌉ - ⌊min / axisStep min max tick_count⌋ + 1, ?_, ?_, ?_, ?_, ?_⟩
  · rw [getNiceAxisNumbers_eq min max tick_count hlt htc]
    unfold qFloor qCeil
    rw [toInt_some _ hlo (by omega), toInt_some _ (by omega) hhi]
    simp only [Option.some_bind]
    rw [toInt_some _ (by unfold INT_MIN; omega) (by omega)]
    simp only [Option.some_bind]
    rw [toInt_some _ (by unfold INT_MIN; omega) (by omega)]
    simp
  · exact (le_div_iff₀ hs).mp hfl
  · exact hlt.le
  · exact (div_le_iff₀ hs).mp hce
  · omega

/-- The exact scaler at a concrete input: the padded extent `(1.95, 3.05)` of spec 8 and 5 ticks,
where the step is `1/2`. -/
theorem getNiceAxisNumbers_covers_witness :
    ((39 / 20 : ℚ) < 61 / 20) ∧ ((2 : ℤ) ≤ 5) ∧
    INT_MIN ≤ ⌊(39 / 20 : ℚ) / axisStep (39 / 20) (61 / 20) 5⌋ ∧
    ⌈(61 / 20 : ℚ) / axisStep (39 / 20) (61 / 20) 5⌉ ≤ INT_MAX ∧
    ∃ axis_min axis_max n, getNiceAxisNumbers (39 / 20) (61 / 20) 5 = some (axis_min, axis_max, n) ∧
      axis_min ≤ 39 / 20 ∧ (39 / 20 : ℚ) ≤ 61 / 20 ∧ 61 / 20 ≤ axis_max ∧ 2 ≤ n :=
  have h1 : niceNumberValue (61 / 20 - 39 / 20) true = 2 := by
    rw [niceNumberValue_eq _ true 0 (by norm_num) (by norm_num) (by norm_num)]
    norm_num
  have h2 : niceNumberValue (2 / ((5 : ℤ) - 1)) false = 1 / 2 := by
    rw [niceNumberValue_eq _ false (-1) (by norm_num) (by norm_num) (by norm_num)]
    norm_num
  have hstep : axisStep (39 / 20) (61 / 20) 5 = 1 / 2 := by
    unfold axisStep
    rw [h1, h2]
  have hf : ⌊(39 / 20 : ℚ) / (1 / 2)⌋ = 3 := by
    rw [Int.floor_eq_iff]; norm_num
  have hc : ⌈(61 / 20 : ℚ) / (1 / 2)⌉ = 7 := by
    rw [Int.ceil_eq_iff]; norm_num
  have hlo : INT_MIN ≤ ⌊(39 / 20 : ℚ) / axisStep (39 / 20) (61 / 20) 5⌋ := by
    rw [hstep, hf]; decide
  have hhi : ⌈(61 / 20 : ℚ) / axisStep (39 / 20) (61 / 20) 5⌉ ≤ INT_MAX := by
    rw [hstep, hc]; decide
  have hd : ⌈(61 / 20 : ℚ) / axisStep (39 / 20) (61 / 20) 5⌉ -
      ⌊(39 / 20 : ℚ) / axisStep (39 / 20) (61 / 20) 5⌋ < INT_MAX := by
    rw [hstep, hf, hc]; decide
  ⟨by norm_num, by norm_num, hlo, hhi,
    getNiceAxisNumbers_covers (39 / 20) (61 / 20) 5 (by norm_num) (by norm_num) hlo hhi hd⟩

theorem floor_lt_ceil_of_lt (a b : ℚ) (h : a < b) : ⌊a⌋ < ⌈b⌉ := by
  have h1 : (⌊a⌋ : ℚ) ≤ a := Int.floor_le _
  have h2 : b ≤ (⌈b⌉ : ℚ) := Int.le_ceil _
  have : (⌊a⌋ : ℚ) < (⌈b⌉ : ℚ) := by linarith
  exact_mod_cast this

theorem snapToStep_some (min max step : ℚ) (hlt : min < max) (hs : 0 < step)
    (hlo : INT_MIN ≤ ⌊min / step⌋) (hhi : ⌈max / step⌉ ≤ INT_MAX)
    (hd : ⌈max / step⌉ - ⌊min / step⌋ < INT_MAX) :
    snapToStep min max step =
      some (⌊min / step⌋ * step, ⌈max / step⌉ * step, ⌈max / step⌉ - ⌊min / step⌋ + 1) := by
  have hfc : ⌊min / step⌋ < ⌈max / step⌉ :=
    floor_lt_ceil_of_lt _ _ (div_lt_div_of_pos_right hlt hs)
  unfold snapToStep qFloor qCeil
  rw [toInt_some _ hlo (by omega), toInt_some _ (by omega) hhi]
  simp only [Option.some_bind]
  rw [toInt_some _ (by unfold INT_MIN; omega) (by omega)]
  simp only [Option.some_bind]
  rw [toInt_some _ (by unfold INT_MIN; omega) (by omega)]
  simp

theorem getNiceAxisNumbers_eq_snap (min max : ℚ) (tick_count : ℤ) (hlt : min < max)
    (htc : 2 ≤ tick_count) :
    getNiceAxisNumbers min max tick_count = snapToStep min max (axisStep min max tick_count) := by
  rw [getNiceAxisNumbers_eq min max tick_count hlt htc]
  rfl

theorem getNiceAxisNumbers_some (min max : ℚ) (tick_count : ℤ) (hlt : min < max)
    (htc : 2 ≤ tick_count)
    (hlo : INT_MIN ≤ ⌊min / axisStep min max tick_count⌋)
    (hhi : ⌈max / axisStep min max tick_count⌉ ≤ INT_MAX)
    (hd : ⌈max / axisStep min max tick_count⌉ - ⌊min / axisStep min max tick_count⌋ < INT_MAX) :
    getNiceAxisNumbers min max tick_count =
      some (⌊min / axisStep min max tick_count⌋ * axisStep min max tick_count,
        ⌈max / axisStep min max tick_count⌉ * axisStep min max tick_count,
        ⌈max / axisStep min max tick_count⌉ - ⌊min / axisStep min max tick_count⌋ + 1) := by
  rw [getNiceAxisNumbers_eq_snap min max tick_count hlt htc]
  exact snapToStep_some min max _ hlt (axisStep_pos min max tick_count hlt htc) hlo hhi hd

theorem floor_mul_le (a step : ℚ) (hs : 0 < step) : (⌊a / step⌋ : ℚ) * step ≤ a :=
  (le_div_iff₀ hs).mp (Int.floor_le _)

theorem le_ceil_mul (a step : ℚ) (hs : 0 < step) : a ≤ (⌈a / step⌉ : ℚ) * step :=
  (div_le_iff₀ hs).mp (Int.le_ceil _)

/-! ### The power of ten of `niceNumber` -/

theorem zpow_log_le (x : ℚ) (hx : 0 < x) : (10 : ℚ) ^ (Int.log 10 x) ≤ x := by
  have := Int.zpow_log_le_self (b := 10) (by norm_num) hx
  exact_mod_cast this

theorem lt_zpow_log_succ (x : ℚ) : x < (10 : ℚ) ^ (Int.log 10 x + 1) := by
  have := Int.lt_zpow_succ_log_self (b := 10) (by norm_num) x
  exact_mod_cast this

theorem int_log_eq_floor_logb (x : ℚ) (hx : 0 < x) :
    Int.log 10 x = ⌊Real.logb 10 (x : ℝ)⌋ := by
  have hxr : (0 : ℝ) < (x : ℝ) := by exact_mod_cast hx
  have h1 : ((10 : ℕ) : ℝ) ^ (Int.log 10 x) ≤ (x : ℝ) := by
    have := zpow_log_le x hx
    have h' : (((10 : ℚ) ^ (Int.log 10 x) : ℚ) : ℝ) ≤ (x : ℝ) := by exact_mod_cast this
    simpa using h'
  have h2 : (x : ℝ) < ((10 : ℕ) : ℝ) ^ (Int.log 10 x + 1) := by
    have := lt_zpow_log_succ x
    have h' : (x : ℝ) < (((10 : ℚ) ^ (Int.log 10 x + 1) : ℚ) : ℝ) := by exact_mod_cast this
    simpa using h'
  have ha := (Int.zpow_le_iff_le_log (b := 10) (by norm_num) hxr).mp h1
  have hb := (Int.lt_zpow_iff_log_lt (b := 10) (by norm_num) hxr).mp h2
  have hr : Int.log 10 (x : ℝ) = Int.log 10 x := by omega
  have hf := Real.floor_logb_natCast (b := 10) (r := (x : ℝ)) hxr.le
  rw [hr] at hf
  rw [← hf]
  norm_num

theorem quotient_bounds (x : ℚ) (hx : 0 < x) :
    1 ≤ x / (10 : ℚ) ^ (Int.log 10 x) ∧ x / (10 : ℚ) ^ (Int.log 10 x) < 10 := by
  have hz : (0 : ℚ) < 10 ^ (Int.log 10 x) := zpow_pos (by norm_num) _
  constructor
  · rw [le_div_iff₀ hz, one_mul]
    exact zpow_log_le x hx
  · rw [div_lt_iff₀ hz]
    have := lt_zpow_log_succ x
    rw [zpow_add_one₀ (by norm_num)] at this
    linarith

/-- With exact arithmetic (`niceNumber`, ceiling mode, rounding left out): for every `x > 0`, with
`z = 10 ^ floor(log10 x)`, the result is `q * z` where `q` is chosen from `x / z` by the
thresholds `<= 1 -> 1`, `<= 2 -> 2`, `<= 5 -> 5`, else 10; `q` is the smallest of 1, 2, 5, 10
that is at least `x / z`, and the result is never smaller than `x`. -/
theorem niceNumber_ceiling_spec (x : ℚ) (hx : 0 < x) :
    ∃ q : ℚ, niceNumber x true = some (q * (10 : ℚ) ^ ⌊Real.logb 10 (x : ℝ)⌋) ∧
      q = (if x / (10 : ℚ) ^ ⌊Real.logb 10 (x : ℝ)⌋ ≤ 1 then 1
        else if x / (10 : ℚ) ^ ⌊Real.logb 10 (x : ℝ)⌋ ≤ 2 then 2
        else if x / (10 : ℚ) ^ ⌊Real.logb 10 (x : ℝ)⌋ ≤ 5 then 5 else 10) ∧
      (q = 1 ∨ q = 2 ∨ q = 5 ∨ q = 10) ∧
      x / (10 : ℚ) ^ ⌊Real.logb 10 (x : ℝ)⌋ ≤ q ∧
      (∀ r : ℚ, (r = 1 ∨ r = 2 ∨ r = 5 ∨ r = 10) →
        x / (10 : ℚ) ^ ⌊Real.logb 10 (x : ℝ)⌋ ≤ r → q ≤ r) ∧
      x ≤ q * (10 : ℚ) ^ ⌊Real.logb 10 (x : ℝ)⌋ := by
  rw [← int_log_eq_floor_logb x hx]
  have hz : (0 : ℚ) < 10 ^ (Int.log 10 x) := zpow_pos (by norm_num) _
  have hb := quotient_bounds x hx
  have hval : niceNumber x true =
      some ((if x / (10 : ℚ) ^ (Int.log 10 x) ≤ 1 then 1
        else if x / (10 : ℚ) ^ (Int.log 10 x) ≤ 2 then 2
        else if x / (10 : ℚ) ^ (Int.log 10 x) ≤ 5 then 5 else 10) * (10 : ℚ) ^ (Int.log 10 x)) := by
    simp [niceNumber, niceNumberValue, hx]
  refine ⟨_, hval, rfl, ?_, ?_, ?_, ?_⟩
  · split_ifs <;> simp
  · split_ifs with h1 h2 h3
    · exact h1
    · exact h2
    · exact h3
    · exact hb.2.le
  · intro r hr hle
    split_ifs with h1 h2 h3
    · rcases hr with rfl | rfl | rfl | rfl <;> norm_num
    · rcases hr with rfl | rfl | rfl | rfl
      · exact absurd hle h1
      · norm_num
      · norm_num
      · norm_num
    · rcases hr with rfl | rfl | rfl | rfl
      · exact absurd hle h1
      · exact absurd hle h2
      · norm_num
      · norm_num
    · rcases hr with rfl | rfl | rfl | rfl
      · exact absurd hle h1
      · exact absurd hle h2
      · exact absurd hle h3
      · norm_num
  · have hq : x / (10 : ℚ) ^ (Int.log 10 x) ≤
        (if x / (10 : ℚ) ^ (Int.log 10 x) ≤ 1 then 1
        else if x / (10 : ℚ) ^ (Int.log 10 x) ≤ 2 then 2
        else if x / (10 : ℚ) ^ (Int.log 10 x) ≤ 5 then 5 else 10) := by
      split_ifs with h1 h2 h3
      · exact h1
      · exact h2
      · exact h3
      · exact hb.2.le
    exact (div_le_iff₀ hz).mp hq

/-- The exact ceiling mode at a concrete input: `niceNumber(3, true)` is 5. -/
theorem niceNumber_ceiling_spec_witness :
    (0 : ℚ) < 3 ∧
    ∃ q : ℚ, niceNumber 3 true = some (q * (10 : ℚ) ^ ⌊Real.logb 10 ((3 : ℚ) : ℝ)⌋) ∧
      (q = 1 ∨ q = 2 ∨ q = 5 ∨ q = 10) ∧ 3 ≤ q * (10 : ℚ) ^ ⌊Real.logb 10 ((3 : ℚ) : ℝ)⌋ :=
  ⟨by norm_num,
    (niceNumber_ceiling_spec 3 (by norm_num)).elim fun q h => ⟨q, h.1, h.2.2.1, h.2.2.2.2.2⟩⟩

/-- With exact arithmetic (`niceNumber`, nearest mode, and its use in `getNiceAxisNumbers`,
rounding left out): for every `x > 0`, with `z = 10 ^ floor(log10 x)`, the result is `q * z` where
`q` is chosen from `x / z` by the thresholds `< 1.5 -> 1`, `< 3 -> 2`, `< 7 -> 5`, else 10; and for
`min < max` and 2 or more ticks `getNiceAxisNumbers` snaps to the step that this mode gives for
the nice span divided by `tick_count - 1`. -/
theorem niceNumber_nearest_spec (x min max : ℚ) (tick_count : ℤ) (hx : 0 < x) (hlt : min < max)
    (htc : 2 ≤ tick_count) :
    (niceNumber x false =
      some ((if x / (10 : ℚ) ^ ⌊Real.logb 10 (x : ℝ)⌋ < 3 / 2 then 1
        else if x / (10 : ℚ) ^ ⌊Real.logb 10 (x : ℝ)⌋ < 3 then 2
        else if x / (10 : ℚ) ^ ⌊Real.logb 10 (x : ℝ)⌋ < 7 then 5 else 10) *
        (10 : ℚ) ^ ⌊Real.logb 10 (x : ℝ)⌋)) ∧
    ∃ span step : ℚ, niceNumber (max - min) true = some span ∧
      niceNumber (span / (tick_count - 1)) false = some step ∧
      getNiceAxisNumbers min max tick_count = snapToStep min max step := by
  constructor
  · rw [← int_log_eq_floor_logb x hx]
    simp [niceNumber, niceNumberValue, hx]
  · have hr : 0 < niceNumberValue (max - min) true := niceNumberValue_pos _ _ (by linarith)
    have htq : (2 : ℚ) ≤ (tick_count : ℚ) := by exact_mod_cast htc
    have hq : 0 < niceNumberValue (max - min) true / ((tick_count : ℚ) - 1) :=
      div_pos hr (by linarith)
    refine ⟨niceNumberValue (max - min) true, axisStep min max tick_count, ?_, ?_, ?_⟩
    · simp [niceNumber, show 0 < max - min by linarith]
    · simp [niceNumber, hq, axisStep]
    · exact getNiceAxisNumbers_eq_snap min max tick_count hlt htc

/-- The exact nearest mode at a concrete input: `niceNumber(1/4, false)` and the step for the extent `(0, 10)`
with 5 ticks. -/
theorem niceNumber_nearest_spec_witness :
    (0 : ℚ) < 1 / 4 ∧ (0 : ℚ) < 10 ∧ (2 : ℤ) ≤ 5 ∧
    ∃ span step : ℚ, niceNumber (10 - 0) true = some span ∧
      niceNumber (span / ((5 : ℤ) - 1)) false = some step ∧
      getNiceAxisNumbers 0 10 5 = snapToStep 0 10 step :=
  ⟨by norm_num, by norm_num, by norm_num,
    (niceNumber_nearest_spec (1 / 4) 0 10 5 (by norm_num) (by norm_num) (by norm_num)).2⟩

theorem axisStep_eq (min max : ℚ) (tick_count : ℤ) (span step : ℚ)
    (h1 : niceNumberValue (max - min) true = span)
    (h2 : niceNumberValue (span / (tick_count - 1)) false = step) :
    axisStep min max tick_count = step := by
  unfold axisStep
  rw [h1, h2]

theorem getNiceAxisNumbers_none (min max : ℚ) (tick_count : ℤ) (hlt : min < max)
    (htc : 2 ≤ tick_count) (h : INT_MAX < ⌊min / axisStep min max tick_count⌋) :
    getNiceAxisNumbers min max tick_count = none := by
  rw [getNiceAxisNumbers_eq min max tick_count hlt htc]
  unfold qFloor
  rw [toInt_none _ h]
  rfl

theorem niceNumberValue_one : niceNumberValue 1 true = 1 := by
  rw [niceNumberValue_eq 1 true 0 (by norm_num) (by norm_num) (by norm_num)]
  norm_num

theorem niceNumberValue_two : niceNumberValue 2 true = 2 := by
  rw [niceNumberValue_eq 2 true 0 (by norm_num) (by norm_num) (by norm_num)]
  norm_num

theorem niceNumberValue_half : niceNumberValue (1 / 2) false = 1 / 2 := by
  rw [niceNumberValue_eq (1 / 2) false (-1) (by norm_num) (by norm_num) (by norm_num)]
  norm_num

theorem axisStep_zero_span (v : ℚ) : axisStep (v - 1) (v + 1) 5 = 1 / 2 := by
  apply axisStep_eq _ _ _ 2 (1 / 2)
  · have : v + 1 - (v - 1) = 2 := by ring
    rw [this, niceNumberValue_two]
  · have : (2 : ℚ) / (((5 : ℤ) : ℚ) - 1) = 1 / 2 := by norm_num
    rw [this, niceNumberValue_half]

theorem axisStep_scenario : axisStep (39 / 20) (61 / 20) 5 = 1 / 2 := by
  apply axisStep_eq _ _ _ 2 (1 / 2)
  · rw [niceNumberValue_eq _ true 0 (by norm_num) (by norm_num) (by norm_num)]
    norm_num
  · have : (2 : ℚ) / (((5 : ℤ) : ℚ) - 1) = 1 / 2 := by norm_num
    rw [this, niceNumberValue_half]

theorem axisStep_zero_ten : axisStep 0 10 5 = 2 := by
  apply axisStep_eq _ _ _ 10 2
  · rw [niceNumberValue_eq _ true 1 (by norm_num) (by norm_num) (by norm_num)]
    norm_num
  · rw [niceNumberValue_eq _ false 0 (by norm_num) (by norm_num) (by norm_num)]
    norm_num

/-- With exact arithmetic, inputs of large magnitude have no result: for `(3 * 10^10, 3 * 10^10 + 1)` and 3
ticks the step is `1/2` and `floor(min / step) = 6 * 10^10` is outside the range of the `int`
that `qFloor` returns, so nothing is returned. -/
theorem getNiceAxisNumbers_snap_counterexample :
    (30000000000 : ℚ) < 30000000001 ∧ (2 : ℤ) ≤ 3 ∧
    axisStep 30000000000 30000000001 3 = 1 / 2 ∧
    ⌊(30000000000 : ℚ) / (1 / 2)⌋ = 60000000000 ∧
    getNiceAxisNumbers 30000000000 30000000001 3 = none := by
  have hstep : axisStep 30000000000 30000000001 3 = 1 / 2 := by
    apply axisStep_eq _ _ _ 1 (1 / 2)
    · have : (30000000001 : ℚ) - 30000000000 = 1 := by norm_num
      rw [this, niceNumberValue_one]
    · have : (1 : ℚ) / (((3 : ℤ) : ℚ) - 1) = 1 / 2 := by norm_num
      rw [this, niceNumberValue_half]
  have hfl : ⌊(30000000000 : ℚ) / (1 / 2)⌋ = 60000000000 := by
    rw [Int.floor_eq_iff]; norm_num
  refine ⟨by norm_num, by norm_num, hstep, hfl, ?_⟩
  apply getNiceAxisNumbers_none _ _ _ (by norm_num) (by norm_num)
  rw [hstep, hfl]
  decide

/-- With exact arithmetic (the rounding of the doubles left out): for `min < max` and 2 or
more ticks, with `step = niceNumber(niceNumber(max - min, ceiling) / (ticks - 1), nearest)`,
whenever `floor(min / step)`, `ceil(max / step)` and their difference plus one fit in an `int`,
the function returns `axis_min = floor(min / step) * step`, `axis_max = ceil(max / step) * step`
and `tick_count = (axis_max - axis_min) / step + 1`; the ticks, evenly spaced from `axis_min` to
`axis_max`, are the multiples `(floor(min / step) + k) * step`. -/
theorem getNiceAxisNumbers_snaps (min max : ℚ) (tick_count : ℤ) (hlt : min < max)
    (htc : 2 ≤ tick_count)
    (hlo : INT_MIN ≤ ⌊min / axisStep min max tick_count⌋)
    (hhi : ⌈max / axisStep min max tick_count⌉ ≤ INT_MAX)
    (hd : ⌈max / axisStep min max tick_count⌉ - ⌊min / axisStep min max tick_count⌋ < INT_MAX) :
    (∃ span : ℚ, niceNumber (max - min) true = some span ∧
      niceNumber (span / (tick_count - 1)) false = some (axisStep min max tick_count)) ∧
    ∃ (axis_min axis_max : ℚ) (n : ℤ),
      getNiceAxisNumbers min max tick_count = some (axis_min, axis_max, n) ∧
      axis_min = ⌊min / axisStep min max tick_count⌋ * axisStep min max tick_count ∧
      axis_max = ⌈max / axisStep min max tick_count⌉ * axisStep min max tick_count ∧
      (n : ℚ) = (axis_max - axis_min) / axisStep min max tick_count + 1 ∧
      ∀ k : ℤ, axis_min + k * ((axis_max - axis_min) / (n - 1)) =
        (⌊min / axisStep min max tick_count⌋ + k) * axisStep min max tick_count := by
  have hs := axisStep_pos min max tick_count hlt htc
  have hfc : ⌊min / axisStep min max tick_count⌋ < ⌈max / axisStep min max tick_count⌉ :=
    floor_lt_ceil_of_lt _ _ (div_lt_div_of_pos_right hlt hs)
  have hr : 0 < niceNumberValue (max - min) true := niceNumberValue_pos _ _ (by linarith)
  have htq : (2 : ℚ) ≤ (tick_count : ℚ) := by exact_mod_cast htc
  have hq : 0 < niceNumberValue (max - min) true / ((tick_count : ℚ) - 1) :=
    div_pos hr (by linarith)
  constructor
  · refine ⟨niceNumberValue (max - min) true, ?_, ?_⟩
    · simp [niceNumber, show 0 < max - min by linarith]
    · simp [niceNumber, hq, axisStep]
  · refine ⟨_, _, _, getNiceAxisNumbers_some min max tick_count hlt htc hlo hhi hd, rfl, rfl, ?_, ?_⟩
    · push_cast
      field_simp
      ring
    · intro k
      have hne : ((⌈max / axisStep min max tick_count⌉ : ℚ) -
          (⌊min / axisStep min max tick_count⌋ : ℚ)) ≠ 0 := by
        have : (⌊min / axisStep min max tick_count⌋ : ℚ) <
            (⌈max / axisStep min max tick_count⌉ : ℚ) := by exact_mod_cast hfc
        linarith
      push_cast
      have e1 : ((⌈max / axisStep min max tick_count⌉ : ℚ) -
          (⌊min / axisStep min max tick_count⌋ : ℚ) + 1 - 1) =
          ((⌈max / axisStep min max tick_count⌉ : ℚ) -
          (⌊min / axisStep min max tick_count⌋ : ℚ)) := by ring
      rw [e1]
      field_simp
      ring

/-- The exact scaler at a concrete input: for `(0, 10)` and 5 ticks the step is 2 and the result
is `(0, 10, 6)`. -/
theorem getNiceAxisNumbers_snaps_witness :
    (0 : ℚ) < 10 ∧ (2 : ℤ) ≤ 5 ∧ axisStep 0 10 5 = 2 ∧
    ∃ (axis_min axis_max : ℚ) (n : ℤ),
      getNiceAxisNumbers 0 10 5 = some (axis_min, axis_max, n) ∧
      axis_min = ⌊(0 : ℚ) / axisStep 0 10 5⌋ * axisStep 0 10 5 ∧
      axis_max = ⌈(10 : ℚ) / axisStep 0 10 5⌉ * axisStep 0 10 5 :=
  have hf : ⌊(0 : ℚ) / 2⌋ = 0 := by norm_num
  have hc : ⌈(10 : ℚ) / 2⌉ = 5 := by
    rw [Int.ceil_eq_iff]; norm_num
  have hlo : INT_MIN ≤ ⌊(0 : ℚ) / axisStep 0 10 5⌋ := by
    rw [axisStep_zero_ten, hf]; decide
  have hhi : ⌈(10 : ℚ) / axisStep 0 10 5⌉ ≤ INT_MAX := by
    rw [axisStep_zero_ten, hc]; decide
  have hd : ⌈(10 : ℚ) / axisStep 0 10 5⌉ - ⌊(0 : ℚ) / axisStep 0 10 5⌋ < INT_MAX := by
    rw [axisStep_zero_ten, hf, hc]; decide
  ⟨by norm_num, by norm_num, axisStep_zero_ten,
    (getNiceAxisNumbers_snaps 0 10 5 (by norm_num) (by norm_num) hlo hhi hd).2.elim
      fun a h => h.elim fun b h => h.elim fun n h => ⟨a, b, n, h.1, h.2.1, h.2.2.1⟩⟩

/-! ### Padding of the raw extent -/

theorem axisPadding_pos (min max : ℚ) (hle : min ≤ max) : 0 < axisPadding min max := by
  unfold axisPadding
  split_ifs with h
  · norm_num
  · have habs : |max - min| = max - min := abs_of_nonneg (by linarith)
    rw [habs] at h
    have : (1 : ℚ) / 1000 ≤ max - min := not_lt.mp h
    linarith

theorem axisPadding_self (v : ℚ) : axisPadding v v = 1 := by
  simp [axisPadding]

theorem scaleAxis_some (min max : ℚ) (tick_count : ℤ) (hle : min ≤ max) (htc : 2 ≤ tick_count)
    (hlo : INT_MIN ≤ ⌊(min - axisPadding min max) /
      axisStep (min - axisPadding min max) (max + axisPadding min max) tick_count⌋)
    (hhi : ⌈(max + axisPadding min max) /
      axisStep (min - axisPadding min max) (max + axisPadding min max) tick_count⌉ ≤ INT_MAX)
    (hd : ⌈(max + axisPadding min max) /
        axisStep (min - axisPadding min max) (max + axisPadding min max) tick_count⌉ -
      ⌊(min - axisPadding min max) /
        axisStep (min - axisPadding min max) (max + axisPadding min max) tick_count⌋ < INT_MAX) :
    ∃ (axis_min axis_max : ℚ) (n : ℤ),
      scaleAxis min max tick_count = some (axis_min, axis_max, n) ∧
      axis_min < min ∧ max < axis_max ∧ 2 ≤ n := by
  have hp := axisPadding_pos min max hle
  have hlt : min - axisPadding min max < max + axisPadding min max := by linarith
  have hs := axisStep_pos _ _ tick_count hlt htc
  have hfc := floor_lt_ceil_of_lt _ _ (div_lt_div_of_pos_right hlt hs)
  refine ⟨_, _, _, getNiceAxisNumbers_some _ _ tick_count hlt htc hlo hhi hd, ?_, ?_, ?_⟩
  · have := floor_mul_le (min - axisPadding min max) _ hs
    linarith
  · have := le_ceil_mul (max + axisPadding min max) _ hs
    linarith
  · omega

theorem scaleAxis_none (min max : ℚ) (tick_count : ℤ) (hle : min ≤ max) (htc : 2 ≤ tick_count)
    (h : INT_MAX < ⌊(min - axisPadding min max) /
      axisStep (min - axisPadding min max) (max + axisPadding min max) tick_count⌋) :
    scaleAxis min max tick_count = none := by
  have hp := axisPadding_pos min max hle
  exact getNiceAxisNumbers_none _ _ tick_count (by linarith) htc h

/-- Called on a zero-span extent itself, without the pad of `updateAxisY`, the scaler has no
result: the span is 0 and `std::log10(0)` is `-inf`. -/
theorem getNiceAxisNumbers_zero_span_none (v : ℚ) (tick_count : ℤ) :
    getNiceAxisNumbers v v tick_count = none := by
  simp [getNiceAxisNumbers, niceNumber]

/-- C11, as stated, fails for a zero-span extent of large magnitude: for `v = 2 * 10^9` and 5
ticks the padded extent is `(v - 1, v + 1)`, the step is `1/2`, and
`floor((v - 1) / step) = 3999999998` is outside the range of the `int` that `qFloor` returns, so
no axis range is defined. -/
theorem scaleAxis_zero_span_counterexample :
    axisPadding 2000000000 2000000000 = 1 ∧
    axisStep (2000000000 - 1) (2000000000 + 1) 5 = 1 / 2 ∧
    ⌊((2000000000 : ℚ) - 1) / (1 / 2)⌋ = 3999999998 ∧
    scaleAxis 2000000000 2000000000 5 = none := by
  have hfl : ⌊((2000000000 : ℚ) - 1) / (1 / 2)⌋ = 3999999998 := by
    rw [Int.floor_eq_iff]; norm_num
  refine ⟨axisPadding_self _, axisStep_zero_span _, hfl, ?_⟩
  apply scaleAxis_none _ _ _ (le_refl _) (by norm_num)
  rw [axisPadding_self, axisStep_zero_span, hfl]
  decide

/-- C11, amended (`ChartView::updateAxisY`, chart.cc:326-327, with `getNiceAxisNumbers`): for a
zero-span extent `raw_min == raw_max == v` and 2 or more desired ticks the pad is 1, and whenever
`floor((v - 1) / step)`, `ceil((v + 1) / step)` and their difference plus one fit in an `int`,
an axis range is defined with `axis_min < v < axis_max` and `tick_count >= 2`. -/
theorem scaleAxis_zero_span (v : ℚ) (tick_count : ℤ) (htc : 2 ≤ tick_count)
    (hlo : INT_MIN ≤ ⌊(v - 1) / axisStep (v - 1) (v + 1) tick_count⌋)
    (hhi : ⌈(v + 1) / axisStep (v - 1) (v + 1) tick_count⌉ ≤ INT_MAX)
    (hd : ⌈(v + 1) / axisStep (v - 1) (v + 1) tick_count⌉ -
      ⌊(v - 1) / axisStep (v - 1) (v + 1) tick_count⌋ < INT_MAX) :
    axisPadding v v = 1 ∧
    ∃ (axis_min axis_max : ℚ) (n : ℤ),
      scaleAxis v v tick_count = some (axis_min, axis_max, n) ∧
      axis_min < v ∧ v < axis_max ∧ 2 ≤ n := by
  refine ⟨axisPadding_self v, ?_⟩
  apply scaleAxis_some v v tick_count (le_refl _) htc
  · rw [axisPadding_self]; exact hlo
  · rw [axisPadding_self]; exact hhi
  · rw [axisPadding_self]; exact hd

/-- The amended C11 at the input of the spec: `v = 5` with 5 ticks, where the step is `1/2` and
the range is `(4, 6)`. -/
theorem scaleAxis_zero_span_witness :
    (2 : ℤ) ≤ 5 ∧ axisStep (5 - 1) (5 + 1) 5 = 1 / 2 ∧
    ∃ (axis_min axis_max : ℚ) (n : ℤ),
      scaleAxis 5 5 5 = some (axis_min, axis_max, n) ∧ axis_min < 5 ∧ 5 < axis_max ∧ 2 ≤ n :=
  have hf : ⌊((5 : ℚ) - 1) / (1 / 2)⌋ = 8 := by
    rw [Int.floor_eq_iff]; norm_num
  have hc : ⌈((5 : ℚ) + 1) / (1 / 2)⌉ = 12 := by
    rw [Int.ceil_eq_iff]; norm_num
  have hlo : INT_MIN ≤ ⌊((5 : ℚ) - 1) / axisStep (5 - 1) (5 + 1) 5⌋ := by
    rw [axisStep_zero_span, hf]; decide
  have hhi : ⌈((5 : ℚ) + 1) / axisStep (5 - 1) (5 + 1) 5⌉ ≤ INT_MAX := by
    rw [axisStep_zero_span, hc]; decide
  have hd : ⌈((5 : ℚ) + 1) / axisStep (5 - 1) (5 + 1) 5⌉ -
      ⌊((5 : ℚ) - 1) / axisStep (5 - 1) (5 + 1) 5⌋ < INT_MAX := by
    rw [axisStep_zero_span, hf, hc]; decide
  ⟨by norm_num, axisStep_zero_span 5, (scaleAxis_zero_span 5 5 (by norm_num) hlo hhi hd).2⟩

theorem finite_ofRat (q : ℚ) : Double.finite? (Double.ofRat q) = some q := rfl

theorem queryNode_empty_range (t : RangeNode) (left right lo : Nat) :
    queryNode t left right lo lo = emptyExtent := by
  cases t with
  | nil => rfl
  | leaf mn mx => simp [queryNode]
  | node mn mx l r => simp [queryNode]

theorem windowRange_nil (a b : ℚ) : windowRange [] a b = (0, 0) := rfl

theorem stdMin_sentinel_posInf : stdMin (Double.ofRat DBL_MAX) Double.posInf = Double.ofRat DBL_MAX := by
  rw [stdMin_eq_min]
  exact min_eq_left (le_posInf _)

theorem stdMax_sentinel_negInf :
    stdMax (Double.ofRat DBL_LOWEST) Double.negInf = Double.ofRat DBL_LOWEST := by
  rw [stdMax_eq_max]
  exact max_eq_left (negInf_le _)

theorem stdMin_self (a : Double) : stdMin a a = a := by
  rw [stdMin_eq_min]
  exact min_self a

theorem stdMax_self (a : Double) : stdMax a a = a := by
  rw [stdMax_eq_max]
  exact max_self a

theorem updateAxisYItem_empty_window (live : Bool) (a b : ℚ) (s : SigItem)
    (hv : s.visible = true) (he : (windowRange s.vals a b).1 = (windowRange s.vals a b).2) :
    stdMin (Double.ofRat DBL_MAX) (updateAxisYItem live a b s).min = Double.ofRat DBL_MAX ∧
    stdMax (Double.ofRat DBL_LOWEST) (updateAxisYItem live a b s).max =
      Double.ofRat DBL_LOWEST := by
  have hslice : (s.vals.take (windowRange s.vals a b).2).drop (windowRange s.vals a b).1 = [] := by
    apply List.length_eq_zero.mp
    rw [List.length_drop, List.length_take, he]
    omega
  unfold updateAxisYItem
  cases live with
  | true =>
    simp only [hv, if_true, hslice, scanExtent, List.foldl_nil]
    exact ⟨stdMin_self _, stdMax_self _⟩
  | false =>
    simp only [hv, if_true, Bool.false_eq_true, if_false, SegmentTree.minmax, he,
      queryNode_empty_range, emptyExtent]
    exact ⟨stdMin_sentinel_posInf, stdMax_sentinel_negInf⟩

theorem updateAxisYLoop_no_data (live : Bool) (sigUnit : Nat → String) (a b : ℚ) :
    ∀ (sigs : List SigItem) (unit : String),
      (∀ s ∈ sigs, s.visible = true → (windowRange s.vals a b).1 = (windowRange s.vals a b).2) →
      (updateAxisYLoop live sigUnit a b sigs
        (Double.ofRat DBL_MAX, Double.ofRat DBL_LOWEST, unit)).2.1 = Double.ofRat DBL_MAX ∧
      (updateAxisYLoop live sigUnit a b sigs
        (Double.ofRat DBL_MAX, Double.ofRat DBL_LOWEST, unit)).2.2.1 = Double.ofRat DBL_LOWEST := by
  intro sigs
  induction sigs with
  | nil => intro unit _; exact ⟨rfl, rfl⟩
  | cons s rest ih =>
    intro unit h
    have hrest : ∀ t ∈ rest, t.visible = true →
        (windowRange t.vals a b).1 = (windowRange t.vals a b).2 :=
      fun t ht => h t (List.mem_cons_of_mem _ ht)
    unfold updateAxisYLoop
    by_cases hv : s.visible = true
    · have hs := updateAxisYItem_empty_window live a b s hv (h s (List.mem_cons_self _ _) hv)
      simp only [hv, if_true, hs.1, hs.2]
      exact ih _ hrest
    · simp only [hv, Bool.false_eq_true, if_false]
      exact ih _ hrest

theorem replaceSentinels_sentinels :
    replaceSentinels (Double.ofRat DBL_MAX, Double.ofRat DBL_LOWEST) =
      (Double.ofRat 0, Double.ofRat 0) := by
  simp [replaceSentinels]

theorem getNiceAxisNumbers_centred : getNiceAxisNumbers (-1) 1 5 = some (-1, 1, 5) := by
  have hstep : axisStep (-1) 1 5 = 1 / 2 := by
    have := axisStep_zero_span 0
    simpa using this
  have hf : ⌊((-1 : ℚ)) / (1 / 2)⌋ = -2 := by
    rw [Int.floor_eq_iff]; norm_num
  have hc : ⌈((1 : ℚ)) / (1 / 2)⌉ = 2 := by
    rw [Int.ceil_eq_iff]; norm_num
  have h := getNiceAxisNumbers_some (-1) 1 5 (by norm_num) (by norm_num)
    (by rw [hstep, hf]; decide) (by rw [hstep, hc]; decide) (by rw [hstep, hf, hc]; decide)
  rw [h, hstep, hf, hc]
  norm_num

/-- `ChartView::updateAxisY`, chart.cc:289-327, when the searches select nothing: on a chart
with at least one series, when for every visible series the two searches select no position
(an empty buffer, an empty selection, or every series hidden), the raw extent is taken as `(0, 0)`, the scaler is called with the centred range
`(-1, 1)`, and the outcome of `updateAxisY` is the one of that call: no sentinel reaches the
scaler. -/
theorem updateAxisY_no_data (live : Bool) (sigUnit : Nat → String)
    (labelWidth : String → ℚ → ℚ → ℤ → ℤ) (c : ChartView) (s0 : SigItem) (rest : List SigItem)
    (hs : c.sigs = s0 :: rest)
    (hempty : ∀ s ∈ c.sigs, s.visible = true →
      (windowRange s.vals c.axis_x_min c.axis_x_max).1 =
        (windowRange s.vals c.axis_x_min c.axis_x_max).2) :
    rawExtent live sigUnit c.axis_x_min c.axis_x_max s0 rest = (Double.ofRat 0, Double.ofRat 0) ∧
    scaleAxis 0 0 c.axis_y_tick_count = getNiceAxisNumbers (-1) 1 c.axis_y_tick_count ∧
    updateAxisY live sigUnit labelWidth c =
      (getNiceAxisNumbers (-1) 1 c.axis_y_tick_count).map
        (applyAxis labelWidth c
          (updateAxisYLoop live sigUnit c.axis_x_min c.axis_x_max (s0 :: rest)
            (loopStart sigUnit s0.sig)).1
          (updateAxisYLoop live sigUnit c.axis_x_min c.axis_x_max (s0 :: rest)
            (loopStart sigUnit s0.sig)).2.2.2) := by
  rw [hs] at hempty
  have hloop := updateAxisYLoop_no_data live sigUnit c.axis_x_min c.axis_x_max (s0 :: rest)
    (sigUnit s0.sig) hempty
  have hraw : rawExtent live sigUnit c.axis_x_min c.axis_x_max s0 rest =
      (Double.ofRat 0, Double.ofRat 0) := by
    unfold rawExtent loopStart
    simp only [hloop.1, hloop.2, replaceSentinels_sentinels]
  have hscale : scaleAxis 0 0 c.axis_y_tick_count =
      getNiceAxisNumbers (-1) 1 c.axis_y_tick_count := by
    unfold scaleAxis
    rw [axisPadding_self]
    norm_num
  refine ⟨hraw, hscale, ?_⟩
  unfold updateAxisY
  rw [hs]
  simp only [hraw, finite_ofRat, Option.some_bind, hscale]

/-- An empty selection at a concrete input: a chart whose only series has an empty buffer, with 5 ticks; the
scaler returns `(-1, 1, 5)`. -/
theorem updateAxisY_no_data_witness :
    (newChart [newItem 0 0] 1 3).sigs = [newItem 0 0] ∧
    rawExtent true noUnit 1 3 (newItem 0 0) [] = (Double.ofRat 0, Double.ofRat 0) ∧
    getNiceAxisNumbers (-1) 1 5 = some (-1, 1, 5) :=
  ⟨rfl,
    (updateAxisY_no_data true noUnit someWidth (newChart [newItem 0 0] 1 3) (newItem 0 0) [] rfl
      (by
        intro s hs _
        have : s = newItem 0 0 := by simpa [newChart] using hs
        subst this
        rfl)).1,
    getNiceAxisNumbers_centred⟩

theorem windowRange_empty_of_no_sample (vals : List QPointF) (a b : ℚ) (hs : sortedX vals)
    (h : ∀ p ∈ vals, ¬ (toFloat a ≤ Double.ofRat p.x ∧ Double.ofRat p.x < toFloat b)) :
    (windowRange vals a b).1 = (windowRange vals a b).2 := by
  have hb := windowRange_bounds vals a b
  by_contra hne
  have hlt : (windowRange vals a b).1 < (windowRange vals a b).2 := by omega
  have hil : (windowRange vals a b).1 < vals.length := by omega
  have hp : vals[(windowRange vals a b).1]? = some vals[(windowRange vals a b).1] :=
    List.getElem?_eq_getElem hil
  have := (windowRange_spec vals a b hs _ _ hp).mp ⟨le_refl _, hlt⟩
  exact h _ (List.getElem_mem _) this

theorem windowRange_empty_of_no_sample_exact (vals : List QPointF) (a b : ℚ) (hs : sortedX vals)
    (ha : toFloat a = Double.ofRat a) (hb : toFloat b = Double.ofRat b)
    (h : ∀ p ∈ vals, ¬ (a ≤ p.x ∧ p.x < b)) :
    (windowRange vals a b).1 = (windowRange vals a b).2 := by
  apply windowRange_empty_of_no_sample vals a b hs
  intro p hp
  rw [ha, hb, ofRat_le_ofRat, ofRat_lt_ofRat]
  exact h p hp

theorem updateAxisYLoop_single (live : Bool) (sigUnit : Nat → String) (a b : ℚ) (s : SigItem)
    (acc : Double × Double × String) (hv : s.visible = true) :
    updateAxisYLoop live sigUnit a b [s] acc =
      ([updateAxisYItem live a b s],
        (stdMin acc.1 (updateAxisYItem live a b s).min,
          stdMax acc.2.1 (updateAxisYItem live a b s).max,
          if acc.2.2 ≠ sigUnit s.sig then "" else acc.2.2)) := by
  simp [updateAxisYLoop, hv]

theorem listMin_scenario : listMin [3, 2] = Double.ofRat 2 := by
  simp only [listMin, List.foldr_cons, List.foldr_nil]
  rw [min_eq_left (le_posInf _), min_eq_right ((ofRat_le_ofRat _ _).mpr (by norm_num))]

theorem listMax_scenario : listMax [3, 2] = Double.ofRat 3 := by
  simp only [listMax, List.foldr_cons, List.foldr_nil]
  rw [max_eq_left (negInf_le _), max_eq_left ((ofRat_le_ofRat _ _).mpr (by norm_num))]

theorem scenario_vals (live : Bool) :
    (updateSeriesItem live 1 firstByte scenarioEvents (newItem 0 0)).vals =
      [⟨0, 1⟩, ⟨1, 3⟩, ⟨2, 2⟩, ⟨3, 5⟩] := by
  cases live <;>
    norm_num [updateSeriesItem, upper_bound, upper_bound_loop, eventLess, scenarioEvents, newItem,
      appendEvent, eventSeconds, firstByte]

theorem scenario_visible (live : Bool) :
    (updateSeriesItem live 1 firstByte scenarioEvents (newItem 0 0)).visible = true :=
  (updateSeriesItem_frame live 1 firstByte scenarioEvents (newItem 0 0)).2.2.1

theorem scenario_window : windowRange [⟨0, 1⟩, ⟨1, 3⟩, ⟨2, 2⟩, ⟨3, 5⟩] 1 3 = (1, 3) :=
  windowRange_fourSamples

theorem scenario_item_extent (live : Bool) :
    (updateAxisYItem live 1 3
      (updateSeriesItem live 1 firstByte scenarioEvents (newItem 0 0))).min = Double.ofRat 2 ∧
    (updateAxisYItem live 1 3
      (updateSeriesItem live 1 firstByte scenarioEvents (newItem 0 0))).max = Double.ofRat 3 := by
  have hvals := scenario_vals live
  have hvis := scenario_visible live
  have hslice : (([⟨0, 1⟩, ⟨1, 3⟩, ⟨2, 2⟩, ⟨3, 5⟩] : List QPointF).take 3).drop 1 =
      [⟨1, 3⟩, ⟨2, 2⟩] := rfl
  have h2max : Double.ofRat 2 ≤ Double.ofRat DBL_MAX :=
    (ofRat_le_ofRat _ _).mpr (by norm_num [DBL_MAX])
  have hlow3 : Double.ofRat DBL_LOWEST ≤ Double.ofRat 3 :=
    (ofRat_le_ofRat _ _).mpr (by norm_num [DBL_LOWEST, DBL_MAX])
  cases live with
  | true =>
    unfold updateAxisYItem
    simp only [hvis, if_true, hvals, scenario_window, hslice, scanExtent_eq, List.map_cons,
      List.map_nil, listMin_scenario, listMax_scenario]
    exact ⟨min_eq_right h2max, max_eq_right hlow3⟩
  | false =>
    have htree := updateSeriesItem_replay_tree 1 firstByte scenarioEvents (newItem 0 0)
    unfold updateAxisYItem
    simp only [hvis, if_true, Bool.false_eq_true, if_false, hvals, scenario_window, htree,
      minmax_build, linearScanMinMax, List.map_cons, List.map_nil]
    have hslice2 : (([1, 3, 2, 5] : List ℚ).take 3).drop 1 = [3, 2] := rfl
    rw [hslice2, listMin_scenario, listMax_scenario]
    exact ⟨rfl, rfl⟩

theorem scaleAxis_scenario : scaleAxis 2 3 5 = some (3 / 2, 7 / 2, 5) := by
  have hpad : axisPadding 2 3 = 1 / 20 := by norm_num [axisPadding, abs_of_pos]
  have e1 : (2 : ℚ) - 1 / 20 = 39 / 20 := by norm_num
  have e2 : (3 : ℚ) + 1 / 20 = 61 / 20 := by norm_num
  have hf : ⌊(39 / 20 : ℚ) / (1 / 2)⌋ = 3 := by
    rw [Int.floor_eq_iff]; norm_num
  have hc : ⌈(61 / 20 : ℚ) / (1 / 2)⌉ = 7 := by
    rw [Int.ceil_eq_iff]; norm_num
  unfold scaleAxis
  rw [hpad, e1, e2]
  have h := getNiceAxisNumbers_some (39 / 20) (61 / 20) 5 (by norm_num) (by norm_num)
    (by rw [axisStep_scenario, hf]; decide) (by rw [axisStep_scenario, hc]; decide)
    (by rw [axisStep_scenario, hf, hc]; decide)
  rw [h, axisStep_scenario, hf, hc]
  norm_num

/-- C13 (`ChartView::updateAxisY` with `getNiceAxisNumbers`, the scenario of spec 8): the samples
`[(0,1),(1,3),(2,2),(3,5)]`, decoded by `updateSeries`, and the window `[1, 3)` give the raw
extent `(2, 3)` in both modes; the pad is 5% of the span, the padded extent `(1.95, 3.05)` is
snapped to the step `0.5`, and the y axis becomes `axis_min = 1.5`, `axis_max = 3.5` with
`tick_count = 5`. -/
theorem scenario_axis_range (live : Bool) :
    (updateSeriesItem live 1 firstByte scenarioEvents (newItem 0 0)).vals =
      [⟨0, 1⟩, ⟨1, 3⟩, ⟨2, 2⟩, ⟨3, 5⟩] ∧
    rawExtent live noUnit 1 3 (updateSeriesItem live 1 firstByte scenarioEvents (newItem 0 0)) [] =
      (Double.ofRat 2, Double.ofRat 3) ∧
    axisPadding 2 3 = 1 / 20 ∧
    axisStep (2 - 1 / 20) (3 + 1 / 20) 5 = 1 / 2 ∧
    scaleAxis 2 3 5 = some (3 / 2, 7 / 2, 5) ∧
    (3 / 2 : ℚ) ≤ 2 - 1 / 20 ∧ (3 : ℚ) + 1 / 20 ≤ 7 / 2 ∧
    (updateAxisY live noUnit someWidth
      (newChart [updateSeriesItem live 1 firstByte scenarioEvents (newItem 0 0)] 1 3)).map
        (fun c => (c.axis_y_min, c.axis_y_max, c.axis_y_tick_count)) =
      some (3 / 2, 7 / 2, 5) := by
  have hext := scenario_item_extent live
  have hvis := scenario_visible live
  have h2 : Double.ofRat 2 ≤ Double.ofRat DBL_MAX :=
    (ofRat_le_ofRat _ _).mpr (by norm_num [DBL_MAX])
  have h3 : Double.ofRat DBL_LOWEST ≤ Double.ofRat 3 :=
    (ofRat_le_ofRat _ _).mpr (by norm_num [DBL_LOWEST, DBL_MAX])
  have hne2 : Double.ofRat 2 ≠ Double.ofRat DBL_MAX := by
    rw [Ne, ofRat_inj]; norm_num [DBL_MAX]
  have hne3 : Double.ofRat 3 ≠ Double.ofRat DBL_LOWEST := by
    rw [Ne, ofRat_inj]; norm_num [DBL_LOWEST, DBL_MAX]
  have hraw : rawExtent live noUnit 1 3
      (updateSeriesItem live 1 firstByte scenarioEvents (newItem 0 0)) [] =
      (Double.ofRat 2, Double.ofRat 3) := by
    unfold rawExtent loopStart
    rw [updateAxisYLoop_single live noUnit 1 3 _ _ hvis]
    simp only [hext.1, hext.2, stdMin_eq_min, stdMax_eq_max, min_eq_right h2, max_eq_right h3,
      replaceSentinels, if_neg hne2, if_neg hne3]
  have hstep : axisStep (2 - 1 / 20) (3 + 1 / 20) 5 = 1 / 2 := by
    have e1 : (2 : ℚ) - 1 / 20 = 39 / 20 := by norm_num
    have e2 : (3 : ℚ) + 1 / 20 = 61 / 20 := by norm_num
    rw [e1, e2, axisStep_scenario]
  refine ⟨scenario_vals live, hraw, by norm_num [axisPadding, abs_of_pos], hstep,
    scaleAxis_scenario, by norm_num, by norm_num, ?_⟩
  unfold updateAxisY
  simp only [newChart, hraw, finite_ofRat, Option.some_bind, scaleAxis_scenario, Option.map_some',
    applyAxis]
  norm_num

/-! ## What `updateSeries` does not do -/

theorem prefix_getElem? {α : Type} (l t : List α) (i : Nat) (p : α) (h : l[i]? = some p) :
    (l ++ t)[i]? = some p := by
  have hil : i < l.length := by
    by_contra hcon
    rw [List.getElem?_eq_none (by omega)] at h
    cases h
  rw [List.getElem?_append_left hil]
  exact h

/-- C14, as stated, fails: with a retention horizon of 3 samples, a live update of the series
`threeSampleItem` (3 samples) over `fourEvents` appends the sample of the fourth event and drops
nothing; the buffer holds 4 samples and the window `[1, 3)` still selects the oldest sample, at
position 0. -/
theorem updateSeries_live_horizon_counterexample :
    threeSampleItem.vals.length = 3 ∧
    (updateSeriesItem true 0 firstByte fourEvents threeSampleItem).vals =
      [⟨1, 4⟩, ⟨2, 6⟩, ⟨2, 5⟩, ⟨3, 7⟩] ∧
    3 < (updateSeriesItem true 0 firstByte fourEvents threeSampleItem).vals.length ∧
    windowRange (updateSeriesItem true 0 firstByte fourEvents threeSampleItem).vals 1 3 =
      (0, 3) := by
  have hvals : (updateSeriesItem true 0 firstByte fourEvents threeSampleItem).vals =
      [⟨1, 4⟩, ⟨2, 6⟩, ⟨2, 5⟩, ⟨3, 7⟩] := by
    norm_num [updateSeriesItem, upper_bound, upper_bound_loop, eventLess, fourEvents,
      threeSampleItem, appendEvent, eventSeconds, firstByte]
  refine ⟨rfl, hvals, ?_, ?_⟩
  · rw [hvals]; decide
  · rw [hvals]
    norm_num [windowRange, lower_bound, lower_bound_loop, xLessThan, toFloat_one, toFloat_three,
      ofRat_lt_ofRat]

/-- C14, amended (`ChartView::updateSeries`, live mode, chart.cc:246-274): no retention horizon
is applied.  After an update the buffer holds the samples it held before plus one for every event
from the position found by the search to the end of the list, and every sample it held stays at
its position. -/
theorem updateSeries_live_keeps_every_sample (rst : ℚ) (dec : List Nat → Nat → ℚ)
    (msgs : List CanEvent) (s : SigItem) :
    (updateSeriesItem true rst dec msgs s).vals.length =
      s.vals.length +
        (msgs.length - upper_bound eventLess msgs 0 msgs.length s.last_value_mono_time) ∧
    ∀ (i : Nat) (p : QPointF), s.vals[i]? = some p →
      (updateSeriesItem true rst dec msgs s).vals[i]? = some p := by
  rw [updateSeriesItem_live_vals]
  constructor
  · simp
  · intro i p h
    exact prefix_getElem? _ _ i p h

/-- C15, as stated, fails in live mode: the series `threeSampleItem` holds the samples decoded
from `threeEvents` with `firstByte`; after the parameters change to `zeroDecoder`, a live update
over the same events leaves `vals` as it was, and its sample `(1, 4)` is the value of no event
under the current parameters. -/
theorem signalUpdated_live_counterexample :
    (updateSeriesItem true 0 firstByte threeEvents (newItem 0 0)).vals = threeSampleItem.vals ∧
    (updateSeriesItem true 0 zeroDecoder threeEvents threeSampleItem).vals =
      [⟨1, 4⟩, ⟨2, 6⟩, ⟨2, 5⟩] ∧
    ∀ e ∈ threeEvents, (⟨1, 4⟩ : QPointF) ≠ sampleOf 0 zeroDecoder threeSampleItem.sig e := by
  refine ⟨?_, ?_, ?_⟩
  · norm_num [updateSeriesItem, upper_bound, upper_bound_loop, eventLess, threeEvents,
      threeSampleItem, newItem, appendEvent, eventSeconds, firstByte]
  · norm_num [updateSeriesItem, upper_bound, upper_bound_loop, eventLess, threeEvents,
      threeSampleItem, appendEvent, eventSeconds, zeroDecoder]
  · intro e _ h
    have := congrArg QPointF.y h
    simp [sampleOf, zeroDecoder] at this

/-- C15, amended (`ChartView::updateSeries` as called by `signalUpdated`, chart.cc:139-145 and
246-274): in replay mode the buffer is cleared and decoded again, so every sample of `vals` is
the sample of an event of the list under the current decoder; in live mode the buffer is not
cleared: `vals` keeps the samples it held and gains the samples, under the current decoder, of
the events from the position found by the search. -/
theorem updateSeries_redecodes_in_replay (rst : ℚ) (dec : List Nat → Nat → ℚ)
    (msgs : List CanEvent) (s : SigItem) :
    (∀ p ∈ (updateSeriesItem false rst dec msgs s).vals,
      ∃ e ∈ msgs, p = sampleOf rst dec s.sig e) ∧
    (updateSeriesItem true rst dec msgs s).vals = s.vals ++
      (msgs.drop (upper_bound eventLess msgs 0 msgs.length s.last_value_mono_time)).map
        (sampleOf rst dec s.sig) := by
  refine ⟨?_, updateSeriesItem_live_vals rst dec msgs s⟩
  intro p hp
  rw [updateSeriesItem_replay_vals] at hp
  obtain ⟨e, he, rfl⟩ := List.mem_map.mp hp
  exact ⟨e, List.mem_of_mem_drop he, rfl⟩

/-- C16, as stated, fails: in `unorderedEvents` the event at 2 s comes after the event at 3 s;
a live update of `oneSampleItem` meets it when the last sample of the buffer is at 3 s and
appends its sample all the same, so the buffer becomes `[1 s, 3 s, 2 s]`. -/
theorem updateSeries_out_of_order_counterexample :
    ¬ sortedEvents unorderedEvents ∧ sortedX oneSampleItem.vals ∧
    (updateSeriesItem true 0 firstByte unorderedEvents oneSampleItem).vals =
      [⟨1, 4⟩, ⟨3, 6⟩, ⟨2, 5⟩] ∧
    ¬ sortedX (updateSeriesItem true 0 firstByte unorderedEvents oneSampleItem).vals := by
  have hvals : (updateSeriesItem true 0 firstByte unorderedEvents oneSampleItem).vals =
      [⟨1, 4⟩, ⟨3, 6⟩, ⟨2, 5⟩] := by
    norm_num [updateSeriesItem, upper_bound, upper_bound_loop, eventLess, unorderedEvents,
      oneSampleItem, appendEvent, eventSeconds, firstByte]
  refine ⟨by decide, by simp [sortedX, oneSampleItem], hvals, ?_⟩
  rw [hvals]
  norm_num [sortedX]

/-- C16, amended (`ChartView::updateSeries`, chart.cc:256-274): the order of the events is not
checked.  For every event list, sorted or not, the call appends one sample for every event from
the position `std::upper_bound` finds for the marker (the marker of the series in live mode, 0
after the clear in replay mode) to the end of the list, in the order of the list; no event from
that position on is left out and the result is always a buffer. -/
theorem updateSeries_appends_unchecked (live : Bool) (rst : ℚ) (dec : List Nat → Nat → ℚ)
    (msgs : List CanEvent) (s : SigItem) :
    upper_bound eventLess msgs 0 msgs.length (if live then s.last_value_mono_time else 0) ≤
      msgs.length ∧
    (updateSeriesItem live rst dec msgs s).vals =
      (if live then s.vals else []) ++
        (msgs.drop (upper_bound eventLess msgs 0 msgs.length
          (if live then s.last_value_mono_time else 0))).map (sampleOf rst dec s.sig) ∧
    (updateSeriesItem live rst dec msgs s).vals.length =
      (if live then s.vals.length else 0) +
        (msgs.length - upper_bound eventLess msgs 0 msgs.length
          (if live then s.last_value_mono_time else 0)) := by
  cases live with
  | true =>
    refine ⟨upper_bound_le eventLess msgs s.last_value_mono_time, ?_, ?_⟩
    · simpa using updateSeriesItem_live_vals rst dec msgs s
    · rw [updateSeriesItem_live_vals]; simp
  | false =>
    refine ⟨upper_bound_le eventLess msgs 0, ?_, ?_⟩
    · simpa using updateSeriesItem_replay_vals rst dec msgs s
    · rw [updateSeriesItem_replay_vals]; simp

/-! ## The position range of the window -/

/-- C27: for every buffer and every pair of axis bounds, whatever their order, the positions
`(lo, hi)` of the two lower-bound searches satisfy `0 ≤ lo ≤ hi ≤ n`, and the range they
delimit holds `hi - lo` samples. -/
theorem windowRange_well_formed (vals : List QPointF) (axis_min axis_max : ℚ) :
    0 ≤ (windowRange vals axis_min axis_max).1 ∧
    (windowRange vals axis_min axis_max).1 ≤ (windowRange vals axis_min axis_max).2 ∧
    (windowRange vals axis_min axis_max).2 ≤ vals.length ∧
    ((vals.take (windowRange vals axis_min axis_max).2).drop
      (windowRange vals axis_min axis_max).1).length =
      (windowRange vals axis_min axis_max).2 - (windowRange vals axis_min axis_max).1 := by
  have h := windowRange_bounds vals axis_min axis_max
  refine ⟨Nat.zero_le _, h.1, h.2, ?_⟩
  rw [List.length_drop, List.length_take, Nat.min_eq_left h.2]

/-! ## The form of a nice number -/

theorem niceNumberValue_unfold (x : ℚ) (ceiling : Bool) :
    niceNumberValue x ceiling =
      (if ceiling then
        if niceNumberQ x ≤ 1 then 1 else if niceNumberQ x ≤ 2 then 2
        else if niceNumberQ x ≤ 5 then 5 else 10
      else
        if niceNumberQ x < 3 / 2 then 1 else if niceNumberQ x < 3 then 2
        else if niceNumberQ x < 7 then 5 else 10) * niceNumberZ x := rfl

theorem niceNumberValue_form (x : ℚ) (ceiling : Bool) :
    ∃ (m : ℚ) (n : ℤ), (m = 1 ∨ m = 2 ∨ m = 5) ∧ niceNumberValue x ceiling = m * 10 ^ n := by
  have h10 : (10 : ℚ) * 10 ^ (Int.log 10 x) = 1 * 10 ^ (Int.log 10 x + 1) := by
    rw [zpow_add_one₀ (by norm_num)]; ring
  rw [niceNumberValue_unfold]
  unfold niceNumberZ
  cases ceiling
  · simp only [Bool.false_eq_true, if_false]
    split_ifs
    · exact ⟨1, _, Or.inl rfl, rfl⟩
    · exact ⟨2, _, Or.inr (Or.inl rfl), rfl⟩
    · exact ⟨5, _, Or.inr (Or.inr rfl), rfl⟩
    · exact ⟨1, _, Or.inl rfl, h10⟩
  · simp only [if_true]
    split_ifs
    · exact ⟨1, _, Or.inl rfl, rfl⟩
    · exact ⟨2, _, Or.inr (Or.inl rfl), rfl⟩
    · exact ⟨5, _, Or.inr (Or.inr rfl), rfl⟩
    · exact ⟨1, _, Or.inl rfl, h10⟩

/-- With exact arithmetic (rounding left out): for every `x > 0` the power of ten `z` of
`niceNumber` is `10 ^ floor(log10 x)` and satisfies `z ≤ x < 10 * z`, the quotient `q = x / z` satisfies `1 ≤ q < 10`, and `niceNumber`
returns a value of the form `1 * 10 ^ n`, `2 * 10 ^ n` or `5 * 10 ^ n` for an integer `n`, in
both rounding modes. -/
theorem niceNumber_form (x : ℚ) (ceiling : Bool) (hx : 0 < x) :
    niceNumberZ x = 10 ^ ⌊Real.logb 10 (x : ℝ)⌋ ∧
    niceNumberZ x ≤ x ∧ x < 10 * niceNumberZ x ∧
    1 ≤ niceNumberQ x ∧ niceNumberQ x < 10 ∧
    ∃ (m : ℚ) (n : ℤ), (m = 1 ∨ m = 2 ∨ m = 5) ∧ niceNumber x ceiling = some (m * 10 ^ n) := by
  have hq := quotient_bounds x hx
  refine ⟨?_, zpow_log_le x hx, ?_, hq.1, hq.2, ?_⟩
  · unfold niceNumberZ
    rw [int_log_eq_floor_logb x hx]
  · have := lt_zpow_log_succ x
    rw [zpow_add_one₀ (by norm_num)] at this
    unfold niceNumberZ
    linarith
  · obtain ⟨m, n, hm, h⟩ := niceNumberValue_form x ceiling
    exact ⟨m, n, hm, by unfold niceNumber; rw [if_pos hx, h]⟩

/-- The exact power of ten at a concrete input: `x = 70` in ceiling mode, where `z = 10` and `q = 7`. -/
theorem niceNumber_form_witness :
    (0 : ℚ) < 70 ∧
    niceNumberZ 70 = 10 ^ ⌊Real.logb 10 ((70 : ℚ) : ℝ)⌋ ∧
    niceNumberZ 70 ≤ 70 ∧ (70 : ℚ) < 10 * niceNumberZ 70 ∧
    1 ≤ niceNumberQ 70 ∧ niceNumberQ 70 < 10 ∧
    ∃ (m : ℚ) (n : ℤ), (m = 1 ∨ m = 2 ∨ m = 5) ∧ niceNumber 70 true = some (m * 10 ^ n) :=
  ⟨by norm_num, niceNumber_form 70 true (by norm_num)⟩
/-! ## The bound on the tick count -/

theorem le_niceNumberValue_ceiling (x : ℚ) (hx : 0 < x) : x ≤ niceNumberValue x true := by
  have hz : (0 : ℚ) < niceNumberZ x := zpow_pos (by norm_num) _
  have hq := quotient_bounds x hx
  have hxq : x = niceNumberQ x * niceNumberZ x := by
    unfold niceNumberQ; field_simp
  have hq2 : niceNumberQ x < 10 := hq.2
  rw [niceNumberValue_unfold]
  simp only [if_true]
  split_ifs with h1 h2 h3
  · nlinarith
  · nlinarith
  · nlinarith
  · nlinarith

theorem lt_niceNumberValue_nearest (y : ℚ) (hy : 0 < y) :
    y < 3 / 2 * niceNumberValue y false := by
  have hz : (0 : ℚ) < niceNumberZ y := zpow_pos (by norm_num) _
  have hq := quotient_bounds y hy
  have hyq : y = niceNumberQ y * niceNumberZ y := by
    unfold niceNumberQ; field_simp
  have hq2 : niceNumberQ y < 10 := hq.2
  rw [niceNumberValue_unfold]
  simp only [Bool.false_eq_true, if_false]
  split_ifs with h1 h2 h3
  · nlinarith
  · nlinarith
  · nlinarith
  · nlinarith

theorem span_lt_axisStep (min max : ℚ) (tick_count : ℤ) (hlt : min < max)
    (htc : 2 ≤ tick_count) :
    max - min < 3 / 2 * ((tick_count : ℚ) - 1) * axisStep min max tick_count := by
  have hs : 0 < max - min := by linarith
  have hn : (1 : ℚ) ≤ (tick_count : ℚ) - 1 := by
    have : (2 : ℚ) ≤ (tick_count : ℚ) := by exact_mod_cast htc
    linarith
  have hn0 : (0 : ℚ) < (tick_count : ℚ) - 1 := by linarith
  have hR := le_niceNumberValue_ceiling (max - min) hs
  have hRpos : 0 < niceNumberValue (max - min) true := niceNumberValue_pos _ _ hs
  have hy : 0 < niceNumberValue (max - min) true / ((tick_count : ℚ) - 1) := div_pos hRpos hn0
  have hstep := lt_niceNumberValue_nearest _ hy
  have hstep2 : niceNumberValue (max - min) true / ((tick_count : ℚ) - 1) <
      3 / 2 * axisStep min max tick_count := hstep
  rw [div_lt_iff₀ hn0] at hstep2
  linarith

theorem tickCount_lt (min max : ℚ) (tick_count : ℤ) (hlt : min < max) (htc : 2 ≤ tick_count) :
    (((⌈max / axisStep min max tick_count⌉ - ⌊min / axisStep min max tick_count⌋ + 1 : ℤ)) : ℚ) <
      3 / 2 * ((tick_count : ℚ) - 1) + 3 := by
  have hp := axisStep_pos min max tick_count hlt htc
  have h1 := span_lt_axisStep min max tick_count hlt htc
  have hc := Int.ceil_lt_add_one (max / axisStep min max tick_count)
  have hf := Int.sub_one_lt_floor (min / axisStep min max tick_count)
  have hd : max / axisStep min max tick_count - min / axisStep min max tick_count <
      3 / 2 * ((tick_count : ℚ) - 1) := by
    rw [← sub_div, div_lt_iff₀ hp]
    exact h1
  push_cast
  linarith

theorem toInt_eq_some (v w : ℤ) (h : toInt v = some w) : w = v := by
  unfold toInt at h
  split_ifs at h
  exact (Option.some.inj h).symm

theorem snapToStep_tick (min max step : ℚ) (r : ℚ × ℚ × ℤ)
    (h : snapToStep min max step = some r) :
    r.2.2 = ⌈max / step⌉ - ⌊min / step⌋ + 1 := by
  unfold snapToStep qFloor qCeil at h
  cases h1 : toInt ⌊min / step⌋ with
  | none => rw [h1] at h; simp at h
  | some mn =>
    cases h2 : toInt ⌈max / step⌉ with
    | none => rw [h1, h2] at h; simp at h
    | some mx =>
      rw [h1, h2] at h
      simp only [Option.some_bind] at h
      cases h3 : toInt (mx - mn) with
      | none => rw [h3] at h; simp at h
      | some d =>
        rw [h3] at h
        simp only [Option.some_bind] at h
        cases h4 : toInt (d + 1) with
        | none => rw [h4] at h; simp at h
        | some tc =>
          rw [h4] at h
          simp only [Option.some_bind] at h
          have e1 := toInt_eq_some _ _ h1
          have e2 := toInt_eq_some _ _ h2
          have e3 := toInt_eq_some _ _ h3
          have e4 := toInt_eq_some _ _ h4
          have hr : r.2.2 = tc := by rw [← Option.some.inj h]
          rw [hr, e4, e3, e2, e1]

/-- C28: for every `min < max` and desired tick count `n ≥ 2` the number of ticks
`ceil(max / step) - floor(min / step) + 1` that `getNiceAxisNumbers` computes is below
`1.5 * (n - 1) + 3`, whatever the data; every result of `getNiceAxisNumbers` carries this number
as its tick count, and a result there is whenever the two quotients and the count are in the
range of `int`. -/
theorem getNiceAxisNumbers_tick_bound (min max : ℚ) (n : ℤ) (hlt : min < max) (hn : 2 ≤ n) :
    ((⌈max / axisStep min max n⌉ - ⌊min / axisStep min max n⌋ + 1 : ℤ) : ℚ) <
      3 / 2 * ((n : ℚ) - 1) + 3 ∧
    (∀ r, getNiceAxisNumbers min max n = some r →
      r.2.2 = ⌈max / axisStep min max n⌉ - ⌊min / axisStep min max n⌋ + 1 ∧
      (r.2.2 : ℚ) < 3 / 2 * ((n : ℚ) - 1) + 3) ∧
    (INT_MIN ≤ ⌊min / axisStep min max n⌋ → ⌈max / axisStep min max n⌉ ≤ INT_MAX →
      ⌈max / axisStep min max n⌉ - ⌊min / axisStep min max n⌋ < INT_MAX →
      ∃ r, getNiceAxisNumbers min max n = some r) := by
  have hb := tickCount_lt min max n hlt hn
  refine ⟨hb, ?_, ?_⟩
  · intro r hr
    rw [getNiceAxisNumbers_eq_snap min max n hlt hn] at hr
    have ht := snapToStep_tick min max _ r hr
    exact ⟨ht, by rw [ht]; exact hb⟩
  · intro hlo hhi hd
    exact ⟨_, getNiceAxisNumbers_some min max n hlt hn hlo hhi hd⟩

/-- C28 at a concrete input: for `(0, 10)` and 5 desired ticks a result is returned and its tick
count is below `1.5 * 4 + 3 = 9`. -/
theorem getNiceAxisNumbers_tick_bound_witness :
    (0 : ℚ) < 10 ∧ (2 : ℤ) ≤ 5 ∧
    ∃ r, getNiceAxisNumbers 0 10 5 = some r ∧
      (r.2.2 : ℚ) < 3 / 2 * (((5 : ℤ) : ℚ) - 1) + 3 :=
  have hf : ⌊(0 : ℚ) / 2⌋ = 0 := by norm_num
  have hc : ⌈(10 : ℚ) / 2⌉ = 5 := by
    rw [Int.ceil_eq_iff]; norm_num
  have hlo : INT_MIN ≤ ⌊(0 : ℚ) / axisStep 0 10 5⌋ := by
    rw [axisStep_zero_ten, hf]; decide
  have hhi : ⌈(10 : ℚ) / axisStep 0 10 5⌉ ≤ INT_MAX := by
    rw [axisStep_zero_ten, hc]; decide
  have hd : ⌈(10 : ℚ) / axisStep 0 10 5⌉ - ⌊(0 : ℚ) / axisStep 0 10 5⌋ < INT_MAX := by
    rw [axisStep_zero_ten, hf, hc]; decide
  ⟨by norm_num, by norm_num,
    ((getNiceAxisNumbers_tick_bound 0 10 5 (by norm_num) (by norm_num)).2.2 hlo hhi hd).elim
      fun r hr => ⟨r, hr,
        ((getNiceAxisNumbers_tick_bound 0 10 5 (by norm_num) (by norm_num)).2.1 r hr).2⟩⟩
/-! ## What `updateAxisY` and `updateSeries` do to a chart -/

theorem updateAxisYItem_frame (live : Bool) (a b : ℚ) (s : SigItem) :
    (updateAxisYItem live a b s).msg_id = s.msg_id ∧
    (updateAxisYItem live a b s).sig = s.sig ∧
    (updateAxisYItem live a b s).visible = s.visible ∧
    (updateAxisYItem live a b s).vals = s.vals ∧
    (updateAxisYItem live a b s).step_vals = s.step_vals ∧
    (updateAxisYItem live a b s).last_value_mono_time = s.last_value_mono_time ∧
    (updateAxisYItem live a b s).segment_tree = s.segment_tree := by
  unfold updateAxisYItem
  by_cases hv : s.visible = true <;> cases live <;> simp [hv]

theorem updateAxisYItem_hidden (live : Bool) (a b : ℚ) (s : SigItem) (h : ¬ s.visible = true) :
    updateAxisYItem live a b s = s := by
  unfold updateAxisYItem
  rw [if_neg h]

theorem updateAxisYLoop_fst (live : Bool) (sigUnit : Nat → String) (a b : ℚ) :
    ∀ (sigs : List SigItem) (acc : Double × Double × String),
      (updateAxisYLoop live sigUnit a b sigs acc).1 = sigs.map (updateAxisYItem live a b) := by
  intro sigs
  induction sigs with
  | nil => intro acc; rfl
  | cons s rest ih =>
    intro acc
    unfold updateAxisYLoop
    by_cases hv : s.visible = true
    · simp only [hv, if_true, List.map_cons, ih]
    · rw [if_neg hv]
      simp only [List.map_cons, ih, updateAxisYItem_hidden live a b s hv]

theorem updateAxisYLoop_unit (live : Bool) (sigUnit : Nat → String) (a b : ℚ) :
    ∀ (sigs : List SigItem) (acc : Double × Double × String),
      (updateAxisYLoop live sigUnit a b sigs acc).2.2.2 =
        if ∀ s ∈ sigs, s.visible = true → sigUnit s.sig = acc.2.2 then acc.2.2 else "" := by
  intro sigs
  induction sigs with
  | nil => intro acc; simp [updateAxisYLoop]
  | cons s rest ih =>
    intro acc
    unfold updateAxisYLoop
    by_cases hv : s.visible = true
    · simp only [hv, if_true]
      rw [ih]
      by_cases hu : acc.2.2 = sigUnit s.sig
      · simp [hu]
      · have hu2 : ¬ sigUnit s.sig = acc.2.2 := fun h => hu h.symm
        simp only [ne_eq, hu, not_false_eq_true, if_true, List.mem_cons, forall_eq_or_imp, hv,
          hu2, false_and, if_false, forall_const]
        split_ifs <;> rfl
    · rw [if_neg hv]
      simp only []
      rw [ih]
      simp [hv]

theorem applyAxis_fields (labelWidth : String → ℚ → ℚ → ℤ → ℤ) (c : ChartView)
    (sigs : List SigItem) (unit : String) (a : ℚ × ℚ × ℤ) :
    (applyAxis labelWidth c sigs unit a).sigs = sigs ∧
    (applyAxis labelWidth c sigs unit a).axis_y_title = unit ∧
    (applyAxis labelWidth c sigs unit a).axis_x_min = c.axis_x_min ∧
    (applyAxis labelWidth c sigs unit a).axis_x_max = c.axis_x_max := by
  simp only [applyAxis]
  split_ifs <;> exact ⟨rfl, rfl, rfl, rfl⟩

theorem updateAxisY_cons (live : Bool) (sigUnit : Nat → String)
    (labelWidth : String → ℚ → ℚ → ℤ → ℤ) (c c1 : ChartView) (s0 : SigItem) (rest : List SigItem)
    (hs : c.sigs = s0 :: rest) (h : updateAxisY live sigUnit labelWidth c = some c1) :
    ∃ a, c1 = applyAxis labelWidth c
      (updateAxisYLoop live sigUnit c.axis_x_min c.axis_x_max (s0 :: rest)
        (loopStart sigUnit s0.sig)).1
      (updateAxisYLoop live sigUnit c.axis_x_min c.axis_x_max (s0 :: rest)
        (loopStart sigUnit s0.sig)).2.2.2 a := by
  unfold updateAxisY at h
  rw [hs] at h
  simp only [Option.bind_eq_some, Option.map_eq_some'] at h
  obtain ⟨_, _, _, _, a, _, ha⟩ := h
  exact ⟨a, ha.symm⟩

theorem updateAxisY_sigs (live : Bool) (sigUnit : Nat → String)
    (labelWidth : String → ℚ → ℚ → ℤ → ℤ) (c c1 : ChartView)
    (h : updateAxisY live sigUnit labelWidth c = some c1) :
    c1.sigs = c.sigs.map (updateAxisYItem live c.axis_x_min c.axis_x_max) := by
  cases hs : c.sigs with
  | nil =>
    unfold updateAxisY at h
    rw [hs] at h
    simp only [Option.some.injEq] at h
    rw [← h, hs]
    rfl
  | cons s0 rest =>
    obtain ⟨a, ha⟩ := updateAxisY_cons live sigUnit labelWidth c c1 s0 rest hs h
    rw [ha, (applyAxis_fields _ _ _ _ _).1, updateAxisYLoop_fst]

theorem updateAxisY_title_eq (live : Bool) (sigUnit : Nat → String)
    (labelWidth : String → ℚ → ℚ → ℤ → ℤ) (c c1 : ChartView) (s0 : SigItem) (rest : List SigItem)
    (hs : c.sigs = s0 :: rest) (h : updateAxisY live sigUnit labelWidth c = some c1) :
    c1.axis_y_title =
      if ∀ s ∈ c.sigs, s.visible = true → sigUnit s.sig = sigUnit s0.sig then sigUnit s0.sig
      else "" := by
  obtain ⟨a, ha⟩ := updateAxisY_cons live sigUnit labelWidth c c1 s0 rest hs h
  rw [ha, (applyAxis_fields _ _ _ _ _).2.1, updateAxisYLoop_unit, hs]
  rfl

theorem updateAxisY_empty_windows (live : Bool) (sigUnit : Nat → String)
    (labelWidth : String → ℚ → ℚ → ℤ → ℤ) (c : ChartView) (s0 : SigItem) (rest : List SigItem)
    (hs : c.sigs = s0 :: rest)
    (hempty : ∀ s ∈ c.sigs, s.visible = true →
      (windowRange s.vals c.axis_x_min c.axis_x_max).1 =
        (windowRange s.vals c.axis_x_min c.axis_x_max).2) :
    updateAxisY live sigUnit labelWidth c =
      (getNiceAxisNumbers (-1) 1 c.axis_y_tick_count).map
        (applyAxis labelWidth c
          (updateAxisYLoop live sigUnit c.axis_x_min c.axis_x_max (s0 :: rest)
            (loopStart sigUnit s0.sig)).1
          (updateAxisYLoop live sigUnit c.axis_x_min c.axis_x_max (s0 :: rest)
            (loopStart sigUnit s0.sig)).2.2.2) := by
  rw [hs] at hempty
  have hloop := updateAxisYLoop_no_data live sigUnit c.axis_x_min c.axis_x_max (s0 :: rest)
    (sigUnit s0.sig) hempty
  have hraw : rawExtent live sigUnit c.axis_x_min c.axis_x_max s0 rest =
      (Double.ofRat 0, Double.ofRat 0) := by
    unfold rawExtent loopStart
    simp only [hloop.1, hloop.2, replaceSentinels_sentinels]
  have hscale : scaleAxis 0 0 c.axis_y_tick_count =
      getNiceAxisNumbers (-1) 1 c.axis_y_tick_count := by
    unfold scaleAxis
    rw [axisPadding_self]
    norm_num
  unfold updateAxisY
  rw [hs]
  simp only [hraw, finite_ofRat, Option.some_bind, hscale]

/-- The series `updateSeries` leaves for the series `s`: updated from the events of its message
when `sig` is null or is its signal, else `s` itself. -/
theorem updateSeriesLoop_eq (live : Bool) (rst : ℚ) (dec : List Nat → Nat → ℚ)
    (events : Nat → Option (List CanEvent)) (sig : Option Nat) :
    ∀ (sigs r : List SigItem), updateSeriesLoop live rst dec events sig sigs = some r →
      List.Forall₂ (fun s s1 =>
        ((sig = none ∨ sig = some s.sig) →
          ∃ msgs, events s.msg_id = some msgs ∧ s1 = updateSeriesItem live rst dec msgs s) ∧
        (¬ (sig = none ∨ sig = some s.sig) → s1 = s)) sigs r := by
  intro sigs
  induction sigs with
  | nil =>
    intro r h
    simp only [updateSeriesLoop, Option.some.injEq] at h
    rw [← h]
    exact List.Forall₂.nil
  | cons s rest ih =>
    intro r h
    unfold updateSeriesLoop at h
    by_cases hc : sig = none ∨ sig = some s.sig
    · rw [if_pos hc] at h
      simp only [Option.bind_eq_some, Option.map_eq_some'] at h
      obtain ⟨msgs, hm, r1, hr1, hr⟩ := h
      rw [← hr]
      exact List.Forall₂.cons ⟨fun _ => ⟨msgs, hm, rfl⟩, fun hn => absurd hc hn⟩ (ih r1 hr1)
    · rw [if_neg hc] at h
      simp only [Option.map_eq_some'] at h
      obtain ⟨r1, hr1, hr⟩ := h
      rw [← hr]
      exact List.Forall₂.cons ⟨fun hp => absurd hp hc, fun _ => rfl⟩ (ih r1 hr1)

theorem updateSeriesLoop_some (live : Bool) (rst : ℚ) (dec : List Nat → Nat → ℚ)
    (events : Nat → Option (List CanEvent)) (sig : Option Nat) :
    ∀ (sigs : List SigItem),
      (∀ s ∈ sigs, (sig = none ∨ sig = some s.sig) → (events s.msg_id).isSome = true) →
      updateSeriesLoop live rst dec events sig sigs =
        some (sigs.map fun s =>
          if sig = none ∨ sig = some s.sig then
            updateSeriesItem live rst dec ((events s.msg_id).getD []) s
          else s) := by
  intro sigs
  induction sigs with
  | nil => intro _; rfl
  | cons s rest ih =>
    intro h
    have hrest := ih (fun t ht => h t (List.mem_cons_of_mem _ ht))
    unfold updateSeriesLoop
    by_cases hc : sig = none ∨ sig = some s.sig
    · have hs := h s (List.mem_cons_self _ _) hc
      obtain ⟨msgs, hm⟩ := Option.isSome_iff_exists.mp hs
      rw [if_pos hc, hm, hrest]
      simp only [Option.some_bind, Option.map_some', List.map_cons, if_pos hc, hm,
        Option.getD_some]
    · rw [if_neg hc, hrest]
      simp only [Option.map_some', List.map_cons, if_neg hc]
theorem updateSeriesItem_live_tree (rst : ℚ) (dec : List Nat → Nat → ℚ) (msgs : List CanEvent)
    (s : SigItem) : (updateSeriesItem true rst dec msgs s).segment_tree = s.segment_tree := by
  unfold updateSeriesItem
  simp only [if_true]
  exact (foldl_appendEvent_frame rst dec _ s).2.2.2.1

theorem updateSeries_sigs (live : Bool) (rst : ℚ) (dec : List Nat → Nat → ℚ)
    (events : Nat → Option (List CanEvent)) (sigUnit : Nat → String)
    (labelWidth : String → ℚ → ℚ → ℤ → ℤ) (sig : Option Nat) (c c1 : ChartView)
    (h : updateSeries live rst dec events sigUnit labelWidth sig c = some c1) :
    List.Forall₂ (fun s s1 =>
      (updatesItem sig s → ∃ msgs, events s.msg_id = some msgs ∧
        s1 = updateAxisYItem live c.axis_x_min c.axis_x_max
          (updateSeriesItem live rst dec msgs s)) ∧
      (¬ updatesItem sig s → s1 = updateAxisYItem live c.axis_x_min c.axis_x_max s))
      c.sigs c1.sigs := by
  unfold updateSeries at h
  simp only [Option.bind_eq_some] at h
  obtain ⟨r, hr, h2⟩ := h
  have hl := updateSeriesLoop_eq live rst dec events sig c.sigs r hr
  have hs := updateAxisY_sigs live sigUnit labelWidth _ c1 h2
  simp only [] at hs
  rw [hs, List.forall₂_map_right_iff]
  refine List.Forall₂.imp ?_ hl
  intro s s1 hss
  constructor
  · intro hc
    obtain ⟨msgs, hm, he⟩ := hss.1 hc
    exact ⟨msgs, hm, by rw [he]⟩
  · intro hc
    rw [hss.2 hc]

theorem updateAxisYItem_live_sameButTree (a b : ℚ) (s s1 : SigItem) (h : sameButTree s s1) :
    sameButTree (updateAxisYItem true a b s) (updateAxisYItem true a b s1) ∧
    (updateAxisYItem true a b s1).min = (updateAxisYItem true a b s).min ∧
    (updateAxisYItem true a b s1).max = (updateAxisYItem true a b s).max ∧
    s1.visible = s.visible ∧ s1.sig = s.sig := by
  unfold sameButTree at h
  rw [h]
  unfold sameButTree updateAxisYItem
  by_cases hv : s.visible = true <;> simp [hv]

theorem updateAxisYLoop_live_sameButTree (sigUnit : Nat → String) (a b : ℚ) :
    ∀ (sigs sigs1 : List SigItem), List.Forall₂ sameButTree sigs sigs1 →
      ∀ acc : Double × Double × String,
        (updateAxisYLoop true sigUnit a b sigs1 acc).2 =
          (updateAxisYLoop true sigUnit a b sigs acc).2 ∧
        List.Forall₂ sameButTree (updateAxisYLoop true sigUnit a b sigs acc).1
          (updateAxisYLoop true sigUnit a b sigs1 acc).1 := by
  intro sigs sigs1 h
  induction h with
  | nil => intro acc; exact ⟨rfl, List.Forall₂.nil⟩
  | @cons s s1 l l1 hab _ ih =>
    intro acc
    have hi := updateAxisYItem_live_sameButTree a b s s1 hab
    by_cases hv : s.visible = true
    · have hv1 : s1.visible = true := by rw [hi.2.2.2.1, hv]
      have e1 : updateAxisYLoop true sigUnit a b (s :: l) acc =
          (updateAxisYItem true a b s ::
            (updateAxisYLoop true sigUnit a b l
              (stdMin acc.1 (updateAxisYItem true a b s).min,
                stdMax acc.2.1 (updateAxisYItem true a b s).max,
                if acc.2.2 ≠ sigUnit s.sig then "" else acc.2.2)).1,
            (updateAxisYLoop true sigUnit a b l
              (stdMin acc.1 (updateAxisYItem true a b s).min,
                stdMax acc.2.1 (updateAxisYItem true a b s).max,
                if acc.2.2 ≠ sigUnit s.sig then "" else acc.2.2)).2) := by
        rw [updateAxisYLoop, if_pos hv]
      have e2 : updateAxisYLoop true sigUnit a b (s1 :: l1) acc =
          (updateAxisYItem true a b s1 ::
            (updateAxisYLoop true sigUnit a b l1
              (stdMin acc.1 (updateAxisYItem true a b s).min,
                stdMax acc.2.1 (updateAxisYItem true a b s).max,
                if acc.2.2 ≠ sigUnit s.sig then "" else acc.2.2)).1,
            (updateAxisYLoop true sigUnit a b l1
              (stdMin acc.1 (updateAxisYItem true a b s).min,
                stdMax acc.2.1 (updateAxisYItem true a b s).max,
                if acc.2.2 ≠ sigUnit s.sig then "" else acc.2.2)).2) := by
        rw [updateAxisYLoop, if_pos hv1]
        simp only [hi.2.1, hi.2.2.1, hi.2.2.2.2]
      rw [e1, e2]
      exact ⟨(ih _).1, List.Forall₂.cons hi.1 (ih _).2⟩
    · have hv1 : ¬ s1.visible = true := by rw [hi.2.2.2.1]; exact hv
      have e1 : updateAxisYLoop true sigUnit a b (s :: l) acc =
          (s :: (updateAxisYLoop true sigUnit a b l acc).1,
            (updateAxisYLoop true sigUnit a b l acc).2) := by
        rw [updateAxisYLoop, if_neg hv]
      have e2 : updateAxisYLoop true sigUnit a b (s1 :: l1) acc =
          (s1 :: (updateAxisYLoop true sigUnit a b l1 acc).1,
            (updateAxisYLoop true sigUnit a b l1 acc).2) := by
        rw [updateAxisYLoop, if_neg hv1]
      rw [e1, e2]
      exact ⟨(ih _).1, List.Forall₂.cons hab (ih _).2⟩

/-! ### A concrete chart -/

theorem exampleSeries_vals :
    (updateSeriesItem true 0 firstByte threeEvents (newItem 0 0)).vals =
      [⟨1, 4⟩, ⟨2, 6⟩, ⟨2, 5⟩] := by
  norm_num [updateSeriesItem, upper_bound, upper_bound_loop, eventLess, threeEvents, newItem,
    appendEvent, eventSeconds, firstByte]

theorem exampleChart_loop :
    updateSeriesLoop true 0 firstByte sameEvents (some 0) [newItem 0 0, newItem 1 1] =
      some [updateSeriesItem true 0 firstByte threeEvents (newItem 0 0), newItem 1 1] := by
  rw [updateSeriesLoop_some]
  · simp [sameEvents, newItem]
  · intro s _ _
    rfl

theorem toFloat_zero : toFloat 0 = Double.ofRat 0 := by
  simp [toFloat]

theorem exampleChart_updates :
    ∃ c1, updateSeries true 0 firstByte sameEvents noUnit someWidth (some 0)
      (newChart [newItem 0 0, newItem 1 1] 0 1) = some c1 := by
  unfold updateSeries
  have hl : updateSeriesLoop true 0 firstByte sameEvents (some 0)
      (newChart [newItem 0 0, newItem 1 1] 0 1).sigs =
      some [updateSeriesItem true 0 firstByte threeEvents (newItem 0 0), newItem 1 1] :=
    exampleChart_loop
  rw [hl]
  simp only [Option.some_bind]
  rw [updateAxisY_empty_windows true noUnit someWidth _ _ _ rfl]
  · have ht : ({ newChart [newItem 0 0, newItem 1 1] 0 1 with
        sigs := [updateSeriesItem true 0 firstByte threeEvents (newItem 0 0), newItem 1 1] } :
        ChartView).axis_y_tick_count = 5 := rfl
    rw [ht, getNiceAxisNumbers_centred]
    exact ⟨_, rfl⟩
  · intro s hs _
    simp only [List.mem_cons, List.mem_singleton, List.not_mem_nil, or_false] at hs
    rcases hs with h | h
    · rw [h, exampleSeries_vals]
      apply windowRange_empty_of_no_sample_exact _ _ _ _ toFloat_zero toFloat_one
      · intro p hp
        simp only [List.mem_cons, List.mem_singleton, List.not_mem_nil, or_false] at hp
        rcases hp with h | h | h <;> rw [h] <;> norm_num
      · norm_num [sortedX]
    · rw [h]
      rfl
/-! ## The range index in live mode -/

theorem forall₂_tree_map :
    ∀ (l l1 : List SigItem),
      List.Forall₂ (fun s s1 => s1.segment_tree = s.segment_tree) l l1 →
      l1.map (fun s => s.segment_tree) = l.map (fun s => s.segment_tree) := by
  intro l l1 h
  induction h with
  | nil => rfl
  | cons hab _ ih => simp only [List.map_cons, hab, ih]

/-- C24: in live mode `updateSeries` leaves the range index of every series as it was, whether
the series is updated or not; one series update does not touch it; and the loop of `updateAxisY`
computes the same extents, global and per series, whatever the range indexes of the series
hold. -/
theorem updateSeries_live_no_index (rst : ℚ) (dec : List Nat → Nat → ℚ)
    (events : Nat → Option (List CanEvent)) (sigUnit : Nat → String)
    (labelWidth : String → ℚ → ℚ → ℤ → ℤ) (sig : Option Nat) (c c1 : ChartView)
    (h : updateSeries true rst dec events sigUnit labelWidth sig c = some c1) :
    c1.sigs.map (fun s => s.segment_tree) = c.sigs.map (fun s => s.segment_tree) ∧
    (∀ msgs s, (updateSeriesItem true rst dec msgs s).segment_tree = s.segment_tree) ∧
    (∀ (a b : ℚ) (sigs sigs1 : List SigItem) (acc : Double × Double × String),
      List.Forall₂ sameButTree sigs sigs1 →
      (updateAxisYLoop true sigUnit a b sigs1 acc).2 =
        (updateAxisYLoop true sigUnit a b sigs acc).2 ∧
      List.Forall₂ sameButTree (updateAxisYLoop true sigUnit a b sigs acc).1
        (updateAxisYLoop true sigUnit a b sigs1 acc).1) := by
  refine ⟨?_, fun msgs s => updateSeriesItem_live_tree rst dec msgs s,
    fun a b sigs sigs1 acc hf => updateAxisYLoop_live_sameButTree sigUnit a b sigs sigs1 hf acc⟩
  apply forall₂_tree_map
  refine List.Forall₂.imp ?_ (updateSeries_sigs true rst dec events sigUnit labelWidth sig c c1 h)
  intro s s1 hss
  by_cases hc : updatesItem sig s
  · obtain ⟨msgs, _, he⟩ := hss.1 hc
    rw [he, (updateAxisYItem_frame _ _ _ _).2.2.2.2.2.2, updateSeriesItem_live_tree]
  · rw [hss.2 hc, (updateAxisYItem_frame _ _ _ _).2.2.2.2.2.2]

/-- C24 at a concrete input: the live update for signal 0 of a chart with two series, over
`threeEvents`, returns a chart whose range indexes are the ones it had. -/
theorem updateSeries_live_no_index_witness :
    ∃ c1, updateSeries true 0 firstByte sameEvents noUnit someWidth (some 0)
        (newChart [newItem 0 0, newItem 1 1] 0 1) = some c1 ∧
      c1.sigs.map (fun s => s.segment_tree) =
        (newChart [newItem 0 0, newItem 1 1] 0 1).sigs.map (fun s => s.segment_tree) :=
  exampleChart_updates.elim fun c1 h =>
    ⟨c1, h, (updateSeries_live_no_index 0 firstByte sameEvents noUnit someWidth (some 0)
      (newChart [newItem 0 0, newItem 1 1] 0 1) c1 h).1⟩

/-! ## The series `updateSeries` changes -/

/-- C29: after `updateSeries(sig)` the chart has the same series in the same order; a series
that is not updated (a non-null `sig` that is not its signal) has the `vals`, `step_vals`,
`last_value_mono_time` and `segment_tree` it had; a series that is updated has the ones its
update from the events of its message gives.  With a non-null `sig` the series updated are the
ones of that signal, with a null `sig` every series. -/
theorem updateSeries_frame (live : Bool) (rst : ℚ) (dec : List Nat → Nat → ℚ)
    (events : Nat → Option (List CanEvent)) (sigUnit : Nat → String)
    (labelWidth : String → ℚ → ℚ → ℤ → ℤ) (sig : Option Nat) (c c1 : ChartView)
    (h : updateSeries live rst dec events sigUnit labelWidth sig c = some c1) :
    List.Forall₂ (fun s s1 =>
      (¬ updatesItem sig s →
        s1.vals = s.vals ∧ s1.step_vals = s.step_vals ∧
        s1.last_value_mono_time = s.last_value_mono_time ∧
        s1.segment_tree = s.segment_tree) ∧
      (updatesItem sig s → ∃ msgs, events s.msg_id = some msgs ∧
        s1.vals = (updateSeriesItem live rst dec msgs s).vals ∧
        s1.step_vals = (updateSeriesItem live rst dec msgs s).step_vals ∧
        s1.last_value_mono_time = (updateSeriesItem live rst dec msgs s).last_value_mono_time ∧
        s1.segment_tree = (updateSeriesItem live rst dec msgs s).segment_tree))
      c.sigs c1.sigs ∧
    (∀ g, sig = some g → ∀ s : SigItem, updatesItem sig s ↔ s.sig = g) ∧
    (sig = none → ∀ s : SigItem, updatesItem sig s) := by
  refine ⟨?_, ?_, ?_⟩
  · refine List.Forall₂.imp ?_
      (updateSeries_sigs live rst dec events sigUnit labelWidth sig c c1 h)
    intro s s1 hss
    constructor
    · intro hc
      have hf := updateAxisYItem_frame live c.axis_x_min c.axis_x_max s
      rw [hss.2 hc]
      exact ⟨hf.2.2.2.1, hf.2.2.2.2.1, hf.2.2.2.2.2.1, hf.2.2.2.2.2.2⟩
    · intro hc
      obtain ⟨msgs, hm, he⟩ := hss.1 hc
      have hf := updateAxisYItem_frame live c.axis_x_min c.axis_x_max
        (updateSeriesItem live rst dec msgs s)
      rw [he]
      exact ⟨msgs, hm, hf.2.2.2.1, hf.2.2.2.2.1, hf.2.2.2.2.2.1, hf.2.2.2.2.2.2⟩
  · intro g hg s
    unfold updatesItem
    rw [hg]
    simp only [reduceCtorEq, false_or, Option.some.injEq]
    exact eq_comm
  · intro hn s
    exact Or.inl hn

/-- C29 at a concrete input: the update for signal 0 of a chart with a series of signal 0 and a
series of signal 1. -/
theorem updateSeries_frame_witness :
    ∃ c1, updateSeries true 0 firstByte sameEvents noUnit someWidth (some 0)
        (newChart [newItem 0 0, newItem 1 1] 0 1) = some c1 ∧
      List.Forall₂ (fun s s1 =>
        (¬ updatesItem (some 0) s →
          s1.vals = s.vals ∧ s1.step_vals = s.step_vals ∧
          s1.last_value_mono_time = s.last_value_mono_time ∧
          s1.segment_tree = s.segment_tree) ∧
        (updatesItem (some 0) s → ∃ msgs, sameEvents s.msg_id = some msgs ∧
          s1.vals = (updateSeriesItem true 0 firstByte msgs s).vals ∧
          s1.step_vals = (updateSeriesItem true 0 firstByte msgs s).step_vals ∧
          s1.last_value_mono_time =
            (updateSeriesItem true 0 firstByte msgs s).last_value_mono_time ∧
          s1.segment_tree = (updateSeriesItem true 0 firstByte msgs s).segment_tree))
        (newChart [newItem 0 0, newItem 1 1] 0 1).sigs c1.sigs :=
  exampleChart_updates.elim fun c1 h =>
    ⟨c1, h, (updateSeries_frame true 0 firstByte sameEvents noUnit someWidth (some 0)
      (newChart [newItem 0 0, newItem 1 1] 0 1) c1 h).1⟩

/-! ## The title of the y axis -/

/-- C23, the failing input (`ChartView::updateAxisY`, chart.cc:291-299, against the comment at
chart.cc:296, "Only show unit when all signals have the same unit"): a chart whose first series
is of signal 0, unit `m`, and visible, and whose second series is of signal 1, unit `s`, and
hidden, gets the title `m`, although its signals do not have the same unit: the hidden series
is skipped before the units are compared. -/
theorem updateAxisY_title_ignores_hidden_series :
    twoUnits (newItem 0 0).sig ≠ twoUnits (hiddenItem 1 1).sig ∧
    (updateAxisY true twoUnits someWidth (newChart [newItem 0 0, hiddenItem 1 1] 0 1)).map
      (fun c => c.axis_y_title) = some "m" := by
  constructor
  · decide
  · have hempty : ∀ s ∈ (newChart [newItem 0 0, hiddenItem 1 1] 0 1).sigs, s.visible = true →
        (windowRange s.vals (newChart [newItem 0 0, hiddenItem 1 1] 0 1).axis_x_min
          (newChart [newItem 0 0, hiddenItem 1 1] 0 1).axis_x_max).1 =
        (windowRange s.vals (newChart [newItem 0 0, hiddenItem 1 1] 0 1).axis_x_min
          (newChart [newItem 0 0, hiddenItem 1 1] 0 1).axis_x_max).2 := by
      intro s hs _
      have hs2 : s = newItem 0 0 ∨ s = hiddenItem 1 1 := by simpa [newChart] using hs
      rcases hs2 with h | h <;> rw [h] <;> rfl
    rw [updateAxisY_empty_windows true twoUnits someWidth _ (newItem 0 0) [hiddenItem 1 1] rfl
      hempty]
    have ht : (newChart [newItem 0 0, hiddenItem 1 1] 0 1).axis_y_tick_count = 5 := rfl
    rw [ht, getNiceAxisNumbers_centred]
    simp only [Option.map_some', (applyAxis_fields _ _ _ _ _).2.1]
    rw [updateAxisYLoop_unit]
    decide

/-- What the code sets: after `updateAxisY` on a chart with at least one series, the title of
the y axis is the unit of the first series when every visible series has that unit, and is empty
otherwise; in particular it is the common unit when all signals of the chart have the same
unit. -/
theorem updateAxisY_title (live : Bool) (sigUnit : Nat → String)
    (labelWidth : String → ℚ → ℚ → ℤ → ℤ) (c c1 : ChartView) (s0 : SigItem) (rest : List SigItem)
    (hs : c.sigs = s0 :: rest) (h : updateAxisY live sigUnit labelWidth c = some c1) :
    c1.axis_y_title =
      (if ∀ s ∈ c.sigs, s.visible = true → sigUnit s.sig = sigUnit s0.sig then sigUnit s0.sig
       else "") ∧
    (∀ U, (∀ s ∈ c.sigs, sigUnit s.sig = U) → c1.axis_y_title = U) := by
  have ht := updateAxisY_title_eq live sigUnit labelWidth c c1 s0 rest hs h
  refine ⟨ht, ?_⟩
  intro U hU
  have h0 : sigUnit s0.sig = U := hU s0 (by rw [hs]; exact List.mem_cons_self _ _)
  rw [ht, if_pos (fun s hm _ => by rw [hU s hm, h0]), h0]

theorem exampleUnits_updates :
    ∃ c1, updateAxisY true twoUnits someWidth (newChart [newItem 1 1, newItem 2 2] 0 1) =
      some c1 := by
  have hempty : ∀ s ∈ (newChart [newItem 1 1, newItem 2 2] 0 1).sigs, s.visible = true →
      (windowRange s.vals (newChart [newItem 1 1, newItem 2 2] 0 1).axis_x_min
        (newChart [newItem 1 1, newItem 2 2] 0 1).axis_x_max).1 =
      (windowRange s.vals (newChart [newItem 1 1, newItem 2 2] 0 1).axis_x_min
        (newChart [newItem 1 1, newItem 2 2] 0 1).axis_x_max).2 := by
    intro s hs _
    have hs2 : s = newItem 1 1 ∨ s = newItem 2 2 := by simpa [newChart] using hs
    rcases hs2 with h | h <;> rw [h] <;> rfl
  rw [updateAxisY_empty_windows true twoUnits someWidth _ (newItem 1 1) [newItem 2 2] rfl hempty]
  have ht : (newChart [newItem 1 1, newItem 2 2] 0 1).axis_y_tick_count = 5 := rfl
  rw [ht, getNiceAxisNumbers_centred]
  exact ⟨_, rfl⟩

/-- The title at a concrete input: a chart with two visible series of the signals 1 and
2, both of unit `s`, gets the title `s`. -/
theorem updateAxisY_title_witness :
    ∃ c1, updateAxisY true twoUnits someWidth (newChart [newItem 1 1, newItem 2 2] 0 1) =
        some c1 ∧
      c1.axis_y_title = "s" :=
  exampleUnits_updates.elim fun c1 h =>
    ⟨c1, h, (updateAxisY_title true twoUnits someWidth (newChart [newItem 1 1, newItem 2 2] 0 1)
      c1 (newItem 1 1) [newItem 2 2] rfl h).2 "s" (by
        intro s hs
        have hs2 : s = newItem 1 1 ∨ s = newItem 2 2 := by simpa [newChart] using hs
        rcases hs2 with h | h <;> rw [h] <;> rfl)⟩
/-! ## The tooltip -/

theorem showTipSearch_le (vals : List QPointF) (sec : ℚ) :
    showTipSearch vals sec ≤ vals.length := by
  unfold showTipSearch lower_bound
  have := (lower_bound_loop_bounds xGreaterThan vals.reverse sec (vals.reverse.length - 0) 0
    (vals.reverse.length - 0)).2
  rw [List.length_reverse] at this ⊢
  omega

theorem showTipSearch_partition (vals : List QPointF) (sec : ℚ) (hs : sortedX vals) :
    (∀ i p, i < showTipSearch vals sec → vals.reverse[i]? = some p → sec < p.x) ∧
    (∀ i p, showTipSearch vals sec ≤ i → vals.reverse[i]? = some p → p.x ≤ sec) := by
  have hr : vals.reverse.Pairwise (fun p q => q.x ≤ p.x) := List.pairwise_reverse.mpr hs
  have hpart := lower_bound_loop_partition xGreaterThan vals.reverse sec
    (vals.reverse.length - 0) 0 (vals.reverse.length - 0) (le_refl _) (by omega)
    (by
      intro i j p q _ hij hj hp hq hc
      have hjl : j < vals.reverse.length := by omega
      have hil : i < vals.reverse.length := by omega
      have hle := (List.pairwise_iff_getElem.mp hr) i j hil hjl hij
      rw [List.getElem?_eq_getElem hil] at hp
      rw [List.getElem?_eq_getElem hjl] at hq
      cases hp
      cases hq
      simp only [xGreaterThan, decide_eq_true_eq] at hc ⊢
      exact lt_of_lt_of_le hc hle)
  constructor
  · intro i p hi hp
    have := hpart.1 i p (Nat.zero_le _) hi hp
    simpa [xGreaterThan] using this
  · intro i p hi hp
    have hil : i < vals.reverse.length := by
      by_contra hcon
      rw [List.getElem?_eq_none (by omega)] at hp
      cases hp
    have := hpart.2 i p hi (by omega) hp
    simpa [xGreaterThan] using this

theorem showTipSearch_lastAtMost (vals : List QPointF) (sec : ℚ) (hs : sortedX vals) :
    vals.reverse[showTipSearch vals sec]? = lastAtMost vals sec := by
  have hp := showTipSearch_partition vals sec hs
  have hk : showTipSearch vals sec ≤ vals.reverse.length := by
    rw [List.length_reverse]; exact showTipSearch_le vals sec
  have hd := drop_eq_filter_of_boundary (fun p : QPointF => decide (p.x ≤ sec)) vals.reverse
    (showTipSearch vals sec) hk
    (by
      intro i p hi hpi
      have := hp.1 i p hi hpi
      simp only [decide_eq_false_iff_not, not_le]
      exact this)
    (by
      intro i p hi hpi
      have := hp.2 i p hi hpi
      simp only [decide_eq_true_eq]
      exact this)
  unfold lastAtMost
  rw [← List.head?_drop, hd, List.filter_reverse, List.head?_reverse]

/-- C22: for a buffer with non-decreasing timestamps and a time `sec`, the samples with a
timestamp at most `sec` are the ones before the position the reverse search of `showTip` stops
at, counted from the end, so that the sample it selects is the last one (largest index) with a
timestamp at most `sec`; the series shows the value of that sample and tracks it when there is
one and its timestamp is at least the minimum of the x axis, and shows `"--"`, with the tracked
point left alone, otherwise. -/
theorem showTip_selects_last_at_most (vals : List QPointF) (track_pt : QPointF)
    (sec axis_min : ℚ) (hs : sortedX vals) :
    (∀ i p, vals[i]? = some p → (p.x ≤ sec ↔ i + showTipSearch vals sec < vals.length)) ∧
    vals.reverse[showTipSearch vals sec]? = lastAtMost vals sec ∧
    showTipItem vals track_pt sec axis_min =
      (match lastAtMost vals sec with
       | some p => if axis_min ≤ p.x then (some p.y, p) else (none, track_pt)
       | none => (none, track_pt)) := by
  have hsel := showTipSearch_lastAtMost vals sec hs
  refine ⟨?_, hsel, ?_⟩
  · intro i p hp
    have hil : i < vals.length := by
      by_contra hcon
      rw [List.getElem?_eq_none (by omega)] at hp
      cases hp
    have hpart := showTipSearch_partition vals sec hs
    have hrev : vals.reverse[vals.length - 1 - i]? = some p := by
      rw [List.getElem?_reverse (by omega)]
      have : vals.length - 1 - (vals.length - 1 - i) = i := by omega
      rw [this, hp]
    constructor
    · intro hle
      by_contra hcon
      have := hpart.1 (vals.length - 1 - i) p (by omega) hrev
      exact absurd hle (not_le.mpr this)
    · intro hlt
      exact hpart.2 (vals.length - 1 - i) p (by omega) hrev
  · unfold showTipItem showTipSample
    rw [hsel]
    cases lastAtMost vals sec with
    | none => rfl
    | some p =>
      simp only []
      split_ifs <;> rfl

/-- C22 at a concrete input: in the buffer with the timestamps 1, 2, 2 the time 2.5 selects the
last sample, `(2, 5)`. -/
theorem showTip_selects_last_at_most_witness :
    sortedX threeSampleItem.vals ∧
    lastAtMost threeSampleItem.vals (5 / 2) = some ⟨2, 5⟩ ∧
    showTipItem threeSampleItem.vals ⟨0, 0⟩ (5 / 2) 0 = (some 5, ⟨2, 5⟩) :=
  have hl : lastAtMost threeSampleItem.vals (5 / 2) = some ⟨2, 5⟩ := by
    norm_num [lastAtMost, threeSampleItem, List.filter]
  have hsorted : sortedX threeSampleItem.vals := by
    norm_num [sortedX, threeSampleItem]
  ⟨hsorted, hl,
    (showTip_selects_last_at_most threeSampleItem.vals ⟨0, 0⟩ (5 / 2) 0 hsorted).2.2.trans
      (by rw [hl]; norm_num)⟩
/-! ## Completeness of decoding -/

theorem updateSeriesItem_replay_complete (rst : ℚ) (dec : List Nat → Nat → ℚ)
    (msgs : List CanEvent) (s : SigItem) (hs : sortedEvents msgs)
    (hpos : ∀ e ∈ msgs, 0 < e.mono_time) :
    (updateSeriesItem false rst dec msgs s).vals = msgs.map (sampleOf rst dec s.sig) := by
  rw [updateSeriesItem_replay_vals, upper_bound_events msgs 0 hs]
  have : msgs.filter (fun e => decide (0 < e.mono_time)) = msgs := by
    rw [List.filter_eq_self]
    intro e he
    simpa using hpos e he
  rw [this]

theorem liveUpdates_complete (rst : ℚ) (dec : List Nat → Nat → ℚ) :
    ∀ (tails : List (List CanEvent)) (seen : List CanEvent) (s : SigItem),
      sortedEvents (seen ++ tails.flatten) →
      (∀ e ∈ seen, e.mono_time ≤ s.last_value_mono_time) →
      (∀ e ∈ tails.flatten, s.last_value_mono_time < e.mono_time) →
      strictlyLater tails →
      (liveUpdates rst dec seen tails s).vals =
        s.vals ++ tails.flatten.map (sampleOf rst dec s.sig) := by
  intro tails
  induction tails with
  | nil =>
    intro seen s _ _ _ _
    simp [liveUpdates]
  | cons t ts ih =>
    intro seen s hs hseen hnew hstrict
    have hs2 := hs
    rw [List.flatten_cons, ← List.append_assoc] at hs2
    have hst : sortedEvents (seen ++ t) := sortedEvents_append_left _ _ hs2
    have htsorted : sortedEvents t := (List.pairwise_append.mp hst).2.1
    have hdrop := upper_bound_events (seen ++ t) s.last_value_mono_time hst
    have hseen0 : seen.filter (fun e => decide (s.last_value_mono_time < e.mono_time)) = [] := by
      rw [List.filter_eq_nil_iff]
      intro e he
      have := hseen e he
      simp only [decide_eq_true_eq, not_lt]
      exact this
    have ht1 : t.filter (fun e => decide (s.last_value_mono_time < e.mono_time)) = t := by
      rw [List.filter_eq_self]
      intro e he
      have := hnew e (by rw [List.flatten_cons]; exact List.mem_append_left _ he)
      simpa using this
    rw [List.filter_append, hseen0, List.nil_append, ht1] at hdrop
    have hvals := updateSeriesItem_live_vals rst dec (seen ++ t) s
    have hmark := updateSeriesItem_live_marker rst dec (seen ++ t) s
    rw [hdrop] at hvals hmark
    have hsig := (updateSeriesItem_frame true rst dec (seen ++ t) s).2.1
    have hstrict2 := List.pairwise_cons.mp hstrict
    have hseen1 : ∀ e ∈ seen ++ t,
        e.mono_time ≤ (updateSeriesItem true rst dec (seen ++ t) s).last_value_mono_time := by
      intro e he
      rw [hmark]
      cases hl : t.getLast? with
      | none =>
        rw [List.getLast?_eq_none_iff] at hl
        rw [hl, List.append_nil] at he
        simpa using hseen e he
      | some x =>
        have hx := List.mem_of_getLast?_eq_some hl
        have hxnew := hnew x (by rw [List.flatten_cons]; exact List.mem_append_left _ hx)
        rcases List.mem_append.mp he with h | h
        · have := hseen e h
          simp only [Option.map_some', Option.getD_some]
          omega
        · simpa using sortedEvents_le_getLast t htsorted e x h hl
    have hnew1 : ∀ e ∈ ts.flatten,
        (updateSeriesItem true rst dec (seen ++ t) s).last_value_mono_time < e.mono_time := by
      intro e he
      rw [hmark]
      cases hl : t.getLast? with
      | none =>
        simpa using hnew e (by rw [List.flatten_cons]; exact List.mem_append_right _ he)
      | some x =>
        have hx := List.mem_of_getLast?_eq_some hl
        obtain ⟨b, hb, heb⟩ := List.mem_flatten.mp he
        simpa using hstrict2.1 b hb x hx e heb
    have h := ih (seen ++ t) (updateSeriesItem true rst dec (seen ++ t) s) hs2 hseen1 hnew1
      hstrict2.2
    simp only [liveUpdates]
    rw [h, hvals, hsig, List.flatten_cons, List.map_append, List.append_assoc]

/-- C25, as stated, fails in two ways.  In replay mode an event with `mono_time` 0 is not
after the reset marker 0, so `zeroTimeEvents` (sorted, two events) leaves one sample.  In live
mode an event added after a call with the `mono_time` of the marker is not after it, so the two
batches of `tiedEvents` (sorted, one event each at 1 s) leave one sample. -/
theorem updateSeries_complete_counterexample :
    (sortedEvents zeroTimeEvents ∧
      (updateSeriesItem false 0 firstByte zeroTimeEvents (newItem 0 0)).vals = [⟨1, 4⟩] ∧
      zeroTimeEvents.map (sampleOf 0 firstByte 0) = [⟨0, 9⟩, ⟨1, 4⟩]) ∧
    (sortedEvents tiedEvents.flatten ∧
      (liveUpdates 0 firstByte [] tiedEvents (newItem 0 0)).vals = [⟨1, 4⟩] ∧
      tiedEvents.flatten.map (sampleOf 0 firstByte 0) = [⟨1, 4⟩, ⟨1, 6⟩]) := by
  refine ⟨⟨by decide, ?_, ?_⟩, ⟨by decide, ?_, ?_⟩⟩
  · norm_num [updateSeriesItem, upper_bound, upper_bound_loop, eventLess, zeroTimeEvents,
      newItem, appendEvent, eventSeconds, firstByte]
  · norm_num [zeroTimeEvents, sampleOf, eventSeconds, firstByte]
  · norm_num [liveUpdates, updateSeriesItem, upper_bound, upper_bound_loop, eventLess,
      tiedEvents, newItem, appendEvent, eventSeconds, firstByte]
  · norm_num [tiedEvents, sampleOf, eventSeconds, firstByte]

/-- C25, amended: for an event list sorted by `mono_time` whose events all have a `mono_time`
above 0, `vals` after `updateSeries` in replay mode holds the sample of every event, in event
order; and after any sequence of live-mode calls from an empty buffer with the marker 0, over a
list that grows at its tail by batches of which every event is later than every event of the
batches before, `vals` holds the sample of every event, in event order.  The sample of an event
has the timestamp `mono_time / 1e9 - route_start_time` and the decoded value. -/
theorem updateSeries_decodes_every_event (rst : ℚ) (dec : List Nat → Nat → ℚ)
    (msgs : List CanEvent) (tails : List (List CanEvent)) (s : SigItem)
    (hs : sortedEvents msgs) (hpos : ∀ e ∈ msgs, 0 < e.mono_time)
    (ht : sortedEvents tails.flatten) (htpos : ∀ e ∈ tails.flatten, 0 < e.mono_time)
    (hstrict : strictlyLater tails)
    (hvals : s.vals = []) (hmark : s.last_value_mono_time = 0) :
    (updateSeriesItem false rst dec msgs s).vals = msgs.map (sampleOf rst dec s.sig) ∧
    (liveUpdates rst dec [] tails s).vals = tails.flatten.map (sampleOf rst dec s.sig) ∧
    ∀ e, sampleOf rst dec s.sig e =
      ⟨(e.mono_time : ℚ) / 1000000000 - rst, dec e.dat s.sig⟩ := by
  refine ⟨updateSeriesItem_replay_complete rst dec msgs s hs hpos, ?_, fun e => rfl⟩
  have h := liveUpdates_complete rst dec tails [] s (by simpa using ht) (by simp)
    (by rw [hmark]; exact htpos) hstrict
  rw [h, hvals, List.nil_append]

/-- The amended C25 at a concrete input: `threeEvents` in replay mode and in live mode in the
two batches of `twoBatches`, the second of which holds two events of the same time. -/
theorem updateSeries_decodes_every_event_witness :
    sortedEvents threeEvents ∧ strictlyLater twoBatches ∧ twoBatches.flatten = threeEvents ∧
    (updateSeriesItem false 0 firstByte threeEvents (newItem 0 0)).vals =
      threeEvents.map (sampleOf 0 firstByte (newItem 0 0).sig) ∧
    (liveUpdates 0 firstByte [] twoBatches (newItem 0 0)).vals =
      twoBatches.flatten.map (sampleOf 0 firstByte (newItem 0 0).sig) :=
  have h := updateSeries_decodes_every_event 0 firstByte threeEvents twoBatches (newItem 0 0)
    (by decide) (by decide) (by decide) (by decide) (by decide) rfl rfl
  ⟨by decide, by decide, rfl, h.1, h.2.1⟩
/-! ## The step line -/

theorem stepLineFrom_append (p : QPointF) :
    ∀ (l : List QPointF) (prev : QPointF),
      stepLineFrom prev (l ++ [p]) =
        stepLineFrom prev l ++ [⟨p.x, ((l.getLast?).getD prev).y⟩, p] := by
  intro l
  induction l with
  | nil => intro prev; rfl
  | cons a t ih =>
    intro prev
    rw [List.cons_append, stepLineFrom, stepLineFrom, ih a]
    cases t with
    | nil => rfl
    | cons b t2 =>
      rw [List.getLast?_cons_cons]
      cases hl : (b :: t2).getLast? with
      | none => simp at hl
      | some x => rfl

theorem stepLineFrom_getLast? :
    ∀ (l : List QPointF) (prev : QPointF), (stepLineFrom prev l).getLast? = l.getLast? := by
  intro l
  induction l with
  | nil => intro prev; rfl
  | cons a t ih =>
    intro prev
    cases t with
    | nil => rfl
    | cons b t2 =>
      have h := ih a
      rw [stepLineFrom, List.getLast?_cons_cons, List.getLast?_cons_cons]
      cases hs : stepLineFrom a (b :: t2) with
      | nil => simp [stepLineFrom] at hs
      | cons c u =>
        rw [hs] at h
        rw [List.getLast?_cons_cons, h]

theorem stepLine_getLast? (l : List QPointF) : (stepLine l).getLast? = l.getLast? := by
  cases l with
  | nil => rfl
  | cons a t =>
    cases t with
    | nil => rfl
    | cons b t2 =>
      have h := stepLineFrom_getLast? (b :: t2) a
      rw [stepLine, List.getLast?_cons_cons]
      cases hs : stepLineFrom a (b :: t2) with
      | nil => simp [stepLineFrom] at hs
      | cons c u =>
        rw [hs] at h
        rw [List.getLast?_cons_cons, h]

theorem stepLine_append (l : List QPointF) (p : QPointF) :
    stepLine (l ++ [p]) =
      (match l.getLast? with
       | some back => stepLine l ++ [⟨p.x, back.y⟩]
       | none => stepLine l) ++ [p] := by
  cases l with
  | nil => rfl
  | cons a t =>
    rw [List.cons_append, stepLine, stepLine, stepLineFrom_append]
    cases t with
    | nil => rfl
    | cons b t2 =>
      rw [List.getLast?_cons_cons]
      cases hl : (b :: t2).getLast? with
      | none => simp at hl
      | some x => simp

theorem appendEvent_stepLine (rst : ℚ) (dec : List Nat → Nat → ℚ) (s : SigItem) (e : CanEvent)
    (h : s.step_vals = stepLine s.vals) :
    (appendEvent rst dec s e).step_vals = stepLine (appendEvent rst dec s e).vals := by
  simp only [appendEvent]
  rw [stepLine_append, h, stepLine_getLast?]

theorem foldl_appendEvent_stepLine (rst : ℚ) (dec : List Nat → Nat → ℚ) :
    ∀ (evs : List CanEvent) (s : SigItem), s.step_vals = stepLine s.vals →
      (evs.foldl (appendEvent rst dec) s).step_vals =
        stepLine (evs.foldl (appendEvent rst dec) s).vals := by
  intro evs
  induction evs with
  | nil => intro s h; exact h
  | cons e t ih =>
    intro s h
    rw [List.foldl_cons]
    exact ih _ (appendEvent_stepLine rst dec s e h)

theorem updateSeriesItem_stepLine (live : Bool) (rst : ℚ) (dec : List Nat → Nat → ℚ)
    (msgs : List CanEvent) (s : SigItem) (h : s.step_vals = stepLine s.vals) :
    (updateSeriesItem live rst dec msgs s).step_vals =
      stepLine (updateSeriesItem live rst dec msgs s).vals := by
  unfold updateSeriesItem
  cases live
  · simp only [Bool.false_eq_true, if_false]
    exact foldl_appendEvent_stepLine rst dec _ _ rfl
  · simp only [if_true]
    exact foldl_appendEvent_stepLine rst dec _ _ h

theorem seriesUpdates_stepLine :
    ∀ (calls : List UpdateCall) (s : SigItem), s.step_vals = stepLine s.vals →
      (seriesUpdates calls s).step_vals = stepLine (seriesUpdates calls s).vals := by
  intro calls
  induction calls with
  | nil => intro s h; exact h
  | cons c cs ih =>
    intro s h
    rw [seriesUpdates]
    exact ih _ (updateSeriesItem_stepLine _ _ _ _ s h)

theorem stepLineFrom_length :
    ∀ (l : List QPointF) (prev : QPointF), (stepLineFrom prev l).length = 2 * l.length := by
  intro l
  induction l with
  | nil => intro prev; rfl
  | cons a t ih =>
    intro prev
    rw [stepLineFrom, List.length_cons, List.length_cons, ih a, List.length_cons]
    omega

theorem stepLineFrom_getElem? :
    ∀ (l : List QPointF) (prev : QPointF) (j : Nat), j < l.length →
      ∃ p q, l[j]? = some p ∧ (prev :: l)[j]? = some q ∧
        (stepLineFrom prev l)[2 * j]? = some ⟨p.x, q.y⟩ ∧
        (stepLineFrom prev l)[2 * j + 1]? = some p := by
  intro l
  induction l with
  | nil => intro prev j hj; simp at hj
  | cons a t ih =>
    intro prev j hj
    cases j with
    | zero => exact ⟨a, prev, by simp, by simp, by simp [stepLineFrom], by simp [stepLineFrom]⟩
    | succ k =>
      have hk : k < t.length := by simpa using hj
      obtain ⟨p, q, h1, h2, h3, h4⟩ := ih a k hk
      refine ⟨p, q, ?_, ?_, ?_, ?_⟩
      · rw [List.getElem?_cons_succ]; exact h1
      · rw [List.getElem?_cons_succ]; exact h2
      · have : 2 * (k + 1) = (2 * k + 1) + 1 := by ring
        rw [stepLineFrom, this, List.getElem?_cons_succ, List.getElem?_cons_succ]
        exact h3
      · have : 2 * (k + 1) + 1 = (2 * k + 1 + 1) + 1 := by ring
        rw [stepLineFrom, this, List.getElem?_cons_succ, List.getElem?_cons_succ]
        exact h4

theorem stepLine_spec (l : List QPointF) :
    (l = [] → stepLine l = []) ∧
    (l ≠ [] → (stepLine l).length = 2 * l.length - 1) ∧
    (stepLine l)[0]? = l[0]? ∧
    (∀ i, 1 ≤ i → i < l.length → ∃ p q, l[i]? = some p ∧ l[i - 1]? = some q ∧
      (stepLine l)[2 * i - 1]? = some ⟨p.x, q.y⟩ ∧ (stepLine l)[2 * i]? = some p) := by
  cases l with
  | nil =>
    refine ⟨fun _ => rfl, fun h => absurd rfl h, rfl, ?_⟩
    intro i _ hi
    simp at hi
  | cons a t =>
    refine ⟨fun h => (by cases h), fun _ => ?_, by simp [stepLine], ?_⟩
    · rw [stepLine, List.length_cons, stepLineFrom_length, List.length_cons]
      omega
    · intro i h1 hi
      have hj : i - 1 < t.length := by
        rw [List.length_cons] at hi
        omega
      obtain ⟨p, q, e1, e2, e3, e4⟩ := stepLineFrom_getElem? t a (i - 1) hj
      have hi1 : i = (i - 1) + 1 := by omega
      refine ⟨p, q, ?_, e2, ?_, ?_⟩
      · rw [hi1, List.getElem?_cons_succ]; exact e1
      · have : 2 * i - 1 = 2 * (i - 1) + 1 := by omega
        rw [stepLine, this, List.getElem?_cons_succ]; exact e3
      · have : 2 * i = (2 * (i - 1) + 1) + 1 := by omega
        rw [stepLine, this, List.getElem?_cons_succ]; exact e4

/-- C26: from empty buffers, after any number of updates of a series, in either mode, in any
order and over any event lists, `step_vals` is the step line of `vals`: it is empty when `vals`
is empty and has `2 * |vals| - 1` points otherwise, its first point is the first sample, and for
every `i ≥ 1` its points `2i - 1` and `2i` are `(vals[i].x, vals[i-1].y)` and `vals[i]`. -/
theorem updateSeries_step_line (calls : List UpdateCall) (s : SigItem)
    (hv : s.vals = []) (hsv : s.step_vals = []) :
    ((seriesUpdates calls s).vals = [] → (seriesUpdates calls s).step_vals = []) ∧
    ((seriesUpdates calls s).vals ≠ [] →
      (seriesUpdates calls s).step_vals.length = 2 * (seriesUpdates calls s).vals.length - 1) ∧
    (seriesUpdates calls s).step_vals[0]? = (seriesUpdates calls s).vals[0]? ∧
    (∀ i, 1 ≤ i → i < (seriesUpdates calls s).vals.length →
      ∃ p q, (seriesUpdates calls s).vals[i]? = some p ∧
        (seriesUpdates calls s).vals[i - 1]? = some q ∧
        (seriesUpdates calls s).step_vals[2 * i - 1]? = some ⟨p.x, q.y⟩ ∧
        (seriesUpdates calls s).step_vals[2 * i]? = some p) ∧
    (seriesUpdates calls s).step_vals = stepLine (seriesUpdates calls s).vals := by
  have h := seriesUpdates_stepLine calls s (by rw [hv, hsv]; rfl)
  have hspec := stepLine_spec (seriesUpdates calls s).vals
  rw [h]
  exact ⟨hspec.1, hspec.2.1, hspec.2.2.1, hspec.2.2.2, rfl⟩

/-- C26 at a concrete input: a live update over `threeEvents`, a live update over `fourEvents`
and a replay update over `threeEvents`, from a new series. -/
theorem updateSeries_step_line_witness :
    (newItem 0 0).vals = [] ∧ (newItem 0 0).step_vals = [] ∧
    (seriesUpdates [⟨true, 0, firstByte, threeEvents⟩, ⟨true, 0, firstByte, fourEvents⟩,
      ⟨false, 0, firstByte, threeEvents⟩] (newItem 0 0)).step_vals =
      stepLine (seriesUpdates [⟨true, 0, firstByte, threeEvents⟩,
        ⟨true, 0, firstByte, fourEvents⟩, ⟨false, 0, firstByte, threeEvents⟩]
        (newItem 0 0)).vals :=
  ⟨rfl, rfl, (updateSeries_step_line [⟨true, 0, firstByte, threeEvents⟩,
    ⟨true, 0, firstByte, fourEvents⟩, ⟨false, 0, firstByte, threeEvents⟩] (newItem 0 0)
    rfl rfl).2.2.2.2⟩
/-! ## The axis scaler on doubles -/

theorem toDouble_eq (x : ℚ) (e n : ℤ) (hx : x ≠ 0) (he : -1022 ≤ e)
    (h1 : (2 : ℚ) ^ e ≤ |x|) (h2 : |x| < (2 : ℚ) ^ (e + 1))
    (hn : roundHalfEven (x / 2 ^ (e - 52)) = n)
    (hfin : |(n : ℚ) * 2 ^ (e - 52)| < 2 ^ 1024) :
    Ieee.toDouble x = Double.ofRat (n * 2 ^ (e - 52)) := by
  have hlog : Int.log 2 |x| = e :=
    int_log_eq 2 (by norm_num) |x| e (abs_pos.mpr hx) (by exact_mod_cast h1)
      (by exact_mod_cast h2)
  unfold Ieee.toDouble
  rw [if_neg hx]
  simp only [hlog, max_eq_left he, hn]
  rw [if_neg (not_le.mpr hfin)]

theorem toDouble_span : Ieee.toDouble (Ieee.d18 - Ieee.d17) = Double.ofRat Ieee.dSpan := by
  have h := toDouble_eq (Ieee.d18 - Ieee.d17) (-4) 7205759403792800
    (by norm_num [Ieee.d18, Ieee.d17]) (by norm_num)
    (by norm_num [Ieee.d18, Ieee.d17, abs_of_pos])
    (by norm_num [Ieee.d18, Ieee.d17, abs_of_pos])
    (by norm_num [roundHalfEven, Ieee.d18, Ieee.d17]) (by norm_num [abs_of_pos])
  rw [h]
  norm_num [Ieee.dSpan]
theorem toDouble_quotient_span : Ieee.toDouble (Ieee.dSpan / Ieee.d01) = Double.ofRat (1125899906842625 / 1125899906842624) := by
  have h := toDouble_eq (Ieee.dSpan / Ieee.d01) 0 4503599627370500
    (by norm_num [Ieee.dSpan, Ieee.d01]) (by norm_num)
    (by norm_num [abs_of_pos, Ieee.dSpan, Ieee.d01])
    (by norm_num [abs_of_pos, Ieee.dSpan, Ieee.d01])
    (by norm_num [roundHalfEven, Ieee.dSpan, Ieee.d01]) (by norm_num [abs_of_pos])
  rw [h]
  norm_num []

theorem toDouble_two_tenths : Ieee.toDouble (2 * Ieee.d01) = Double.ofRat Ieee.d02 := by
  have h := toDouble_eq (2 * Ieee.d01) (-3) 7205759403792794
    (by norm_num [Ieee.d01]) (by norm_num)
    (by norm_num [abs_of_pos, Ieee.d01])
    (by norm_num [abs_of_pos, Ieee.d01])
    (by norm_num [roundHalfEven, Ieee.d01]) (by norm_num [abs_of_pos])
  rw [h]
  norm_num [Ieee.d02]

theorem toDouble_fifth_by_four : Ieee.toDouble (Ieee.d02 / 4) = Double.ofRat Ieee.d005 := by
  have h := toDouble_eq (Ieee.d02 / 4) (-5) 7205759403792794
    (by norm_num [Ieee.d02]) (by norm_num)
    (by norm_num [abs_of_pos, Ieee.d02])
    (by norm_num [abs_of_pos, Ieee.d02])
    (by norm_num [roundHalfEven, Ieee.d02]) (by norm_num [abs_of_pos])
  rw [h]
  norm_num [Ieee.d005]

theorem toDouble_quotient_step : Ieee.toDouble (Ieee.d005 / Ieee.d001) = Double.ofRat 5 := by
  have h := toDouble_eq (Ieee.d005 / Ieee.d001) 2 5629499534213120
    (by norm_num [Ieee.d005, Ieee.d001]) (by norm_num)
    (by norm_num [abs_of_pos, Ieee.d005, Ieee.d001])
    (by norm_num [abs_of_pos, Ieee.d005, Ieee.d001])
    (by norm_num [roundHalfEven, Ieee.d005, Ieee.d001]) (by norm_num [abs_of_pos])
  rw [h]
  norm_num []

theorem toDouble_five_hundredths : Ieee.toDouble (5 * Ieee.d001) = Double.ofRat Ieee.d005 := by
  have h := toDouble_eq (5 * Ieee.d001) (-5) 7205759403792794
    (by norm_num [Ieee.d001]) (by norm_num)
    (by norm_num [abs_of_pos, Ieee.d001])
    (by norm_num [abs_of_pos, Ieee.d001])
    (by norm_num [roundHalfEven, Ieee.d001]) (by norm_num [abs_of_pos])
  rw [h]
  norm_num [Ieee.d005]

theorem toDouble_min_by_step : Ieee.toDouble (Ieee.d17 / Ieee.d005) = Double.ofRat 34 := by
  have h := toDouble_eq (Ieee.d17 / Ieee.d005) 5 4785074604081152
    (by norm_num [Ieee.d17, Ieee.d005]) (by norm_num)
    (by norm_num [abs_of_pos, Ieee.d17, Ieee.d005])
    (by norm_num [abs_of_pos, Ieee.d17, Ieee.d005])
    (by norm_num [roundHalfEven, Ieee.d17, Ieee.d005]) (by norm_num [abs_of_pos])
  rw [h]
  norm_num []

theorem toDouble_max_by_step : Ieee.toDouble (Ieee.d18 / Ieee.d005) = Double.ofRat 36 := by
  have h := toDouble_eq (Ieee.d18 / Ieee.d005) 5 5066549580791808
    (by norm_num [Ieee.d18, Ieee.d005]) (by norm_num)
    (by norm_num [abs_of_pos, Ieee.d18, Ieee.d005])
    (by norm_num [abs_of_pos, Ieee.d18, Ieee.d005])
    (by norm_num [roundHalfEven, Ieee.d18, Ieee.d005]) (by norm_num [abs_of_pos])
  rw [h]
  norm_num []

theorem toDouble_axis_min : Ieee.toDouble (34 * Ieee.d005) = Double.ofRat Ieee.d17up := by
  have h := toDouble_eq (34 * Ieee.d005) 0 7656119366529844
    (by norm_num [Ieee.d005]) (by norm_num)
    (by norm_num [abs_of_pos, Ieee.d005])
    (by norm_num [abs_of_pos, Ieee.d005])
    (by norm_num [roundHalfEven, Ieee.d005]) (by norm_num [abs_of_pos])
  rw [h]
  norm_num [Ieee.d17up]

theorem toDouble_axis_max : Ieee.toDouble (36 * Ieee.d005) = Double.ofRat Ieee.d18 := by
  have h := toDouble_eq (36 * Ieee.d005) 0 8106479329266893
    (by norm_num [Ieee.d005]) (by norm_num)
    (by norm_num [abs_of_pos, Ieee.d005])
    (by norm_num [abs_of_pos, Ieee.d005])
    (by norm_num [roundHalfEven, Ieee.d005]) (by norm_num [abs_of_pos])
  rw [h]
  norm_num [Ieee.d18]

theorem toDouble_quotient_5e22 : Ieee.toDouble (Ieee.above5e22 / 10000000000000000000000) = Double.ofRat 5 := by
  have h := toDouble_eq (Ieee.above5e22 / 10000000000000000000000) 2 5629499534213120
    (by norm_num [Ieee.above5e22]) (by norm_num)
    (by norm_num [abs_of_pos, Ieee.above5e22])
    (by norm_num [abs_of_pos, Ieee.above5e22])
    (by norm_num [roundHalfEven, Ieee.above5e22]) (by norm_num [abs_of_pos])
  rw [h]
  norm_num []

theorem toDouble_5e22 : Ieee.toDouble 50000000000000000000000 = Double.ofRat Ieee.d5e22 := by
  have h := toDouble_eq 50000000000000000000000 75 5960464477539062
    (by norm_num []) (by norm_num)
    (by norm_num [abs_of_pos])
    (by norm_num [abs_of_pos])
    (by norm_num [roundHalfEven]) (by norm_num [abs_of_pos])
  rw [h]
  norm_num [Ieee.d5e22]

theorem toDouble_quotient_belowThousand : Ieee.toDouble (Ieee.belowThousand / 1000) = Double.ofRat Ieee.belowOne := by
  have h := toDouble_eq (Ieee.belowThousand / 1000) (-1) 9007199254740991
    (by norm_num [Ieee.belowThousand]) (by norm_num)
    (by norm_num [abs_of_pos, Ieee.belowThousand])
    (by norm_num [abs_of_pos, Ieee.belowThousand])
    (by norm_num [roundHalfEven, Ieee.belowThousand]) (by norm_num [abs_of_pos])
  rw [h]
  norm_num [Ieee.belowOne]

theorem toDouble_thousand : Ieee.toDouble 1000 = Double.ofRat 1000 := by
  have h := toDouble_eq 1000 9 8796093022208000
    (by norm_num []) (by norm_num)
    (by norm_num [abs_of_pos])
    (by norm_num [abs_of_pos])
    (by norm_num [roundHalfEven]) (by norm_num [abs_of_pos])
  rw [h]
  norm_num []
theorem niceFactor_ofRat (q : ℚ) (ceiling : Bool) :
    Ieee.niceFactor (Double.ofRat q) ceiling =
      if ceiling then
        if q ≤ 1 then 1 else if q ≤ 2 then 2 else if q ≤ 5 then 5 else 10
      else
        if q < 3 / 2 then 1 else if q < 3 then 2 else if q < 7 then 5 else 10 := by
  unfold Ieee.niceFactor
  simp only [ofRat_le_ofRat, ofRat_lt_ofRat]

theorem ieee_niceNumber_eq (log10 : ℚ → ℚ) (pow10 : ℤ → ℚ) (x : ℚ) (ceiling : Bool)
    (n : ℤ) (z q r : ℚ) (hx : 0 < x) (hn : ⌊log10 x⌋ = n) (hlo : INT_MIN ≤ n)
    (hhi : n ≤ INT_MAX) (hz : pow10 n = z) (hz0 : z ≠ 0)
    (hq : Ieee.toDouble (x / z) = Double.ofRat q)
    (hr : Ieee.toDouble (Ieee.niceFactor (Double.ofRat q) ceiling * z) = Double.ofRat r) :
    Ieee.niceNumberZ log10 pow10 x = some z ∧
    Ieee.niceNumberQ x z = Double.ofRat q ∧
    Ieee.niceNumber log10 pow10 x ceiling = some r := by
  have hZ : Ieee.niceNumberZ log10 pow10 x = some z := by
    unfold Ieee.niceNumberZ qFloor
    rw [hn, toInt_some n hlo hhi, Option.map_some', hz]
  have hQ : Ieee.niceNumberQ x z = Double.ofRat q := by
    unfold Ieee.niceNumberQ
    rw [if_neg hz0, hq]
  refine ⟨hZ, hQ, ?_⟩
  unfold Ieee.niceNumber
  rw [if_pos hx, hZ, Option.some_bind, hQ, hr, finite_ofRat]

theorem ieee_scenario_span (log10 : ℚ → ℚ) (pow10 : ℤ → ℚ)
    (h1 : ⌊log10 Ieee.dSpan⌋ = -1) (hp1 : pow10 (-1) = Ieee.d01) :
    Ieee.niceNumber log10 pow10 Ieee.dSpan true = some Ieee.d02 := by
  refine (ieee_niceNumber_eq log10 pow10 Ieee.dSpan true (-1) Ieee.d01
    (1125899906842625 / 1125899906842624) Ieee.d02 (by norm_num [Ieee.dSpan]) h1 (by decide)
    (by decide) hp1 (by norm_num [Ieee.d01]) toDouble_quotient_span ?_).2.2
  rw [niceFactor_ofRat]
  norm_num
  exact toDouble_two_tenths

theorem ieee_scenario_step (log10 : ℚ → ℚ) (pow10 : ℤ → ℚ)
    (h2 : ⌊log10 Ieee.d005⌋ = -2) (hp2 : pow10 (-2) = Ieee.d001) :
    Ieee.niceNumber log10 pow10 Ieee.d005 false = some Ieee.d005 := by
  refine (ieee_niceNumber_eq log10 pow10 Ieee.d005 false (-2) Ieee.d001 5 Ieee.d005
    (by norm_num [Ieee.d005]) h2 (by decide) (by decide) hp2 (by norm_num [Ieee.d001])
    toDouble_quotient_step ?_).2.2
  rw [niceFactor_ofRat]
  norm_num
  exact toDouble_five_hundredths

theorem ieee_scenario (log10 : ℚ → ℚ) (pow10 : ℤ → ℚ)
    (h1 : ⌊log10 Ieee.dSpan⌋ = -1) (h2 : ⌊log10 Ieee.d005⌋ = -2)
    (hp1 : pow10 (-1) = Ieee.d01) (hp2 : pow10 (-2) = Ieee.d001) :
    Ieee.getNiceAxisNumbers log10 pow10 Ieee.d17 Ieee.d18 5 =
      some (Ieee.d17up, Ieee.d18, 3) := by
  have hfour : Ieee.d02 / (((5 : ℤ) : ℚ) - 1) = Ieee.d02 / 4 := by norm_num
  have hstep0 : ¬ Ieee.d005 = 0 := by norm_num [Ieee.d005]
  have h34 : (((34 : ℤ) : ℚ)) * Ieee.d005 = 34 * Ieee.d005 := by norm_num
  have h36 : (((36 : ℤ) : ℚ)) * Ieee.d005 = 36 * Ieee.d005 := by norm_num
  have hf : ⌊(34 : ℚ)⌋ = 34 := by norm_num
  have hc : ⌈(36 : ℚ)⌉ = 36 := by norm_num
  unfold Ieee.getNiceAxisNumbers
  rw [toDouble_span, finite_ofRat, Option.some_bind, ieee_scenario_span log10 pow10 h1 hp1,
    Option.some_bind, if_neg (by norm_num), hfour, toDouble_fifth_by_four, finite_ofRat,
    Option.some_bind, ieee_scenario_step log10 pow10 h2 hp2, Option.some_bind, if_neg hstep0,
    toDouble_min_by_step, finite_ofRat, Option.some_bind]
  unfold qFloor qCeil
  rw [hf, toInt_some 34 (by decide) (by decide), Option.some_bind, toDouble_max_by_step,
    finite_ofRat, Option.some_bind, hc, toInt_some 36 (by decide) (by decide), Option.some_bind,
    toInt_some (36 - 34) (by decide) (by decide), Option.some_bind,
    toInt_some (36 - 34 + 1) (by decide) (by decide), Option.some_bind, h34, h36,
    toDouble_axis_min, toDouble_axis_max, finite_ofRat, finite_ofRat]
  rfl
/-! ### The logarithm just below a power of ten -/

theorem logb_belowThousand_bounds :
    (3 : ℝ) - 1 / 2 ^ 52 < Real.logb 10 ((Ieee.belowThousand : ℚ) : ℝ) ∧
    Real.logb 10 ((Ieee.belowThousand : ℚ) : ℝ) < 3 := by
  have hx : ((Ieee.belowThousand : ℚ) : ℝ) = 1000 * (1 - 1 / 8796093022208000) := by
    unfold Ieee.belowThousand
    push_cast
    norm_num
  have hlog10 : (1 : ℝ) ≤ Real.log 10 := by
    have h1 : Real.exp 1 ≤ 10 := by
      have := Real.exp_one_lt_d9
      linarith
    have := Real.log_le_log (Real.exp_pos 1) h1
    rwa [Real.log_exp] at this
  have hlog10pos : (0 : ℝ) < Real.log 10 := by linarith
  have h1000 : Real.log 1000 = 3 * Real.log 10 := by
    have : (1000 : ℝ) = 10 ^ (3 : ℕ) := by norm_num
    rw [this, Real.log_pow]
    norm_num
  have hy : (0 : ℝ) < 1 - 1 / 8796093022208000 := by norm_num
  have hlow := Real.one_sub_inv_le_log_of_pos hy
  have hup : Real.log (1 - 1 / 8796093022208000) < 0 :=
    Real.log_neg hy (by norm_num)
  have hsplit : Real.log (1000 * (1 - 1 / 8796093022208000)) =
      3 * Real.log 10 + Real.log (1 - 1 / 8796093022208000) := by
    rw [Real.log_mul (by norm_num) (ne_of_gt hy), h1000]
  have hval : (-(1 / 2 ^ 52) : ℝ) < 1 - (1 - 1 / 8796093022208000)⁻¹ := by norm_num
  rw [hx, Real.logb, hsplit]
  constructor
  · rw [lt_div_iff₀ hlog10pos]
    nlinarith
  · rw [div_lt_iff₀ hlog10pos]
    linarith


theorem double_near_three (d : ℚ) (hd : Ieee.toDouble d = Double.ofRat d)
    (h1 : 3 - 1 / 2 ^ 51 < d) (h2 : d < 3 + 1 / 2 ^ 51) : d = 3 := by
  have hpos : 0 < d := by linarith [show (0 : ℚ) < 3 - 1 / 2 ^ 51 by norm_num]
  have habs : |d| = d := abs_of_pos hpos
  have hge : (2 : ℚ) ≤ d := by linarith [show (2 : ℚ) ≤ 3 - 1 / 2 ^ 51 by norm_num]
  have hlt : d < 4 := by linarith [show (3 : ℚ) + 1 / 2 ^ 51 ≤ 4 by norm_num]
  have hlog : Int.log 2 |d| = 1 :=
    int_log_eq 2 (by norm_num) |d| 1 (abs_pos.mpr (ne_of_gt hpos))
      (by rw [habs]; norm_num; exact hge) (by rw [habs]; norm_num; exact hlt)
  unfold Ieee.toDouble at hd
  rw [if_neg (ne_of_gt hpos)] at hd
  simp only [hlog, max_eq_left (show (-1022 : ℤ) ≤ 1 by norm_num)] at hd
  generalize roundHalfEven (d / 2 ^ ((1 : ℤ) - 52)) = k at hd
  by_cases hov : (2 : ℚ) ^ 1024 ≤ |(k : ℚ) * 2 ^ ((1 : ℤ) - 52)|
  · rw [if_pos hov, if_pos hpos] at hd
    exact absurd hd (ne_of_gt (ofRat_lt_posInf d))
  · rw [if_neg hov] at hd
    have hr := (ofRat_inj _ _).mp hd
    have h51 : ((2 : ℚ) ^ ((1 : ℤ) - 52)) = 1 / 2251799813685248 := by norm_num
    rw [h51] at hr
    have hk : (k : ℚ) = d * 2251799813685248 := by
      rw [← hr]
      ring
    have b1 : (3 : ℚ) - 1 / 2251799813685248 < d := by
      have : (2 : ℚ) ^ 51 = 2251799813685248 := by norm_num
      rwa [this] at h1
    have b2 : d < (3 : ℚ) + 1 / 2251799813685248 := by
      have : (2 : ℚ) ^ 51 = 2251799813685248 := by norm_num
      rwa [this] at h2
    have hlow : ((6755399441055743 : ℤ) : ℚ) < (k : ℚ) := by
      rw [hk]
      push_cast
      linarith
    have hhigh : (k : ℚ) < ((6755399441055745 : ℤ) : ℚ) := by
      rw [hk]
      push_cast
      linarith
    have hlow2 : (6755399441055743 : ℤ) < k := by exact_mod_cast hlow
    have hhigh2 : k < (6755399441055745 : ℤ) := by exact_mod_cast hhigh
    have hkeq : k = 6755399441055744 := by omega
    rw [hkeq] at hk
    push_cast at hk
    linarith

/-- The double nearest to the logarithm of `999.9999999999999` is `3.0`: a double that is at
least as near to `log10 x` as 3 is 3. -/
theorem log10_belowThousand_rounds_to_three (d : ℚ)
    (hd : Ieee.toDouble d = Double.ofRat d)
    (hnear : |(d : ℝ) - Real.logb 10 ((Ieee.belowThousand : ℚ) : ℝ)| ≤
      |(3 : ℝ) - Real.logb 10 ((Ieee.belowThousand : ℚ) : ℝ)|) :
    d = 3 ∧ ⌊d⌋ = 3 := by
  have hb := logb_belowThousand_bounds
  have h3 : |(3 : ℝ) - Real.logb 10 ((Ieee.belowThousand : ℚ) : ℝ)| < 1 / 2 ^ 52 := by
    rw [abs_lt]
    constructor <;> linarith [hb.1, hb.2]
  have hdl := lt_of_le_of_lt hnear h3
  rw [abs_lt] at hdl
  have h1r : (3 : ℝ) - 1 / 2 ^ 51 < (d : ℝ) := by
    have : (1 : ℝ) / 2 ^ 51 = 1 / 2 ^ 52 + 1 / 2 ^ 52 := by norm_num
    linarith [hdl.1, hb.1]
  have h2r : (d : ℝ) < 3 + 1 / 2 ^ 51 := by
    have : (0 : ℝ) < 1 / 2 ^ 51 := by norm_num
    linarith [hdl.2, hb.2]
  have h1 : (3 : ℚ) - 1 / 2 ^ 51 < d := by
    have : (((3 : ℚ) - 1 / 2 ^ 51 : ℚ) : ℝ) < (d : ℝ) := by
      push_cast
      exact h1r
    exact_mod_cast this
  have h2 : d < (3 : ℚ) + 1 / 2 ^ 51 := by
    have : (d : ℝ) < (((3 : ℚ) + 1 / 2 ^ 51 : ℚ) : ℝ) := by
      push_cast
      exact h2r
    exact_mod_cast this
  have := double_near_three d hd h1 h2
  exact ⟨this, by rw [this]; norm_num⟩

theorem three_nearest_log10_belowThousand (d : ℚ) (hd : Ieee.toDouble d = Double.ofRat d) :
    |(3 : ℝ) - Real.logb 10 ((Ieee.belowThousand : ℚ) : ℝ)| ≤
      |(d : ℝ) - Real.logb 10 ((Ieee.belowThousand : ℚ) : ℝ)| := by
  by_contra hcon
  have hle := le_of_lt (not_le.mp hcon)
  have h3 := (log10_belowThousand_rounds_to_three d hd hle).1
  rw [h3] at hcon
  exact hcon (by norm_num)
/-! ### The library values of the examples -/

theorem glibcLog10_span : ⌊Ieee.glibcLog10 Ieee.dSpan⌋ = -1 := by
  have h : Ieee.glibcLog10 Ieee.dSpan = -2251799813685247 / 2251799813685248 := by
    unfold Ieee.glibcLog10
    rw [if_pos rfl]
  rw [h, Int.floor_eq_iff]
  norm_num

theorem glibcLog10_step : ⌊Ieee.glibcLog10 Ieee.d005⌋ = -2 := by
  have h : Ieee.glibcLog10 Ieee.d005 = -45775923466173 / 35184372088832 := by
    unfold Ieee.glibcLog10
    rw [if_neg (by norm_num [Ieee.d005, Ieee.dSpan]), if_pos rfl]
  rw [h, Int.floor_eq_iff]
  norm_num

theorem glibcLog10_belowThousand : ⌊Ieee.glibcLog10 Ieee.belowThousand⌋ = 3 := by
  have h : Ieee.glibcLog10 Ieee.belowThousand = 3 := by
    unfold Ieee.glibcLog10
    rw [if_neg (by norm_num [Ieee.belowThousand, Ieee.dSpan]),
      if_neg (by norm_num [Ieee.belowThousand, Ieee.d005]),
      if_neg (by norm_num [Ieee.belowThousand, Ieee.d003]), if_pos rfl]
  rw [h]
  norm_num

theorem glibcLog10_above5e22 : ⌊Ieee.glibcLog10 Ieee.above5e22⌋ = 22 := by
  have h : Ieee.glibcLog10 Ieee.above5e22 = 798649006665795 / 35184372088832 := by
    unfold Ieee.glibcLog10
    rw [if_neg (by norm_num [Ieee.above5e22, Ieee.dSpan]),
      if_neg (by norm_num [Ieee.above5e22, Ieee.d005]),
      if_neg (by norm_num [Ieee.above5e22, Ieee.d003]),
      if_neg (by norm_num [Ieee.above5e22, Ieee.belowThousand]), if_pos rfl]
  rw [h, Int.floor_eq_iff]
  norm_num

/-! ### Where the rounding shows -/

/-- C5, the failing input (`ChartView::getNiceAxisNumbers`, chart.cc:341-348, on doubles): for
`min = 1.7`, `max = 1.8` and 5 desired ticks, with a library that gives the logarithms of the
span `0.10000000000000009` and of `0.05` the floors `-1` and `-2` and the powers `0.1` and
`0.01`, the step is `0.05`, the double quotient `1.7 / 0.05` is `34.0` although the exact
quotient is below 34, and the result is `(1.7000000000000002, 1.8, 3)`: the lower bound of the
axis is above `min`. -/
theorem getNiceAxisNumbers_min_not_covered (log10 : ℚ → ℚ) (pow10 : ℤ → ℚ)
    (h1 : ⌊log10 Ieee.dSpan⌋ = -1) (h2 : ⌊log10 Ieee.d005⌋ = -2)
    (hp1 : pow10 (-1) = Ieee.d01) (hp2 : pow10 (-2) = Ieee.d001) :
    Ieee.d17 < Ieee.d18 ∧
    Ieee.getNiceAxisNumbers log10 pow10 Ieee.d17 Ieee.d18 5 =
      some (Ieee.d17up, Ieee.d18, 3) ∧
    Ieee.d17 < Ieee.d17up ∧
    Ieee.d17 / Ieee.d005 < 34 ∧ Ieee.toDouble (Ieee.d17 / Ieee.d005) = Double.ofRat 34 := by
  refine ⟨by norm_num [Ieee.d17, Ieee.d18], ieee_scenario log10 pow10 h1 h2 hp1 hp2,
    by norm_num [Ieee.d17, Ieee.d17up], by norm_num [Ieee.d17, Ieee.d005],
    toDouble_min_by_step⟩

/-- C5 with the library values of the GNU C library: the axis returned for `(1.7, 1.8, 5)`
starts at `1.7000000000000002`, above `1.7`. -/
theorem getNiceAxisNumbers_min_not_covered_witness :
    Ieee.getNiceAxisNumbers Ieee.glibcLog10 Ieee.glibcPow10 Ieee.d17 Ieee.d18 5 =
      some (Ieee.d17up, Ieee.d18, 3) ∧
    Ieee.d17 < Ieee.d17up :=
  have h := getNiceAxisNumbers_min_not_covered Ieee.glibcLog10 Ieee.glibcPow10 glibcLog10_span
    glibcLog10_step rfl rfl
  ⟨h.2.1, h.2.2.1⟩

/-- C18, the failing input (`ChartView::getNiceAxisNumbers`, chart.cc:341-348, on doubles): for
`min = 1.7`, `max = 1.8` and 5 desired ticks, with the same library values, the step is `0.05`
and `floor(min / step)` is 33, but the code floors the rounded quotient `34.0` and returns
`axis_min = 1.7000000000000002`, which is neither `33 * step` nor any integer multiple of the
step, and the tick count 3, which is not `(axis_max - axis_min) / step + 1`. -/
theorem getNiceAxisNumbers_floors_rounded_quotient (log10 : ℚ → ℚ) (pow10 : ℤ → ℚ)
    (h1 : ⌊log10 Ieee.dSpan⌋ = -1) (h2 : ⌊log10 Ieee.d005⌋ = -2)
    (hp1 : pow10 (-1) = Ieee.d01) (hp2 : pow10 (-2) = Ieee.d001) :
    Ieee.niceNumber log10 pow10 Ieee.dSpan true = some Ieee.d02 ∧
    Ieee.toDouble (Ieee.d02 / 4) = Double.ofRat Ieee.d005 ∧
    Ieee.niceNumber log10 pow10 Ieee.d005 false = some Ieee.d005 ∧
    Ieee.getNiceAxisNumbers log10 pow10 Ieee.d17 Ieee.d18 5 =
      some (Ieee.d17up, Ieee.d18, 3) ∧
    ⌊Ieee.d17 / Ieee.d005⌋ = 33 ∧
    (∀ k : ℤ, Ieee.d17up ≠ k * Ieee.d005) ∧
    (Ieee.d18 - Ieee.d17up) / Ieee.d005 + 1 ≠ 3 := by
  refine ⟨ieee_scenario_span log10 pow10 h1 hp1, toDouble_fifth_by_four,
    ieee_scenario_step log10 pow10 h2 hp2, ieee_scenario log10 pow10 h1 h2 hp1 hp2, ?_, ?_, ?_⟩
  · rw [Int.floor_eq_iff]
    norm_num [Ieee.d17, Ieee.d005]
  · intro k hk
    have h : (k : ℚ) = Ieee.d17up / Ieee.d005 := by
      rw [hk]
      field_simp [show Ieee.d005 ≠ 0 by norm_num [Ieee.d005]]
    have hlt : (34 : ℚ) < (k : ℚ) := by
      rw [h]; norm_num [Ieee.d17up, Ieee.d005]
    have hgt : (k : ℚ) < 35 := by
      rw [h]; norm_num [Ieee.d17up, Ieee.d005]
    have h1 : (34 : ℤ) < k := by exact_mod_cast hlt
    have h2 : k < (35 : ℤ) := by exact_mod_cast hgt
    omega
  · norm_num [Ieee.d18, Ieee.d17up, Ieee.d005]

/-- C18 with the library values of the GNU C library. -/
theorem getNiceAxisNumbers_floors_rounded_quotient_witness :
    Ieee.getNiceAxisNumbers Ieee.glibcLog10 Ieee.glibcPow10 Ieee.d17 Ieee.d18 5 =
      some (Ieee.d17up, Ieee.d18, 3) ∧
    ⌊Ieee.d17 / Ieee.d005⌋ = 33 ∧ (∀ k : ℤ, Ieee.d17up ≠ k * Ieee.d005) :=
  have h := getNiceAxisNumbers_floors_rounded_quotient Ieee.glibcLog10 Ieee.glibcPow10
    glibcLog10_span glibcLog10_step rfl rfl
  ⟨h.2.2.2.1, h.2.2.2.2.1, h.2.2.2.2.2.1⟩

/-- C19, the failing input (`ChartView::niceNumber`, ceiling mode, on doubles): for
`x = 5.0000000000000004e+22`, with a library that gives the logarithm the floor 22 and the
power `10^22`, `z` is `10^22` and the exact quotient `x / z` is above 5, so the least of 1, 2,
5, 10 that is not below it is 10; the double quotient is `5.0`, the code takes 5 and returns
`5e+22`, which is smaller than `x`. -/
theorem niceNumber_ceiling_below_x (log10 : ℚ → ℚ) (pow10 : ℤ → ℚ)
    (h1 : ⌊log10 Ieee.above5e22⌋ = 22) (hp : pow10 22 = 10000000000000000000000) :
    Ieee.niceNumberZ log10 pow10 Ieee.above5e22 = some ((10 : ℚ) ^ (22 : ℕ)) ∧
    5 < Ieee.above5e22 / (10 : ℚ) ^ (22 : ℕ) ∧
    Ieee.niceNumberQ Ieee.above5e22 ((10 : ℚ) ^ (22 : ℕ)) = Double.ofRat 5 ∧
    Ieee.niceNumber log10 pow10 Ieee.above5e22 true = some Ieee.d5e22 ∧
    Ieee.d5e22 < Ieee.above5e22 := by
  have hten : (10 : ℚ) ^ (22 : ℕ) = 10000000000000000000000 := by norm_num
  have h := ieee_niceNumber_eq log10 pow10 Ieee.above5e22 true 22 10000000000000000000000 5
    Ieee.d5e22 (by norm_num [Ieee.above5e22]) h1 (by decide) (by decide) hp (by norm_num)
    toDouble_quotient_5e22 (by
      rw [niceFactor_ofRat]
      norm_num
      exact toDouble_5e22)
  rw [hten]
  exact ⟨h.1, by norm_num [Ieee.above5e22], h.2.1, h.2.2,
    by norm_num [Ieee.d5e22, Ieee.above5e22]⟩

/-- C19 with the library values of the GNU C library: `niceNumber(5.0000000000000004e+22,
true)` is `5e+22`, below its argument. -/
theorem niceNumber_ceiling_below_x_witness :
    Ieee.niceNumber Ieee.glibcLog10 Ieee.glibcPow10 Ieee.above5e22 true = some Ieee.d5e22 ∧
    Ieee.d5e22 < Ieee.above5e22 :=
  have h := niceNumber_ceiling_below_x Ieee.glibcLog10 Ieee.glibcPow10 glibcLog10_above5e22 rfl
  ⟨h.2.2.2.1, h.2.2.2.2⟩

/-- C21, the failing input (`ChartView::niceNumber` on doubles, against the comments at
chart.cc:352-353): for `x = 999.9999999999999`, the double before 1000, the double nearest to
`log10 x` is `3.0`; with a library whose `log10` has the floor 3 there and whose power is 1000,
`z` is 1000, which is above `x`, and the quotient `q` is `0.9999999999999999`, which is below
1; both modes return 1000. -/
theorem niceNumber_power_above_x (log10 : ℚ → ℚ) (pow10 : ℤ → ℚ)
    (h1 : ⌊log10 Ieee.belowThousand⌋ = 3) (hp : pow10 3 = 1000) :
    0 < Ieee.belowThousand ∧
    (∀ d : ℚ, Ieee.toDouble d = Double.ofRat d →
      |(3 : ℝ) - Real.logb 10 ((Ieee.belowThousand : ℚ) : ℝ)| ≤
        |(d : ℝ) - Real.logb 10 ((Ieee.belowThousand : ℚ) : ℝ)|) ∧
    Ieee.niceNumberZ log10 pow10 Ieee.belowThousand = some 1000 ∧
    Ieee.belowThousand < 1000 ∧
    Ieee.niceNumberQ Ieee.belowThousand 1000 = Double.ofRat Ieee.belowOne ∧
    Ieee.belowOne < 1 ∧
    ∀ ceiling, Ieee.niceNumber log10 pow10 Ieee.belowThousand ceiling = some 1000 := by
  have h : ∀ ceiling, _ := fun ceiling =>
    ieee_niceNumber_eq log10 pow10 Ieee.belowThousand ceiling 3 1000 Ieee.belowOne 1000
      (by norm_num [Ieee.belowThousand]) h1 (by decide) (by decide) hp (by norm_num)
      toDouble_quotient_belowThousand (by
        rw [niceFactor_ofRat]
        cases ceiling <;> norm_num [Ieee.belowOne] <;> exact toDouble_thousand)
  exact ⟨by norm_num [Ieee.belowThousand], three_nearest_log10_belowThousand, (h true).1,
    by norm_num [Ieee.belowThousand], (h true).2.1, by norm_num [Ieee.belowOne],
    fun c => (h c).2.2⟩

/-- C21 with the library values of the GNU C library: `z = 1000 > x` and `q < 1`. -/
theorem niceNumber_power_above_x_witness :
    Ieee.niceNumberZ Ieee.glibcLog10 Ieee.glibcPow10 Ieee.belowThousand = some 1000 ∧
    Ieee.belowThousand < 1000 ∧
    Ieee.niceNumberQ Ieee.belowThousand 1000 = Double.ofRat Ieee.belowOne ∧
    Ieee.belowOne < 1 :=
  have h := niceNumber_power_above_x Ieee.glibcLog10 Ieee.glibcPow10 glibcLog10_belowThousand
    rfl
  ⟨h.2.2.1, h.2.2.2.1, h.2.2.2.2.1, h.2.2.2.2.2.1⟩
/-! ## A sample before the window that the searches select -/

theorem toFloat_d07 : toFloat d07 = Double.ofRat float07 := by
  have h := toFloat_eq d07 (-1) 11744051 (by norm_num [d07]) (by norm_num)
    (by norm_num [d07, abs_of_pos]) (by norm_num [d07, abs_of_pos])
    (by norm_num [roundHalfEven, d07]) (by norm_num [abs_of_pos])
  rw [h]
  norm_num [float07]

theorem windowRange_float07 : windowRange [⟨float07, 7⟩] d07 1 = (0, 1) := by
  have hc : xLessThan ⟨float07, 7⟩ d07 = false := by
    simp only [xLessThan, toFloat_d07, ofRat_lt_ofRat, decide_eq_false_iff_not, lt_self_iff_false,
      not_false_eq_true]
  have hc1 : xLessThan ⟨float07, 7⟩ 1 = true := by
    simp only [xLessThan, toFloat_one, ofRat_lt_ofRat, decide_eq_true_eq]
    norm_num [float07]
  have h1 : lower_bound xLessThan [⟨float07, 7⟩] 0 1 d07 = 0 := by
    simp [lower_bound, lower_bound_loop, hc]
  have h2 : lower_bound xLessThan [⟨float07, 7⟩] 0 1 1 = 1 := by
    simp [lower_bound, lower_bound_loop, hc1]
  simp only [windowRange, List.length_singleton, h1, h2]

/-- C12, the failing input (`ChartView::updateAxisY`, chart.cc:289-327, with `xLessThan`,
chart.cc:16): the only series of the chart is visible and holds one sample, at the time
`float07` with the value 7, and the x axis is `[d07, 1)`.  The sample is before the window, so
no visible series has a sample in the window; but the start of the window is narrowed to
`float`, which is the time of the sample, so the searches select it: the raw extent is `(7, 7)`,
not `(0, 0)`, the pad is 1 and the scaler is called with `(6, 8)`, not with `(-1, 1)`. -/
theorem updateAxisY_no_data_selects_earlier_sample :
    float07Item.visible = true ∧ float07Item.vals = [⟨float07, 7⟩] ∧
    float07 < d07 ∧ ¬ (d07 ≤ float07 ∧ float07 < 1) ∧
    toFloat d07 = Double.ofRat float07 ∧
    windowRange float07Item.vals d07 1 = (0, 1) ∧
    rawExtent true noUnit d07 1 float07Item [] = (Double.ofRat 7, Double.ofRat 7) ∧
    axisPadding 7 7 = 1 ∧
    scaleAxis 7 7 5 = getNiceAxisNumbers 6 8 5 ∧
    updateAxisY true noUnit someWidth (newChart [float07Item] d07 1) =
      (getNiceAxisNumbers 6 8 5).map
        (applyAxis someWidth (newChart [float07Item] d07 1)
          [updateAxisYItem true d07 1 float07Item] "") := by
  have hlt : float07 < d07 := by norm_num [float07, d07]
  have hvis : float07Item.visible = true := rfl
  have hslice : (([⟨float07, 7⟩] : List QPointF).take 1).drop 0 = [⟨float07, 7⟩] := rfl
  have h7max : Double.ofRat 7 ≤ Double.ofRat DBL_MAX :=
    (ofRat_le_ofRat _ _).mpr (by norm_num [DBL_MAX])
  have hlow7 : Double.ofRat DBL_LOWEST ≤ Double.ofRat 7 :=
    (ofRat_le_ofRat _ _).mpr (by norm_num [DBL_LOWEST, DBL_MAX])
  have hne1 : Double.ofRat 7 ≠ Double.ofRat DBL_MAX := by
    rw [Ne, ofRat_inj]; norm_num [DBL_MAX]
  have hne2 : Double.ofRat 7 ≠ Double.ofRat DBL_LOWEST := by
    rw [Ne, ofRat_inj]; norm_num [DBL_LOWEST, DBL_MAX]
  have hl7 : listMin [7] = Double.ofRat 7 := listMin_singleton 7
  have hm7 : listMax [7] = Double.ofRat 7 := listMax_singleton 7
  have hext : (updateAxisYItem true d07 1 float07Item).min = Double.ofRat 7 ∧
      (updateAxisYItem true d07 1 float07Item).max = Double.ofRat 7 := by
    unfold updateAxisYItem
    have hv : float07Item.vals = [⟨float07, 7⟩] := rfl
    simp only [hvis, if_true, hv, windowRange_float07, hslice, scanExtent_eq, List.map_cons,
      List.map_nil, hl7, hm7]
    exact ⟨min_eq_right h7max, max_eq_right hlow7⟩
  have hraw : rawExtent true noUnit d07 1 float07Item [] =
      (Double.ofRat 7, Double.ofRat 7) := by
    unfold rawExtent loopStart
    rw [updateAxisYLoop_single true noUnit d07 1 _ _ hvis]
    simp only [hext.1, hext.2, stdMin_eq_min, stdMax_eq_max, min_eq_right h7max,
      max_eq_right hlow7, replaceSentinels, if_neg hne1, if_neg hne2]
  have hpad : axisPadding 7 7 = 1 := by norm_num [axisPadding]
  have hscale : scaleAxis 7 7 5 = getNiceAxisNumbers 6 8 5 := by
    unfold scaleAxis
    rw [hpad]
    norm_num
  refine ⟨hvis, rfl, hlt, fun h => absurd h.1 (not_le.mpr hlt), toFloat_d07,
    windowRange_float07, hraw, hpad, hscale, ?_⟩
  have hloop : updateAxisYLoop true noUnit d07 1 [float07Item]
      (loopStart noUnit float07Item.sig) =
      ([updateAxisYItem true d07 1 float07Item],
        (stdMin (loopStart noUnit float07Item.sig).1 (updateAxisYItem true d07 1 float07Item).min,
          stdMax (loopStart noUnit float07Item.sig).2.1
            (updateAxisYItem true d07 1 float07Item).max,
          if (loopStart noUnit float07Item.sig).2.2 ≠ noUnit float07Item.sig then ""
          else (loopStart noUnit float07Item.sig).2.2)) :=
    updateAxisYLoop_single true noUnit d07 1 _ _ hvis
  unfold updateAxisY
  simp only [newChart, hraw, finite_ofRat, Option.some_bind, hscale, hloop]
  rfl
end Cabana

/-! ## The strides of the input buffers -/

namespace SNPEModel

theorem drop_prod_succ (shape : List Nat) (i : Nat) (h : i < shape.length) :
    (shape.drop i).prod = shape.getD i 0 * (shape.drop (i + 1)).prod := by
  rw [List.drop_eq_getElem_cons h, List.prod_cons, List.getD_eq_getElem _ _ h]

theorem strideLoop_spec (shape : List Nat) (e : Nat) :
    ∀ (i stride : Nat) (strides : List Nat), i < shape.length →
      strides.length = shape.length →
      stride = e * (shape.drop (i + 1)).prod % SIZE_MAX1 →
      (strideLoop shape i stride strides).length = shape.length ∧
      ∀ k, k < shape.length →
        (strideLoop shape i stride strides)[k]? =
          if k < i then some (e * (shape.drop (k + 1)).prod % SIZE_MAX1) else strides[k]? := by
  intro i
  induction i with
  | zero =>
    intro stride strides _ hl _
    refine ⟨hl, ?_⟩
    intro k _
    simp [strideLoop]
  | succ i ih =>
    intro stride strides hi hl hst
    have hs1 : stride * shape.getD (i + 1) 0 % SIZE_MAX1 =
        e * (shape.drop (i + 1)).prod % SIZE_MAX1 := by
      rw [hst, drop_prod_succ shape (i + 1) hi, Nat.mod_mul_mod]
      congr 1
      ring
    have h := ih (stride * shape.getD (i + 1) 0 % SIZE_MAX1)
      (strides.set i (stride * shape.getD (i + 1) 0 % SIZE_MAX1)) (by omega)
      (by rw [List.length_set]; exact hl) hs1
    rw [strideLoop]
    refine ⟨h.1, ?_⟩
    intro k hk
    rw [h.2 k hk]
    by_cases hki : k < i
    · rw [if_pos hki, if_pos (by omega)]
    · rw [if_neg hki]
      by_cases hke : k = i
      · subst hke
        rw [if_pos (by omega), List.getElem?_set_self (by omega), hs1]
      · rw [if_neg (by omega), List.getElem?_set_ne (fun h => hke h.symm)]

theorem shapeProduct_foldl :
    ∀ (shape : List Nat) (acc : Nat),
      shape.foldl (fun product d => product * d % SIZE_MAX1) acc % SIZE_MAX1 =
        acc * shape.prod % SIZE_MAX1 := by
  intro shape
  induction shape with
  | nil => intro acc; simp
  | cons d t ih =>
    intro acc
    rw [List.foldl_cons, ih, List.prod_cons, Nat.mod_mul_mod, Nat.mul_assoc]

theorem bufferSize_eq (shape : List Nat) (e : Nat) :
    bufferSize shape e = e * shape.prod % SIZE_MAX1 := by
  unfold bufferSize shapeProduct
  rw [← Nat.mod_mul_mod, shapeProduct_foldl, Nat.mod_mul_mod, Nat.one_mul, Nat.mul_comm]

theorem bufferStrides_spec (shape : List Nat) (e : Nat) (hr : 1 ≤ shape.length)
    (he : e < SIZE_MAX1) :
    ∃ strides, bufferStrides shape e = some strides ∧ strides.length = shape.length ∧
      ∀ i, i < shape.length →
        strides[i]? = some (e * (shape.drop (i + 1)).prod % SIZE_MAX1) := by
  have hne : ¬ shape.length = 0 := by omega
  have hinit : ((List.replicate shape.length 0).set (shape.length - 1) e).length =
      shape.length := by
    rw [List.length_set, List.length_replicate]
  have hlast : (shape.drop (shape.length - 1 + 1)).prod = 1 := by
    rw [List.drop_of_length_le (by omega)]
    rfl
  have h := strideLoop_spec shape e (shape.length - 1) e
    ((List.replicate shape.length 0).set (shape.length - 1) e) (by omega) hinit
    (by rw [hlast, Nat.mul_one, Nat.mod_eq_of_lt he])
  refine ⟨_, by unfold bufferStrides; rw [if_neg hne], h.1, ?_⟩
  intro i hi
  rw [h.2 i hi]
  by_cases hlt : i < shape.length - 1
  · rw [if_pos hlt]
  · have hie : i = shape.length - 1 := by omega
    rw [if_neg hlt, hie, List.getElem?_set_self (by rw [List.length_replicate]; omega), hlast,
      Nat.mul_one, Nat.mod_eq_of_lt he]

theorem headD_of_getElem? (l : List Nat) (v : Nat) (h : l[0]? = some v) : l.headD 0 = v := by
  cases l with
  | nil => simp at h
  | cons a t =>
    simp only [List.getElem?_cons_zero, Option.some.injEq] at h
    rw [List.headD_cons, h]

/-- C30, as stated, fails where the products leave the range of `size_t`: for the shape
`(1, 2^63, 2)` and the element size 4 the loop stores `strides[0] = 0`, while 4 times the
product of the dimensions after the first is `2^66`; the buffer size passed is 0. -/
theorem bufferStrides_counterexample :
    1 ≤ [1, 9223372036854775808, 2].length ∧
    bufferStrides [1, 9223372036854775808, 2] 4 = some [0, 8, 4] ∧
    4 * ([1, 9223372036854775808, 2].drop 1).prod = 73786976294838206464 ∧
    bufferSize [1, 9223372036854775808, 2] 4 = 0 := by
  refine ⟨by decide, ?_, by norm_num, ?_⟩
  · norm_num [bufferStrides, strideLoop, SIZE_MAX1, List.replicate]
  · norm_num [bufferSize, shapeProduct, SIZE_MAX1]

/-- C30, amended: for every shape of rank at least 1 and every element size `e` below `2^64`,
the loop yields `strides[i] = e * shape[i+1] * ... * shape[r-1]` modulo `2^64` for every
`i < r`, and the buffer size passed, `product * e`, is `strides[0] * shape[0]` modulo `2^64`;
when `e` times the product of the dimensions from each position on is below `2^64`, the strides
are row-major exactly: `strides[r-1] = e`, `strides[i]` is `e` times the product of `shape[j]`
for `j > i`, and the buffer size is `strides[0] * shape[0]`. -/
theorem bufferStrides_row_major (shape : List Nat) (e : Nat) (hr : 1 ≤ shape.length)
    (he : e < SIZE_MAX1) :
    ∃ strides, bufferStrides shape e = some strides ∧ strides.length = shape.length ∧
      (∀ i, i < shape.length →
        strides[i]? = some (e * (shape.drop (i + 1)).prod % SIZE_MAX1)) ∧
      bufferSize shape e = strides.headD 0 * shape.headD 0 % SIZE_MAX1 ∧
      ((∀ i, i ≤ shape.length → e * (shape.drop i).prod < SIZE_MAX1) →
        strides[shape.length - 1]? = some e ∧
        (∀ i, i < shape.length - 1 → strides[i]? = some (e * (shape.drop (i + 1)).prod)) ∧
        bufferSize shape e = strides.headD 0 * shape.headD 0) := by
  obtain ⟨strides, hs, hl, hmod⟩ := bufferStrides_spec shape e hr he
  have h0 := hmod 0 (by omega)
  have hhead := headD_of_getElem? strides _ h0
  have hshape : shape.prod = shape.headD 0 * (shape.drop 1).prod := by
    cases shape with
    | nil => simp at hr
    | cons a t => simp
  refine ⟨strides, hs, hl, hmod, ?_, ?_⟩
  · rw [bufferSize_eq, hhead, Nat.mod_mul_mod, hshape]
    congr 1
    ring
  · intro hfit
    refine ⟨?_, ?_, ?_⟩
    · rw [hmod (shape.length - 1) (by omega)]
      have : shape.length - 1 + 1 = shape.length := by omega
      rw [this, Nat.mod_eq_of_lt (hfit shape.length (le_refl _))]
      simp
    · intro i hi
      rw [hmod i (by omega), Nat.mod_eq_of_lt (hfit (i + 1) (by omega))]
    · have hf0 := hfit 0 (Nat.zero_le _)
      rw [List.drop_zero] at hf0
      rw [bufferSize_eq, Nat.mod_eq_of_lt hf0, hhead, Nat.mod_eq_of_lt (hfit 1 hr), hshape]
      ring

theorem exampleShape_fits :
    ∀ i, i ≤ [1, 2, 3, 4].length → 4 * ([1, 2, 3, 4].drop i).prod < SIZE_MAX1 := by
  intro i hi
  have hi4 : i ≤ 4 := hi
  interval_cases i <;> decide

/-- The amended C30 at a concrete input: the shape `(1, 2, 3, 4)` with 4-byte elements has the
strides `(96, 48, 16, 4)` and the buffer size 96. -/
theorem bufferStrides_row_major_witness :
    1 ≤ [1, 2, 3, 4].length ∧ 4 < SIZE_MAX1 ∧
    (∀ i, i ≤ [1, 2, 3, 4].length → 4 * ([1, 2, 3, 4].drop i).prod < SIZE_MAX1) ∧
    bufferStrides [1, 2, 3, 4] 4 = some [96, 48, 16, 4] ∧ bufferSize [1, 2, 3, 4] 4 = 96 ∧
    ∃ strides, bufferStrides [1, 2, 3, 4] 4 = some strides ∧
      strides[[1, 2, 3, 4].length - 1]? = some 4 ∧
      (∀ i, i < [1, 2, 3, 4].length - 1 →
        strides[i]? = some (4 * ([1, 2, 3, 4].drop (i + 1)).prod)) ∧
      bufferSize [1, 2, 3, 4] 4 = strides.headD 0 * [1, 2, 3, 4].headD 0 :=
  ⟨by decide, by decide, exampleShape_fits, by decide, by decide,
    (bufferStrides_row_major [1, 2, 3, 4] 4 (by decide) (by decide)).elim
      fun strides h => ⟨strides, h.1, h.2.2.2.2 exampleShape_fits⟩⟩

end SNPEModel
